import Mathlib

/-!
# simgear `HTTPRepository.cxx`: a shallow embedding of the TerraSync HTTP mirror client

The development follows `src/simgear/io/HTTPRepository.cxx`.

* Text is a list of `Char`, one `Char` per byte of the file.
* C++ objects that live on the heap (`HTTPDirectory`, `HTTP::Request`) carry the address
  they were allocated at; pointers are these addresses.
* Engine operations are state transformers that return a `Res`: either a normal return
  or an abnormal end (a C++ exception, undefined behaviour, an exhausted iteration
  budget), in both cases together with the state as the operation left it.
* What the source takes from outside the file (file system, SHA-1, URL splitting) is the
  parameter `Platform`.
-/

namespace simgear

/-! ## Outcomes -/

/-- Abnormal ends of an operation. -/
inductive Err where
  /-- `throw sg_exception(msg)` -/
  | sg_exception (msg : String)
  /-- `throw sg_io_exception(msg, ...)`; a subclass of `sg_exception` -/
  | sg_io_exception (msg : String)
  /-- the C++ code has undefined behaviour at this point -/
  | undefinedBehaviour (what : String)
  /-- an `assert` failed -/
  | assertion (what : String)
  /-- the iteration budget of the model is used up -/
  | outOfFuel
  deriving DecidableEq, Repr

/-- What `catch (sg_exception&)` catches. -/
def Err.isSgException : Err → Bool
  | .sg_exception _ => true
  | .sg_io_exception _ => true
  | _ => false

/-- Result of running an operation on a state of type `σ`. -/
inductive Res (σ α : Type) where
  | ok (a : α) (s : σ)
  | error (e : Err) (s : σ)
  deriving DecidableEq, Repr

/-- The state an operation leaves behind, however it ended. -/
def Res.state {σ α : Type} : Res σ α → σ
  | .ok _ s => s
  | .error _ s => s

/-- Whether the operation returned normally. -/
def Res.isOk {σ α : Type} : Res σ α → Bool
  | .ok _ _ => true
  | .error _ _ => false

/-! ## C library and stream primitives used by the parsers -/

/-- The bytes of a C string stored in a buffer: everything before the first NUL. -/
def cString (buf : List Char) : List Char :=
  buf.takeWhile (fun c => c != '\x00')

/-- The C library call `strtok_r(s, ":", &save)` on the bytes of a C string. Leading
delimiters are skipped; `none` is the NULL result (no token left); otherwise the token
and the saved rest of the string after the delimiter that ended the token. -/
def strtok_r (s : List Char) : Option (List Char × List Char) :=
  let s1 := s.dropWhile (fun c => c == ':')
  if s1.isEmpty then none
  else some (s1.takeWhile (fun c => c != ':'), (s1.dropWhile (fun c => c != ':')).drop 1)

/-- A later call `strtok_r(NULL, ":", &save)`: the token (if any) and the new saved rest. -/
def strtokNext (save : List Char) : Option (List Char) × List Char :=
  match strtok_r save with
  | none => (none, [])
  | some (tok, rest) => (some tok, rest)

/-- `LONG_MAX` of an LP64 platform. -/
def LONG_MAX : Nat := 2 ^ 63 - 1

/-- Width of `size_t` in bits. -/
def SIZE_BITS : Nat := 64

/-- C `isspace` in the "C" locale. -/
def isspace (c : Char) : Bool :=
  c == ' ' || c == '\t' || c == '\n' || c == '\x0b' || c == '\x0c' || c == '\r'

/-- Value of a run of decimal digits. -/
def digitsValue (ds : List Char) : Nat :=
  ds.foldl (fun acc c => acc * 10 + (c.toNat - 48)) 0

/-- The C library call `strtol(s, NULL, 10)` on the bytes of a C string: optional white space,
optional sign, the longest run of decimal digits, saturating at `LONG_MAX` / `LONG_MIN`. -/
def strtol (s : List Char) : Int :=
  let s1 := s.dropWhile isspace
  let neg := s1.head? == some '-'
  let s2 := if s1.head? == some '-' || s1.head? == some '+' then s1.drop 1 else s1
  let v := digitsValue (s2.takeWhile Char.isDigit)
  if neg then (if v > LONG_MAX + 1 then -((LONG_MAX : Int) + 1) else -(v : Int))
  else (if v > LONG_MAX then (LONG_MAX : Int) else (v : Int))

/-- Conversion of a `long` to `size_t`. -/
def toSizeT (v : Int) : Nat := (v % (2 ^ SIZE_BITS : Int)).toNat

/-- State of a `std::ifstream` opened on a file: the unread bytes and the state bits. -/
structure IStream where
  rest : List Char
  eofbit : Bool
  failbit : Bool
  deriving DecidableEq, Repr

/-- Why `getline` stopped extracting. -/
inductive LineEnd where
  | eof
  | delim
  | full
  deriving DecidableEq, Repr

/-- The extraction loop of `istream::getline(buf, n)` with `room = n - 1` places left in the
buffer: end-of-file is tested first, then the delimiter (extracted, not stored), then the
room. Returns the stored characters, the unread rest and why it stopped. -/
def readLine : Nat → List Char → List Char × List Char × LineEnd
  | _, [] => ([], [], .eof)
  | room, c :: r =>
    if c = '\n' then ([], r, .delim)
    else match room with
      | 0 => ([], c :: r, .full)
      | room + 1 =>
        let res := readLine room r
        (c :: res.1, res.2.1, res.2.2)

/-- The C++ library call `istream::getline(buf, n)`. On a stream that
is not good nothing is extracted, `failbit` is set and the buffer holds the empty string. -/
def IStream.getline (st : IStream) (n : Nat) : List Char × IStream :=
  if st.eofbit || st.failbit then ([], { st with failbit := true })
  else
    match readLine (n - 1) st.rest with
    | (l, r, .eof) => (l, { rest := r, eofbit := true, failbit := l.isEmpty })
    | (l, r, .delim) => (l, { rest := r, eofbit := false, failbit := false })
    | (l, r, .full) => (l, { rest := r, eofbit := false, failbit := true })

/-! ## Data model -/

/-- `AbstractRepository::ResultCode`, the codes this file uses. -/
inductive ResultCode where
  | REPO_NO_ERROR
  | REPO_ERROR_NOT_FOUND
  deriving DecidableEq, Repr

/-- `HTTPRepoPrivate::HashCacheEntry` -/
structure HashCacheEntry where
  filePath : String
  modTime : Int
  lengthBytes : Nat
  hashHex : String
  deriving DecidableEq, Repr

/-- `HTTPDirectory::ChildInfo::Type` -/
inductive ChildType where
  | FileType
  | DirectoryType
  deriving DecidableEq, Repr

/-- `HTTPDirectory::ChildInfo` -/
structure ChildInfo where
  type : ChildType
  name : String
  hash : String
  sizeInBytes : Nat
  deriving DecidableEq, Repr

/-- The constructor `ChildInfo(ty, nameData, hashData)`. `name(nameData)` builds a
`std::string` from a `const char*`, which is undefined for NULL (`none`); the hash is
`hashData ? hashData : ""`; the size starts at 0. -/
def ChildInfo.new (ty : ChildType) (nameData hashData : Option (List Char)) : Option ChildInfo :=
  match nameData with
  | none => none
  | some n =>
    some { type := ty, name := String.mk n,
           hash := match hashData with
             | some h => String.mk h
             | none => "",
           sizeInBytes := 0 }

/-- `ChildInfo::setSize` -/
def ChildInfo.setSize (c : ChildInfo) (sizeData : List Char) : ChildInfo :=
  { c with sizeInBytes := toSizeT (strtol sizeData) }

/-- `children.back().setSize(sizeData)` -/
def setSizeOfBack (children : List ChildInfo) (sizeData : List Char) : List ChildInfo :=
  match children.reverse with
  | [] => children
  | c :: front => (c.setSize sizeData :: front).reverse

/-! ## The manifest parser -/

/-- Body of the `while` loop of `parseDirIndex` after `getline`: the line buffer is split
with `strtok_r`; a `continue` is a normal return with the list as it was. -/
def parseDirIndexLine (lineBuffer : List Char) (children : List ChildInfo) :
    Res (List ChildInfo) Unit :=
  match strtok_r (cString lineBuffer) with
  | none => .ok () children
  | some (typeData, last0) =>
    if typeData = "version".toList then .ok () children
    else if typeData = "path".toList then .ok () children
    else
      let nameTok := strtokNext last0
      let hashTok := strtokNext nameTok.2
      let sizeTok := strtokNext hashTok.2
      let pushed : Res (List ChildInfo) Unit :=
        if typeData.head? = some 'f' then
          match ChildInfo.new .FileType nameTok.1 hashTok.1 with
          | some c => .ok () (children ++ [c])
          | none => .error (.undefinedBehaviour "std::string from NULL name") children
        else if typeData.head? = some 'd' then
          match ChildInfo.new .DirectoryType nameTok.1 hashTok.1 with
          | some c => .ok () (children ++ [c])
          | none => .error (.undefinedBehaviour "std::string from NULL name") children
        else .error (.sg_io_exception "Malformed line code in dir index file") children
      match pushed with
      | .error e cs => .error e cs
      | .ok _ cs =>
        match sizeTok.1 with
        | some sizeData => .ok () (setSizeOfBack cs sizeData)
        | none => .ok () cs

/-- The `while (!indexStream.eof())` loop of `parseDirIndex`; one unit of fuel per
iteration. -/
def parseDirIndexLoop : Nat → IStream → List ChildInfo → Res (List ChildInfo) Unit
  | 0, _, children => .error .outOfFuel children
  | fuel + 1, st, children =>
    if st.eofbit then .ok () children
    else
      let got := st.getline 512
      match parseDirIndexLine got.1 children with
      | .error e cs => .error e cs
      | .ok _ cs => parseDirIndexLoop fuel got.2 cs

/-- `parseDirIndex` on the result of opening the file: `none` when the stream could not be
opened, else the bytes of the file. The entries are appended to `children`. -/
def parseDirIndexText (fuel : Nat) (file : Option (List Char)) (children : List ChildInfo) :
    Res (List ChildInfo) Unit :=
  match file with
  | none => .error (.sg_io_exception "cannot open dirIndex file") children
  | some text => parseDirIndexLoop fuel { rest := text, eofbit := false, failbit := false } children


/-! ## Paths and the platform -/

/-- Modelled from the spec: `SGPath::append` (simgear/misc/sg_path is not under src/). A
path is its string; a piece is joined with one `/`, the empty path takes the piece as
it is and appending the empty piece leaves the path as it is, so that the absolute path
of the root directory is the base path and its manifest is `<basePath>/.dirindex`. -/
def SGPath.append (path p : String) : String :=
  if path = "" then p else if p = "" then path else path ++ "/" ++ p

/-- What the source takes from outside this file, over a type `F` of states of the
local file system: `SGPath` and `simgear::Dir` queries, file streams, POSIX calls, the
SHA-1 primitive and `HTTP::Request::path`. -/
structure Platform (F : Type) where
  /-- `SGPath::exists` -/
  pathExists : F → String → Bool
  /-- `SGPath::isDir` -/
  isDir : F → String → Bool
  /-- `SGPath::sizeInBytes` -/
  sizeInBytes : F → String → Nat
  /-- `SGPath::modTime` -/
  modTime : F → String → Int
  /-- `Dir::children(0)`: the names (`SGPath::file()`) of the entries of a directory -/
  children : F → String → List String
  /-- opening a file for reading and reading it to the end; `none` when it cannot be opened -/
  readFile : F → String → Option (List Char)
  /-- `std::ofstream` with `trunc`, writing the bytes, closing; `none` when it cannot be opened -/
  writeFile : F → String → List Char → Option F
  /-- `SGPath::remove` with its success flag -/
  remove : F → String → F × Bool
  /-- `Dir::remove(true)` with its success flag -/
  removeDir : F → String → F × Bool
  /-- `Dir::exists` -/
  dirExists : F → String → Bool
  /-- `Dir::create(0700)` with its success flag -/
  createDir : F → String → F × Bool
  /-- `open(path, O_CREAT | O_TRUNC | O_RDWR, mode)`; `none` when it fails -/
  openTrunc : F → String → Option F
  /-- `write(fd, s, n)` on the descriptor opened for the path -/
  write : F → String → List Char → F
  /-- hexadecimal SHA-1 digest of a byte sequence (`sha1_result` then `encodeHex`) -/
  sha1Hex : List Char → String
  /-- `HTTP::Request::path`: the path component of a URL -/
  urlPath : String → String

/-! ## Engine state -/

/-- An `HTTPDirectory` object: the address it was allocated at and its members. -/
structure HTTPDirectory where
  addr : Nat
  relativePath : String
  children : List ChildInfo
  deriving DecidableEq, Repr

/-- The two request classes. -/
inductive RequestKind where
  | FileGetRequest (fileName : String)
  | DirGetRequest
  deriving DecidableEq, Repr

/-- An `HTTP::Request` object as the engine sees it: its address, its URL and the
`HTTPDirectory*` it was built for. -/
structure Request where
  addr : Nat
  url : String
  directory : Nat
  kind : RequestKind
  deriving DecidableEq, Repr

/-- `HTTPRepoPrivate` together with the heap allocator and the local file system. -/
structure HTTPRepoPrivate (F : Type) where
  hashes : List HashCacheEntry
  baseUrl : String
  basePath : String
  isUpdating : Bool
  status : ResultCode
  rootDir : HTTPDirectory
  requests : List Request
  directories : List HTTPDirectory
  /-- the local file system -/
  fs : F
  /-- next address `new` hands out -/
  nextAddr : Nat
  deriving DecidableEq, Repr

variable {F : Type}

/-- Dereference an `HTTPDirectory*`: the root object or a registered one; `none` for a
pointer to no live object. -/
def HTTPRepoPrivate.deref (s : HTTPRepoPrivate F) (p : Nat) : Option HTTPDirectory :=
  if s.rootDir.addr = p then some s.rootDir
  else s.directories.find? (fun d => d.addr == p)

/-- Replace the first element satisfying `q`. -/
def replaceFirst {α : Type} (q : α → Bool) (f : α → α) : List α → List α
  | [] => []
  | a :: l => if q a then f a :: l else a :: replaceFirst q f l

/-- Assign the `children` member of the object a pointer refers to. -/
def HTTPRepoPrivate.setChildren (s : HTTPRepoPrivate F) (p : Nat) (cs : List ChildInfo) :
    HTTPRepoPrivate F :=
  if s.rootDir.addr = p then { s with rootDir := { s.rootDir with children := cs } }
  else { s with directories :=
    replaceFirst (fun d => d.addr == p) (fun d => { d with children := cs }) s.directories }

/-- Sequencing: continue with the result and state of a normal return, pass an abnormal
end on. -/
def Res.bind {σ α β : Type} (r : Res σ α) (f : α → σ → Res σ β) : Res σ β :=
  match r with
  | .ok a s => f a s
  | .error e s => .error e s

/-- Use of an `HTTPDirectory*`; a pointer to no live object is undefined behaviour. -/
def withDir {β : Type} (s : HTTPRepoPrivate F) (p : Nat)
    (f : HTTPDirectory → Res (HTTPRepoPrivate F) β) : Res (HTTPRepoPrivate F) β :=
  match s.deref p with
  | some d => f d
  | none => .error (.undefinedBehaviour "use of a deleted HTTPDirectory") s

/-! ## Hash cache -/

/-- `HashEntryWithPath` -/
def HashEntryWithPath (path : String) (entry : HashCacheEntry) : Bool :=
  entry.filePath == path

/-- One line of the `.hashes` file as `writeHashCache` prints it. -/
def hashCacheLine (e : HashCacheEntry) : List Char :=
  e.filePath.toList ++ ":".toList ++ (toString e.modTime).toList ++ ":".toList
    ++ (toString e.lengthBytes).toList ++ ":".toList ++ e.hashHex.toList ++ "\n".toList

/-- The text `writeHashCache` writes. -/
def hashCacheText (hashes : List HashCacheEntry) : List Char :=
  (hashes.map hashCacheLine).flatten

/-- `HTTPRepoPrivate::writeHashCache`; a stream that could not be opened writes nothing. -/
def writeHashCache (P : Platform F) (s : HTTPRepoPrivate F) : HTTPRepoPrivate F :=
  match P.writeFile s.fs (SGPath.append s.basePath ".hashes") (hashCacheText s.hashes) with
  | some fs1 => { s with fs := fs1 }
  | none => s

/-- `HTTPRepoPrivate::updatedFileContents` -/
def updatedFileContents (P : Platform F) (s : HTTPRepoPrivate F) (p : String)
    (newHash : String) : HTTPRepoPrivate F :=
  let s1 := { s with hashes := s.hashes.eraseP (HashEntryWithPath p) }
  if newHash = "" then s1
  else
    let entry : HashCacheEntry :=
      { filePath := p, hashHex := newHash,
        modTime := P.modTime s1.fs p, lengthBytes := P.sizeInBytes s1.fs p }
    writeHashCache P { s1 with hashes := s1.hashes ++ [entry] }

/-- `HTTPRepoPrivate::computeHashForPath` -/
def computeHashForPath (P : Platform F) (s : HTTPRepoPrivate F) (p : String) :
    Res (HTTPRepoPrivate F) String :=
  if !P.pathExists s.fs p then .ok "" s
  else match P.readFile s.fs p with
    | none => .error (.sg_io_exception "Couldn't open file for compute hash") s
    | some bytes => .ok (P.sha1Hex bytes) s

/-- `HTTPRepoPrivate::hashForPath` -/
def hashForPath (P : Platform F) (s : HTTPRepoPrivate F) (p : String) :
    Res (HTTPRepoPrivate F) String :=
  match s.hashes.find? (HashEntryWithPath p) with
  | some it =>
    if P.sizeInBytes s.fs p = it.lengthBytes ∧ P.modTime s.fs p = it.modTime then
      .ok it.hashHex s
    else
      let s1 := { s with hashes := s.hashes.eraseP (HashEntryWithPath p) }
      (computeHashForPath P s1 p).bind fun hash s2 => .ok hash (updatedFileContents P s2 p hash)
  | none =>
    (computeHashForPath P s p).bind fun hash s2 => .ok hash (updatedFileContents P s2 p hash)

/-- The per-line body of `parseHashCache`: four tokens or the line is skipped. -/
def parseHashCacheLine (buf : List Char) (hashes : List HashCacheEntry) : List HashCacheEntry :=
  let nameTok := match strtok_r (cString buf) with
    | none => ((none : Option (List Char)), ([] : List Char))
    | some (tok, rest) => (some tok, rest)
  let timeTok := strtokNext nameTok.2
  let sizeTok := strtokNext timeTok.2
  let hashTok := strtokNext sizeTok.2
  match nameTok.1, timeTok.1, sizeTok.1, hashTok.1 with
  | some nameData, some timeData, some sizeData, some hashData =>
    hashes ++ [{ filePath := String.mk nameData, hashHex := String.mk hashData,
                 modTime := strtol timeData, lengthBytes := toSizeT (strtol sizeData) }]
  | _, _, _, _ => hashes

/-- The `while (!stream.eof())` loop of `parseHashCache`. -/
def parseHashCacheLoop : Nat → IStream → List HashCacheEntry → Option (List HashCacheEntry)
  | 0, _, _ => none
  | fuel + 1, st, hashes =>
    if st.eofbit then some hashes
    else
      let got := st.getline 2048
      parseHashCacheLoop fuel got.2 (parseHashCacheLine got.1 hashes)

/-- `HTTPRepoPrivate::parseHashCache` -/
def parseHashCache (P : Platform F) (fuel : Nat) (s : HTTPRepoPrivate F) :
    Res (HTTPRepoPrivate F) Unit :=
  let s1 := { s with hashes := [] }
  let cachePath := SGPath.append s.basePath ".hashes"
  if !P.pathExists s1.fs cachePath then .ok () s1
  else
    let st : IStream := match P.readFile s1.fs cachePath with
      | some text => { rest := text, eofbit := false, failbit := false }
      | none => { rest := [], eofbit := false, failbit := true }
    match parseHashCacheLoop fuel st [] with
    | some hashes => .ok () { s1 with hashes := hashes }
    | none => .error .outOfFuel s1


/-! ## Directory nodes -/

/-- `HTTPDirectory::absolutePath` -/
def absolutePath (s : HTTPRepoPrivate F) (d : HTTPDirectory) : String :=
  SGPath.append s.basePath d.relativePath

/-- `HTTPDirectory::url` -/
def url (s : HTTPRepoPrivate F) (d : HTTPDirectory) : String :=
  if d.relativePath = "" then s.baseUrl else s.baseUrl ++ "/" ++ d.relativePath

/-- `ChildInfo::operator<` on the bytes of the names. -/
def ChildInfo.lt (a b : ChildInfo) : Prop := a.name.toList < b.name.toList

instance : DecidableRel ChildInfo.lt := fun a b =>
  inferInstanceAs (Decidable (a.name.toList < b.name.toList))

/-- `std::sort(children.begin(), children.end())`: the entries in ascending order of
`operator<`. -/
def sortChildren (children : List ChildInfo) : List ChildInfo :=
  children.insertionSort (fun a b => ¬ ChildInfo.lt b a)

/-- `HTTPDirectory::parseDirIndex` appending to `children`: opens
`absolutePath()/.dirindex` and runs the line loop. -/
def parseDirIndex (P : Platform F) (fuel : Nat) (basePath : String) (fs : F)
    (relativePath : String) (children : List ChildInfo) : Res (List ChildInfo) Unit :=
  let p := SGPath.append (SGPath.append basePath relativePath) ".dirindex"
  parseDirIndexText fuel (P.readFile fs p) children

/-- The constructor `HTTPDirectory(repo, path)` for an object allocated at `addr`. An
`sg_exception` of the parser is caught and leaves no children; any other abnormal end of
the parser ends the constructor. -/
def HTTPDirectory.new (P : Platform F) (fuel : Nat) (basePath : String) (fs : F)
    (addr : Nat) (path : String) : Except Err HTTPDirectory :=
  if P.pathExists fs (SGPath.append basePath path) then
    match parseDirIndex P fuel basePath fs path [] with
    | .ok _ children =>
      .ok { addr := addr, relativePath := path, children := sortChildren children }
    | .error e _ =>
      if e.isSgException then .ok { addr := addr, relativePath := path, children := [] }
      else .error e
  else .ok { addr := addr, relativePath := path, children := [] }

/-- `HTTPDirectory::dirIndexUpdated`. The parser works on the `children` member itself,
so when it throws the entries pushed so far stay in the member and the exception leaves
the function. -/
def dirIndexUpdated (P : Platform F) (fuel : Nat) (s : HTTPRepoPrivate F) (this : Nat)
    (hash : String) : Res (HTTPRepoPrivate F) Unit :=
  withDir s this fun d =>
    let fpath := SGPath.append d.relativePath ".dirindex"
    let s1 := updatedFileContents P s fpath hash
    match parseDirIndex P fuel s1.basePath s1.fs d.relativePath [] with
    | .ok _ children => .ok () (s1.setChildren this (sortChildren children))
    | .error e children => .error e (s1.setChildren this children)

/-- `HTTPRepoPrivate::failedToGetRootIndex` -/
def failedToGetRootIndex (s : HTTPRepoPrivate F) : HTTPRepoPrivate F :=
  { s with status := .REPO_ERROR_NOT_FOUND }

/-- `HTTPDirectory::failedToUpdate`; `SGPath::isNull` is emptiness of the path string. -/
def failedToUpdate (s : HTTPRepoPrivate F) (this : Nat) : Res (HTTPRepoPrivate F) Unit :=
  withDir s this fun d =>
    if d.relativePath = "" then .ok () (failedToGetRootIndex s)
    else .ok () s

/-- `HTTPDirectory::indexChildren` -/
def indexChildren (d : HTTPDirectory) : List String :=
  d.children.map (fun c => c.name)

/-- `HTTPDirectory::findIndexChild`; `none` is `children.end()`. -/
def findIndexChild (d : HTTPDirectory) (name : String) : Option ChildInfo :=
  d.children.find? (fun info => info.name == name)

/-- `HTTPDirectory::hashForChild` -/
def hashForChild (P : Platform F) (s : HTTPRepoPrivate F) (this : Nat) (child : ChildInfo) :
    Res (HTTPRepoPrivate F) String :=
  withDir s this fun d =>
    let p := SGPath.append (absolutePath s d) child.name
    let p1 := if child.type = .DirectoryType then SGPath.append p ".dirindex" else p
    hashForPath P s p1

/-- `HTTPDirectory::didUpdateFile` -/
def didUpdateFile (P : Platform F) (s : HTTPRepoPrivate F) (this : Nat) (file hash : String) :
    Res (HTTPRepoPrivate F) Unit :=
  withDir s this fun d =>
    .ok () (updatedFileContents P s (SGPath.append d.relativePath file) hash)

/-- `HTTPDirectory::didFailToUpdateFile`: a log line. -/
def didFailToUpdateFile (s : HTTPRepoPrivate F) (this : Nat) (_file : String) :
    Res (HTTPRepoPrivate F) Unit :=
  withDir s this fun _ => .ok () s

/-! ## Registry and request bookkeeping -/

/-- `DirectoryWithPath` -/
def DirectoryWithPath (path : String) (entry : HTTPDirectory) : Bool :=
  entry.relativePath == path

/-- `HTTPRepoPrivate::getOrCreateDirectory`; returns the pointer. -/
def getOrCreateDirectory (P : Platform F) (fuel : Nat) (s : HTTPRepoPrivate F) (path : String) :
    Res (HTTPRepoPrivate F) Nat :=
  match s.directories.find? (DirectoryWithPath path) with
  | some d => .ok d.addr s
  | none =>
    match HTTPDirectory.new P fuel s.basePath s.fs s.nextAddr path with
    | .error e => .error e s
    | .ok d => .ok d.addr { s with directories := s.directories ++ [d], nextAddr := s.nextAddr + 1 }

/-- `HTTPRepoPrivate::deleteDirectory` -/
def deleteDirectory (P : Platform F) (s : HTTPRepoPrivate F) (path : String) :
    Res (HTTPRepoPrivate F) Bool :=
  match s.directories.find? (DirectoryWithPath path) with
  | some d =>
    let s1 := { s with directories := s.directories.eraseP (DirectoryWithPath path) }
    let removed := P.removeDir s1.fs (absolutePath s1 d)
    let s2 := { s1 with fs := removed.1 }
    .ok removed.2 (updatedFileContents P s2 path "")
  | none => .ok false s

/-- `HTTPRepoPrivate::finishedRequest`; requests are compared as pointers. -/
def finishedRequest (s : HTTPRepoPrivate F) (req : Request) : Res (HTTPRepoPrivate F) Unit :=
  match s.requests.find? (fun r => r.addr == req.addr) with
  | none => .error (.sg_exception "lost request somehow") s
  | some _ =>
    let requests := s.requests.eraseP (fun r => r.addr == req.addr)
    .ok () { s with requests := requests,
                    isUpdating := if requests.isEmpty then false else s.isUpdating }

/-- `HTTPRepoPrivate::updateFile`: a new `FileGetRequest(dir, name)` with URL
`dir->url() + "/" + name` is handed to the HTTP client and appended to `requests`. -/
def updateFile (s : HTTPRepoPrivate F) (dir : Nat) (name : String) :
    Res (HTTPRepoPrivate F) Request :=
  withDir s dir fun d =>
    let r : Request :=
      { addr := s.nextAddr, url := url s d ++ "/" ++ name, directory := dir,
        kind := .FileGetRequest name }
    .ok r { s with requests := s.requests ++ [r], nextAddr := s.nextAddr + 1 }

/-- `HTTPRepoPrivate::updateDir`: a new `DirGetRequest(dir)` with URL
`dir->url() + "/.dirindex"` is handed to the HTTP client and appended to `requests`. -/
def updateDir (s : HTTPRepoPrivate F) (dir : Nat) : Res (HTTPRepoPrivate F) Request :=
  withDir s dir fun d =>
    let r : Request :=
      { addr := s.nextAddr, url := url s d ++ "/.dirindex", directory := dir,
        kind := .DirGetRequest }
    .ok r { s with requests := s.requests ++ [r], nextAddr := s.nextAddr + 1 }

/-! ## Reconciliation -/

/-- `HTTPDirectory::removeChild` -/
def removeChild (P : Platform F) (s : HTTPRepoPrivate F) (this : Nat) (name : String) :
    Res (HTTPRepoPrivate F) Unit :=
  withDir s this fun d =>
    let p := SGPath.append (absolutePath s d) name
    let fpath := SGPath.append d.relativePath name
    if P.isDir s.fs p then
      (deleteDirectory P s fpath).bind fun _ s1 => .ok () s1
    else
      let s1 := updatedFileContents P s fpath ""
      .ok () { s1 with fs := (P.remove s1.fs p).1 }

/-- `HTTPDirectory::removeOrphans` -/
def removeOrphans (P : Platform F) (this : Nat) :
    List String → HTTPRepoPrivate F → Res (HTTPRepoPrivate F) Unit
  | [], s => .ok () s
  | name :: rest, s => (removeChild P s this name).bind fun _ s1 => removeOrphans P this rest s1

/-- `HTTPDirectory::scheduleUpdates` -/
def scheduleUpdates (P : Platform F) (fuel : Nat) (this : Nat) :
    List String → HTTPRepoPrivate F → Res (HTTPRepoPrivate F) Unit
  | [], s => .ok () s
  | name :: rest, s =>
    withDir s this fun d =>
      match findIndexChild d name with
      | none => scheduleUpdates P fuel this rest s
      | some cit =>
        if cit.type = .FileType then
          (updateFile s this name).bind fun _ s1 => scheduleUpdates P fuel this rest s1
        else
          (getOrCreateDirectory P fuel s (SGPath.append d.relativePath name)).bind
            fun childDir s1 =>
              (updateDir s1 childDir).bind fun _ s2 => scheduleUpdates P fuel this rest s2

/-- The local lists of `updateChildrenBasedOnHash`. -/
structure Classified where
  indexNames : List String
  toBeUpdated : List String
  orphans : List String
  deriving DecidableEq, Repr

/-- One iteration of the loop over the file-system children in
`updateChildrenBasedOnHash`, for the child called `name`; `recurse` is the recursive
call of `updateChildrenBasedOnHash` on a child directory. For a child that is not in
the index the iterator `c` is `children.end()`, and the statement after the
`if`/`else` chain reads `c->name` through it, which is undefined behaviour. -/
def classifyChild (P : Platform F) (fuel : Nat)
    (recurse : Nat → HTTPRepoPrivate F → Res (HTTPRepoPrivate F) Unit)
    (this : Nat) (name : String) (acc : Classified) (s : HTTPRepoPrivate F) :
    Res (HTTPRepoPrivate F) Classified :=
  withDir s this fun d0 =>
    let info : ChildInfo :=
      { type := if P.isDir s.fs (SGPath.append (absolutePath s d0) name)
                then .DirectoryType else .FileType,
        name := name, hash := "", sizeInBytes := 0 }
    (hashForChild P s this info).bind fun hash s1 =>
      withDir s1 this fun d =>
        let c := findIndexChild d name
        let branch : Res (HTTPRepoPrivate F) Classified :=
          match c with
          | none => .ok { acc with orphans := acc.orphans ++ [name] } s1
          | some c =>
            if c.hash ≠ hash then
              .ok { acc with toBeUpdated := acc.toBeUpdated ++ [c.name] } s1
            else if c.type = .DirectoryType then
              (getOrCreateDirectory P fuel s1 (SGPath.append d.relativePath c.name)).bind
                fun childDir s2 => (recurse childDir s2).bind fun _ s3 => .ok acc s3
            else .ok acc s1
        branch.bind fun acc1 s4 =>
          match c with
          | none => .error (.undefinedBehaviour "c->name read through children.end()") s4
          | some c => .ok { acc1 with indexNames := acc1.indexNames.erase c.name } s4

/-- The loop over the file-system children in `updateChildrenBasedOnHash`. -/
def classifyChildren (P : Platform F) (fuel : Nat)
    (recurse : Nat → HTTPRepoPrivate F → Res (HTTPRepoPrivate F) Unit) (this : Nat) :
    List String → Classified → HTTPRepoPrivate F → Res (HTTPRepoPrivate F) Classified
  | [], acc, s => .ok acc s
  | name :: rest, acc, s =>
    (classifyChild P fuel recurse this name acc s).bind fun acc1 s1 =>
      classifyChildren P fuel recurse this rest acc1 s1

/-- `HTTPDirectory::updateChildrenBasedOnHash`; `depth` bounds the nesting of the
recursive calls on child directories, `fuel` is the budget of each manifest parse. -/
def updateChildrenBasedOnHash (P : Platform F) (fuel : Nat) :
    Nat → Nat → HTTPRepoPrivate F → Res (HTTPRepoPrivate F) Unit
  | 0, _, s => .error .outOfFuel s
  | depth + 1, this, s =>
    withDir s this fun d =>
      let fsChildren := P.children s.fs (absolutePath s d)
      (classifyChildren P fuel (updateChildrenBasedOnHash P fuel depth) this fsChildren
          { indexNames := indexChildren d, toBeUpdated := [], orphans := [] } s).bind
        fun acc s1 =>
          (removeOrphans P this acc.orphans s1).bind fun _ s2 =>
            scheduleUpdates P fuel this (acc.toBeUpdated ++ acc.indexNames) s2


/-! ## The public interface and the request callbacks -/

/-- The constructor `HTTPRepository(base, cl)` on a file system `fs`: the private part is
initialised and the root `HTTPDirectory` is allocated (at address 0). -/
def HTTPRepository.new (P : Platform F) (fuel : Nat) (base : String) (fs : F) :
    Except Err (HTTPRepoPrivate F) :=
  match HTTPDirectory.new P fuel base fs 0 "" with
  | .error e => .error e
  | .ok root =>
    .ok { hashes := [], baseUrl := "", basePath := base, isUpdating := false,
          status := .REPO_NO_ERROR, rootDir := root, requests := [], directories := [],
          fs := fs, nextAddr := 1 }

/-- `HTTPRepository::setBaseUrl` -/
def setBaseUrl (s : HTTPRepoPrivate F) (url : String) : HTTPRepoPrivate F :=
  { s with baseUrl := url }

/-- `HTTPRepository::update` -/
def update (s : HTTPRepoPrivate F) : Res (HTTPRepoPrivate F) Unit :=
  if s.isUpdating then .ok () s
  else
    (updateDir { s with status := .REPO_NO_ERROR, isUpdating := true } s.rootDir.addr).bind
      fun _ s1 => .ok () s1

/-- `HTTPRepository::isDoingSync` -/
def isDoingSync (s : HTTPRepoPrivate F) : Bool :=
  if s.status ≠ .REPO_NO_ERROR then false else s.isUpdating

/-- `HTTPRepository::failure` -/
def failure (s : HTTPRepoPrivate F) : ResultCode := s.status

/-- The members of a `FileGetRequest` its callbacks change: whether `fd` is an open
descriptor (`fd >= 0`), and the bytes fed to `hashContext` since `sha1_init`, `none` as
long as `sha1_init` has not run. -/
structure FileGetState where
  fdOpen : Bool
  hashContext : Option (List Char)
  deriving DecidableEq, Repr

/-- The members as the constructor `FileGetRequest(d, file)` leaves them. -/
def FileGetState.init : FileGetState := { fdOpen := false, hashContext := none }

/-- The block `if (fd < 0) { fd = ::open(...); ...; sha1_init(&hashContext); }` of
`gotBodyData`: the file system and the members after it. -/
def FileGetRequest.openIfNeeded (P : Platform F) (fs : F) (p : String) (st : FileGetState) :
    F × FileGetState :=
  if st.fdOpen then (fs, st)
  else match P.openTrunc fs p with
    | some fs1 => (fs1, { fdOpen := true, hashContext := some [] })
    | none => (fs, { fdOpen := false, hashContext := some [] })

/-- `FileGetRequest::gotBodyData` for the request `req` for the file `fileName`; a
`write` on a descriptor that is not open writes nothing. -/
def FileGetRequest.gotBodyData (P : Platform F) (s : HTTPRepoPrivate F) (req : Request)
    (fileName : String) (st : FileGetState) (chunk : List Char) :
    Res (HTTPRepoPrivate F) FileGetState :=
  withDir s req.directory fun d =>
    let p := SGPath.append (absolutePath s d) fileName
    let opened := FileGetRequest.openIfNeeded P s.fs p st
    let fs2 := if opened.2.fdOpen then P.write opened.1 p chunk else opened.1
    .ok { opened.2 with hashContext := opened.2.hashContext.map (fun b => b ++ chunk) }
      { s with fs := fs2 }

/-- `FileGetRequest::onDone` for the request `req` for the file `fileName` with the given
response code. -/
def FileGetRequest.onDone (P : Platform F) (s : HTTPRepoPrivate F) (req : Request)
    (fileName : String) (st : FileGetState) (responseCode : Nat) :
    Res (HTTPRepoPrivate F) Unit :=
  let notified : Res (HTTPRepoPrivate F) Unit :=
    if responseCode = 200 then
      match st.hashContext with
      | none => .error (.undefinedBehaviour "sha1_result on a context without sha1_init") s
      | some bytes => didUpdateFile P s req.directory fileName (P.sha1Hex bytes)
    else didFailToUpdateFile s req.directory fileName
  notified.bind fun _ s1 => finishedRequest s1 req

/-- In `DirGetRequest::onDone`: `if (!d.exists()) { if (!d.create(0700)) throw ...; }` for
the directory at `dpath`. -/
def DirGetRequest.ensureDir (P : Platform F) (s : HTTPRepoPrivate F) (dpath : String) :
    Res (HTTPRepoPrivate F) Unit :=
  if P.dirExists s.fs dpath then .ok () s
  else if (P.createDir s.fs dpath).2 then .ok () { s with fs := (P.createDir s.fs dpath).1 }
  else .error (.sg_io_exception "Unable to create directory")
    { s with fs := (P.createDir s.fs dpath).1 }

/-- The `responseCode() == 200` branch of `DirGetRequest::onDone` up to and including
`dirIndexUpdated`. -/
def DirGetRequest.storeIndex (P : Platform F) (fuel : Nat) (s : HTTPRepoPrivate F)
    (req : Request) (body : List Char) : Res (HTTPRepoPrivate F) Unit :=
  withDir s req.directory fun _ =>
    let hash := P.sha1Hex body
    (hashForPath P s (P.urlPath req.url)).bind fun curHash s1 =>
      if hash ≠ curHash then
        withDir s1 req.directory fun d =>
          (DirGetRequest.ensureDir P s1 (absolutePath s1 d)).bind fun _ s2 =>
            match P.writeFile s2.fs (SGPath.append (absolutePath s2 d) ".dirindex") body with
            | none => .error (.assertion "of.is_open()") s2
            | some fs1 => dirIndexUpdated P fuel { s2 with fs := fs1 } req.directory hash
      else .ok () s1

/-- `DirGetRequest::onDone` for the request `req`, whose accumulated body is `body`, with
the given response code. -/
def DirGetRequest.onDone (P : Platform F) (fuel depth : Nat) (s : HTTPRepoPrivate F)
    (req : Request) (body : List Char) (responseCode : Nat) : Res (HTTPRepoPrivate F) Unit :=
  let handled : Res (HTTPRepoPrivate F) Unit :=
    if responseCode = 200 then
      (DirGetRequest.storeIndex P fuel s req body).bind fun _ s1 =>
        updateChildrenBasedOnHash P fuel depth req.directory s1
    else failedToUpdate s req.directory
  handled.bind fun _ s1 => finishedRequest s1 req


/-! ## An in-memory platform

A small concrete `Platform`, used to run the embedding on concrete inputs. -/

/-- A file or directory of the in-memory file system. -/
structure MemEntry where
  path : String
  isDir : Bool
  bytes : List Char
  mtime : Int
  deriving DecidableEq, Repr

/-- The in-memory file system: its entries and a clock for modification times. -/
structure MemFS where
  entries : List MemEntry
  clock : Int
  deriving DecidableEq, Repr

/-- The entry at a path. -/
def MemFS.lookup (fs : MemFS) (p : String) : Option MemEntry :=
  fs.entries.find? (fun e => e.path == p)

/-- `rest` when `l = pre ++ rest`. -/
def stripLeading? : List Char → List Char → Option (List Char)
  | [], l => some l
  | _ :: _, [] => none
  | a :: pre, b :: l => if a = b then stripLeading? pre l else none

/-- The name under which `path` is a direct entry of the directory `dir`, if it is one. -/
def MemFS.childName (dir path : String) : Option String :=
  match stripLeading? (if dir = "" then [] else dir.toList ++ ['/']) path.toList with
  | some name => if name ≠ [] ∧ '/' ∉ name then some (String.mk name) else none
  | none => none

/-- Whether `path` is `dir` or lies below it. -/
def MemFS.isBelow (dir path : String) : Bool :=
  path == dir || (stripLeading? (dir.toList ++ ['/']) path.toList).isSome

/-- Create or truncate the file at `p` with the given bytes. -/
def MemFS.put (fs : MemFS) (p : String) (bytes : List Char) : MemFS :=
  { entries := fs.entries.filter (fun e => e.path != p)
      ++ [{ path := p, isDir := false, bytes := bytes, mtime := fs.clock }],
    clock := fs.clock + 1 }

/-- Append bytes to the file at `p`. -/
def MemFS.extend (fs : MemFS) (p : String) (chunk : List Char) : MemFS :=
  let grow : MemEntry → MemEntry := fun e =>
    if e.path == p then { e with bytes := e.bytes ++ chunk } else e
  { fs with entries := fs.entries.map grow }

/-- Path component of a URL: what follows the host, up to a `?`. -/
def MemFS.urlPath (u : String) : String :=
  let afterScheme : List Char → List Char := fun l =>
    match l.dropWhile (fun c => c != ':') with
    | ':' :: '/' :: '/' :: r => r
    | _ => l
  String.mk (((afterScheme u.toList).dropWhile (fun c => c != '/')).takeWhile (fun c => c != '?'))

/-- The in-memory platform. Its digest is a stand-in for SHA-1: `#` followed by the
bytes, those that are not alphanumeric replaced by `_`. -/
def memPlatform : Platform MemFS where
  pathExists fs p := (fs.lookup p).isSome
  isDir fs p := match fs.lookup p with
    | some e => e.isDir
    | none => false
  sizeInBytes fs p := match fs.lookup p with
    | some e => e.bytes.length
    | none => 0
  modTime fs p := match fs.lookup p with
    | some e => e.mtime
    | none => 0
  children fs dir :=
    (fs.entries.filterMap (fun e => MemFS.childName dir e.path)).filter
      (fun n => n.toList.head? != some '.')
  readFile fs p := match fs.lookup p with
    | some e => if e.isDir then none else some e.bytes
    | none => none
  writeFile fs p bytes := match fs.lookup p with
    | some e => if e.isDir then none else some (fs.put p bytes)
    | none => some (fs.put p bytes)
  remove fs p := match fs.lookup p with
    | some e =>
      if e.isDir then (fs, false)
      else ({ fs with entries := fs.entries.filter (fun e => e.path != p) }, true)
    | none => (fs, false)
  removeDir fs p := match fs.lookup p with
    | some e =>
      if e.isDir then
        ({ fs with entries := fs.entries.filter (fun e => !MemFS.isBelow p e.path) }, true)
      else (fs, false)
    | none => (fs, false)
  dirExists fs p := match fs.lookup p with
    | some e => e.isDir
    | none => false
  createDir fs p := match fs.lookup p with
    | some _ => (fs, false)
    | none =>
      ({ entries := fs.entries ++ [{ path := p, isDir := true, bytes := [], mtime := fs.clock }],
         clock := fs.clock + 1 }, true)
  openTrunc fs p := match fs.lookup p with
    | some e => if e.isDir then none else some (fs.put p [])
    | none => some (fs.put p [])
  write fs p chunk := fs.extend p chunk
  sha1Hex bytes := String.mk ('#' :: bytes.map (fun c => if c.isAlphanum then c else '_'))
  urlPath := MemFS.urlPath


/-! ## Runs of the engine -/

/-- One call into the engine from outside: `setBaseUrl`, `update`, or a callback of the
HTTP client on a request that is in flight. The state after a callback is the state the
callback leaves, also when it ends abnormally. -/
inductive Step (P : Platform F) (s : HTTPRepoPrivate F) : HTTPRepoPrivate F → Prop where
  | setBaseUrl (u : String) : Step P s (setBaseUrl s u)
  | update : Step P s (update s).state
  | gotBodyData (req : Request) (fileName : String) (st : FileGetState) (chunk : List Char) :
      req ∈ s.requests → req.kind = .FileGetRequest fileName →
      Step P s (FileGetRequest.gotBodyData P s req fileName st chunk).state
  | fileDone (req : Request) (fileName : String) (st : FileGetState) (code : Nat) :
      req ∈ s.requests → req.kind = .FileGetRequest fileName →
      Step P s (FileGetRequest.onDone P s req fileName st code).state
  | dirDone (fuel depth : Nat) (req : Request) (body : List Char) (code : Nat) :
      req ∈ s.requests → req.kind = .DirGetRequest →
      Step P s (DirGetRequest.onDone P fuel depth s req body code).state

/-- The states an engine started in `s0` can be in between calls. -/
inductive Reachable (P : Platform F) (s0 : HTTPRepoPrivate F) : HTTPRepoPrivate F → Prop where
  | init : Reachable P s0 s0
  | step {s s1 : HTTPRepoPrivate F} : Reachable P s0 s → Step P s s1 → Reachable P s0 s1

/-- What the operations below the callbacks do to the bookkeeping: the updating flag is
kept and requests are only appended. -/
def Frame (s s1 : HTTPRepoPrivate F) : Prop :=
  s1.isUpdating = s.isUpdating ∧ ∃ ext, s1.requests = s.requests ++ ext

/-- The bookkeeping invariant: the updating flag is set exactly when a request is in
flight. -/
def Synced (s : HTTPRepoPrivate F) : Prop :=
  s.isUpdating = true ↔ s.requests ≠ []

/-! ## Concrete inputs -/

/-- A local tree: the base directory with a manifest (two header lines, a blank line, the
file `a` of size 1 and the directory `sub`), the file `a`, and the directory `sub` with
an empty manifest. -/
def demoFS : MemFS :=
  { entries :=
      [{ path := "/base", isDir := true, bytes := [], mtime := 1 },
       { path := "/base/.dirindex", isDir := false,
         bytes := "version:1\npath:\n\nf:a:#x:1\nd:sub:#\n".toList, mtime := 2 },
       { path := "/base/a", isDir := false, bytes := "x".toList, mtime := 3 },
       { path := "/base/sub", isDir := true, bytes := [], mtime := 3 },
       { path := "/base/sub/.dirindex", isDir := false, bytes := [], mtime := 3 }],
    clock := 10 }

/-- The engine constructed on `demoFS` with base path `/base`. -/
def demoEngine : HTTPRepoPrivate MemFS :=
  { hashes := [], baseUrl := "", basePath := "/base", isUpdating := false,
    status := .REPO_NO_ERROR,
    rootDir := { addr := 0, relativePath := "",
                 children := [{ type := .FileType, name := "a", hash := "#x", sizeInBytes := 1 },
                              { type := .DirectoryType, name := "sub", hash := "#",
                                sizeInBytes := 0 }] },
    requests := [], directories := [], fs := demoFS, nextAddr := 1 }

/-- The request `update()` issues on `demoEngine` after `setBaseUrl("http://h/r")`. -/
def demoRootRequest : Request :=
  { addr := 1, url := "http://h/r/.dirindex", directory := 0, kind := .DirGetRequest }

/-- `demoEngine` after `setBaseUrl("http://h/r")` and `update()`. -/
def demoUpdating : HTTPRepoPrivate MemFS :=
  { demoEngine with baseUrl := "http://h/r", isUpdating := true,
                    requests := [demoRootRequest], nextAddr := 2 }

/-- A request for the file `a` of the root directory of `demoEngine`. -/
def demoFileRequest : Request :=
  { addr := 2, url := "http://h/r/a", directory := 0, kind := .FileGetRequest "a" }

/-! ## Manifests line by line -/

/-- The loop body of `parseDirIndex` run over a list of line buffers. -/
def parseLines : List (List Char) → List ChildInfo → Res (List ChildInfo) Unit
  | [], children => .ok () children
  | l :: ls, children =>
    match parseDirIndexLine l children with
    | .error e cs => .error e cs
    | .ok _ cs => parseLines ls cs

/-- The text made of the given lines, each terminated by a newline. -/
def unlines (ls : List (List Char)) : List Char :=
  (ls.map (fun l => l ++ ['\n'])).flatten

/-- A line a 512-byte `getline` reads whole: no newline inside and fewer than 512 bytes. -/
def ShortLine (l : List Char) : Prop :=
  '\n' ∉ l ∧ l.length < 512

/-- The first `:`-separated token of a line buffer, as `strtok_r` finds it. -/
def leadingToken (l : List Char) : Option (List Char) :=
  (strtok_r (cString l)).map (fun t => t.1)

/-- The second `:`-separated token of a line buffer. -/
def nameToken (l : List Char) : Option (List Char) :=
  match strtok_r (cString l) with
  | none => none
  | some t => (strtokNext t.2).1

/-- The line forms of a manifest. -/
inductive ManifestLine where
  /-- `version:<rest>` -/
  | version (rest : List Char)
  /-- `path:<rest>` -/
  | path (rest : List Char)
  /-- the empty line -/
  | blank
  /-- `f:<name>:<hash>` or `f:<name>:<hash>:<size>` -/
  | file (name hash : List Char) (size : Option (List Char))
  /-- `d:<name>:<hash>` -/
  | dir (name hash : List Char)
  deriving DecidableEq, Repr

/-- The bytes of a manifest line, without the newline. -/
def ManifestLine.text : ManifestLine → List Char
  | .version rest => "version:".toList ++ rest
  | .path rest => "path:".toList ++ rest
  | .blank => []
  | .file name hash none => 'f' :: ':' :: (name ++ ':' :: hash)
  | .file name hash (some size) => 'f' :: ':' :: (name ++ ':' :: (hash ++ ':' :: size))
  | .dir name hash => 'd' :: ':' :: (name ++ ':' :: hash)

/-- A name or hash field: not empty, without `:`, newline and NUL. -/
def IsField (t : List Char) : Prop :=
  t ≠ [] ∧ ∀ c ∈ t, c ≠ ':' ∧ c ≠ '\n' ∧ c ≠ '\x00'

/-- A decimal size field: a non-empty run of digits. -/
def IsDecimal (t : List Char) : Prop :=
  t ≠ [] ∧ ∀ c ∈ t, c.isDigit = true

/-- Well-formed manifest lines: name and hash are fields, the size is a decimal, the rest
of a header line has no newline and no NUL. -/
def ManifestLine.WellFormed : ManifestLine → Prop
  | .version rest => ∀ c ∈ rest, c ≠ '\n' ∧ c ≠ '\x00'
  | .path rest => ∀ c ∈ rest, c ≠ '\n' ∧ c ≠ '\x00'
  | .blank => True
  | .file name hash none => IsField name ∧ IsField hash
  | .file name hash (some size) => IsField name ∧ IsField hash ∧ IsDecimal size
  | .dir name hash => IsField name ∧ IsField hash

/-- The entry a manifest line stands for, with the size as `strtol` delivers it: the
decimal value up to `LONG_MAX`, and `LONG_MAX` above. -/
def ManifestLine.entry : ManifestLine → Option ChildInfo
  | .version _ => none
  | .path _ => none
  | .blank => none
  | .file name hash none =>
    some { type := .FileType, name := String.mk name, hash := String.mk hash, sizeInBytes := 0 }
  | .file name hash (some size) =>
    some { type := .FileType, name := String.mk name, hash := String.mk hash,
           sizeInBytes := min (digitsValue size) LONG_MAX }
  | .dir name hash =>
    some { type := .DirectoryType, name := String.mk name, hash := String.mk hash,
           sizeInBytes := 0 }

/-- The manifest text made of the given lines, each terminated by a newline. -/
def manifestText (ls : List ManifestLine) : List Char :=
  unlines (ls.map ManifestLine.text)

/-- A line the loop body of `parseDirIndex` passes: it has no token, or its leading token
is `version` or `path`, or its leading token begins with `f` or `d` and a name token
follows. -/
def AcceptedLine (l : List Char) : Prop :=
  match leadingToken l with
  | none => True
  | some t =>
    t = "version".toList ∨ t = "path".toList ∨
      ((t.head? = some 'f' ∨ t.head? = some 'd') ∧ nameToken l ≠ none)

instance (l : List Char) : Decidable (AcceptedLine l) := by
  unfold AcceptedLine
  cases leadingToken l <;> exact inferInstance

instance (l : List Char) : Decidable (ShortLine l) :=
  inferInstanceAs (Decidable ('\n' ∉ l ∧ l.length < 512))

instance (t : List Char) : Decidable (IsField t) :=
  inferInstanceAs (Decidable (t ≠ [] ∧ ∀ c ∈ t, c ≠ ':' ∧ c ≠ '\n' ∧ c ≠ '\x00'))

instance (t : List Char) : Decidable (IsDecimal t) :=
  inferInstanceAs (Decidable (t ≠ [] ∧ ∀ c ∈ t, c.isDigit = true))

instance (l : ManifestLine) : Decidable l.WellFormed :=
  match l with
  | .version rest => inferInstanceAs (Decidable (∀ c ∈ rest, c ≠ '\n' ∧ c ≠ '\x00'))
  | .path rest => inferInstanceAs (Decidable (∀ c ∈ rest, c ≠ '\n' ∧ c ≠ '\x00'))
  | .blank => inferInstanceAs (Decidable True)
  | .file name hash none => inferInstanceAs (Decidable (IsField name ∧ IsField hash))
  | .file name hash (some size) =>
    inferInstanceAs (Decidable (IsField name ∧ IsField hash ∧ IsDecimal size))
  | .dir name hash => inferInstanceAs (Decidable (IsField name ∧ IsField hash))

/-- A local tree whose root manifest has a line of unknown kind after a valid line. -/
def brokenFS : MemFS :=
  { entries :=
      [{ path := "/base", isDir := true, bytes := [], mtime := 1 },
       { path := "/base/.dirindex", isDir := false,
         bytes := "f:a:#x\nx:b:c\nf:z:#z\n".toList, mtime := 2 }],
    clock := 10 }

/-! ## Heap and scheduling predicates -/

/-- The heap of directory objects is in order: the addresses handed out are below
`nextAddr` and no two live `HTTPDirectory` objects share an address. -/
def HeapOk (s : HTTPRepoPrivate F) : Prop :=
  s.rootDir.addr < s.nextAddr ∧
  (∀ x ∈ s.directories, x.addr < s.nextAddr ∧ x.addr ≠ s.rootDir.addr) ∧
  (s.directories.map (fun x => x.addr)).Nodup

/-- The request `scheduleUpdates` of the directory `d` (at address `this`) issues for the
update-list entry `name`, given the base URL and the registry after the call: for a file
entry of the index a `FileGetRequest` on `d` with URL `url(d)/name`; for a directory entry a
`DirGetRequest` on the registered node for `d/name` with URL `url(node)/.dirindex`; none
for a name that is not in the index. -/
def ScheduledFor (baseUrl : String) (directories : List HTTPDirectory) (d : HTTPDirectory)
    (this : Nat) (name : String) (r : Request) : Prop :=
  match findIndexChild d name with
  | none => False
  | some c =>
    if c.type = .FileType then
      r.kind = .FileGetRequest name ∧ r.directory = this ∧
      r.url = (if d.relativePath = "" then baseUrl else baseUrl ++ "/" ++ d.relativePath)
                ++ "/" ++ name
    else
      r.kind = .DirGetRequest ∧
      ∃ node, directories.find? (DirectoryWithPath (SGPath.append d.relativePath name)) = some node ∧
        node.relativePath = SGPath.append d.relativePath name ∧
        r.directory = node.addr ∧
        r.url = (if node.relativePath = "" then baseUrl else baseUrl ++ "/" ++ node.relativePath)
                  ++ "/.dirindex"

/-- A local tree with children that are not in the root manifest: the directory `old`
(with a file in it) and the file `stale`; the manifest lists only the file `a`. -/
def orphanFS : MemFS :=
  { entries :=
      [{ path := "/base", isDir := true, bytes := [], mtime := 1 },
       { path := "/base/.dirindex", isDir := false, bytes := "f:a:#x\n".toList, mtime := 2 },
       { path := "/base/a", isDir := false, bytes := "x".toList, mtime := 3 },
       { path := "/base/old", isDir := true, bytes := [], mtime := 3 },
       { path := "/base/old/junk", isDir := false, bytes := "j".toList, mtime := 3 },
       { path := "/base/stale", isDir := false, bytes := "s".toList, mtime := 3 }],
    clock := 10 }

/-- The engine constructed on `orphanFS` with base path `/base`. -/
def orphanEngine : HTTPRepoPrivate MemFS :=
  { hashes := [], baseUrl := "", basePath := "/base", isUpdating := false,
    status := .REPO_NO_ERROR,
    rootDir := { addr := 0, relativePath := "",
                 children := [{ type := .FileType, name := "a", hash := "#x", sizeInBytes := 0 }] },
    requests := [], directories := [], fs := orphanFS, nextAddr := 1 }

/-! ## Hash cache predicates -/

/-- The hash cache has at most one entry for each path. -/
def CacheOk (hashes : List HashCacheEntry) : Prop :=
  (hashes.map (fun e => e.filePath)).Nodup

instance (hashes : List HashCacheEntry) : Decidable (CacheOk hashes) :=
  inferInstanceAs (Decidable (hashes.map (fun (e : HashCacheEntry) => e.filePath)).Nodup)

/-- The entries of a hash cache for paths other than `p`, in their order. -/
def entriesOtherThan (p : String) (hashes : List HashCacheEntry) : List HashCacheEntry :=
  hashes.filter (fun e => e.filePath != p)

/-- The engine `demoEngine` with a hash cache: a current entry for `/base/a`, an entry for
`/base/sub/.dirindex` with an outdated size, and an entry for the path `/base/gone`, which
does not exist on disk. -/
def cachedEngine : HTTPRepoPrivate MemFS :=
  { demoEngine with
    hashes := [{ filePath := "/base/a", modTime := 3, lengthBytes := 1, hashHex := "#x" },
               { filePath := "/base/sub/.dirindex", modTime := 3, lengthBytes := 7,
                 hashHex := "#old" },
               { filePath := "/base/gone", modTime := 2, lengthBytes := 4, hashHex := "#gone" }] }

/-- The engine `demoUpdating` with the request for the file `a` in flight instead of the
root manifest request. -/
def fileUpdating : HTTPRepoPrivate MemFS :=
  { demoUpdating with requests := [demoFileRequest], nextAddr := 3 }

/-- A local tree whose root manifest lists its entries out of order. -/
def unsortedFS : MemFS :=
  { entries :=
      [{ path := "/base", isDir := true, bytes := [], mtime := 1 },
       { path := "/base/.dirindex", isDir := false,
         bytes := "f:b:#1\nd:c:#3\nf:a:#2\n".toList, mtime := 2 }],
    clock := 10 }

/-! ## Runs of the registry -/

/-- One call of `getOrCreateDirectory` or `deleteDirectory`; the state after it is the
state the call leaves, also when the constructor of a new node ends abnormally. -/
inductive RegistryStep (P : Platform F) (s : HTTPRepoPrivate F) : HTTPRepoPrivate F → Prop where
  | getOrCreate (fuel : Nat) (path : String) :
      RegistryStep P s (getOrCreateDirectory P fuel s path).state
  | delete (path : String) : RegistryStep P s (deleteDirectory P s path).state

/-- The states reached from `s0` by calls of `getOrCreateDirectory` and `deleteDirectory`. -/
inductive RegistryReachable (P : Platform F) (s0 : HTTPRepoPrivate F) :
    HTTPRepoPrivate F → Prop where
  | init : RegistryReachable P s0 s0
  | step {s s1 : HTTPRepoPrivate F} :
      RegistryReachable P s0 s → RegistryStep P s s1 → RegistryReachable P s0 s1

/-! ## Manifests with CRLF line ends -/

/-- Whether the hash is the last field of the line. -/
def ManifestLine.hashIsLast : ManifestLine → Bool
  | .file _ _ none => true
  | .dir _ _ => true
  | _ => false

/-- The entry of a manifest line when the line ends in CRLF: the entry of the line, with a
carriage return at the end of the hash when the hash is the last field. -/
def ManifestLine.crlfEntry (l : ManifestLine) : Option ChildInfo :=
  l.entry.map fun c =>
    if l.hashIsLast then { c with hash := String.mk (c.hash.toList ++ ['\r']) } else c

/-- The manifest text made of the given lines, each terminated by CRLF. -/
def manifestTextCRLF (ls : List ManifestLine) : List Char :=
  unlines (ls.map (fun l => l.text ++ ['\r']))

/-- A local tree whose root manifest has CRLF line ends. -/
def crlfFS : MemFS :=
  { entries :=
      [{ path := "/base", isDir := true, bytes := [], mtime := 1 },
       { path := "/base/.dirindex", isDir := false,
         bytes := "version:1\r\nf:a:#x:12\r\nd:sub:#h\r\n".toList, mtime := 2 }],
    clock := 10 }

/-- A cache entry that one line of `.hashes` carries unchanged: path and hash are fields,
the time is a `long`, the size is at most `LONG_MAX`, and the printed line with its newline
fits the 2048-byte buffer of `parseHashCache`. -/
def HashCacheEntry.Storable (e : HashCacheEntry) : Prop :=
  IsField e.filePath.toList ∧ IsField e.hashHex.toList ∧
    -((LONG_MAX : Int) + 1) ≤ e.modTime ∧ e.modTime ≤ (LONG_MAX : Int) ∧
    e.lengthBytes ≤ LONG_MAX ∧ (hashCacheLine e).length ≤ 2048

instance (e : HashCacheEntry) : Decidable e.Storable :=
  inferInstanceAs (Decidable (IsField e.filePath.toList ∧ IsField e.hashHex.toList ∧
    -((LONG_MAX : Int) + 1) ≤ e.modTime ∧ e.modTime ≤ (LONG_MAX : Int) ∧
    e.lengthBytes ≤ LONG_MAX ∧ (hashCacheLine e).length ≤ 2048))

/-- The engine `demoEngine` with a hash cache whose only path holds a colon, as the
absolute paths of a drive-letter file system do. -/
def colonEngine : HTTPRepoPrivate MemFS :=
  { demoEngine with
    hashes := [{ filePath := "C:/x", modTime := 1, lengthBytes := 2, hashHex := "#h" }] }

/-- A manifest whose only line, `f:` followed by 510 letters, has 512 characters. -/
def longLineText : List Char :=
  'f' :: ':' :: (List.replicate 510 'a' ++ ['\n'])

/-- A local tree whose root manifest is `longLineText`. -/
def longLineFS : MemFS :=
  { entries :=
      [{ path := "/base", isDir := true, bytes := [], mtime := 1 },
       { path := "/base/.dirindex", isDir := false, bytes := longLineText, mtime := 2 }],
    clock := 10 }

/-- A local tree whose root manifest has a `d` line without a name after a valid line. -/
def namelessFS : MemFS :=
  { entries :=
      [{ path := "/base", isDir := true, bytes := [], mtime := 1 },
       { path := "/base/.dirindex", isDir := false, bytes := "f:a:#x\nd:\n".toList,
         mtime := 2 }],
    clock := 10 }

/-- A local tree whose root manifest lists the directories `sub` and `big`: the local
manifest of `sub` has a `d` line without a name, that of `big` is the line of 512
characters `longLineText`. -/
def badChildFS : MemFS :=
  { entries :=
      [{ path := "/base", isDir := true, bytes := [], mtime := 1 },
       { path := "/base/.dirindex", isDir := false,
         bytes := "d:sub:#s\nd:big:#b\n".toList, mtime := 2 },
       { path := "/base/sub", isDir := true, bytes := [], mtime := 3 },
       { path := "/base/sub/.dirindex", isDir := false, bytes := "d:\n".toList, mtime := 3 },
       { path := "/base/big", isDir := true, bytes := [], mtime := 3 },
       { path := "/base/big/.dirindex", isDir := false, bytes := longLineText, mtime := 3 }],
    clock := 10 }

/-- The engine constructed on `badChildFS` with base path `/base`. -/
def badChildEngine : HTTPRepoPrivate MemFS :=
  { hashes := [], baseUrl := "", basePath := "/base", isUpdating := false,
    status := .REPO_NO_ERROR,
    rootDir := { addr := 0, relativePath := "",
                 children := [{ type := .DirectoryType, name := "big", hash := "#b",
                                sizeInBytes := 0 },
                              { type := .DirectoryType, name := "sub", hash := "#s",
                                sizeInBytes := 0 }] },
    requests := [], directories := [], fs := badChildFS, nextAddr := 1 }

/-! # Theorems -/

/-! ## Request bookkeeping -/

theorem find?_addr_eq_none {l : List Request} {a : Nat} (h : ∀ r ∈ l, r.addr ≠ a) :
    l.find? (fun r => r.addr == a) = none := by
  rw [List.find?_eq_none]
  intro r hr
  simpa using h r hr

theorem eraseP_addr_split {before after : List Request} {r : Request} {a : Nat}
    (hr : r.addr = a) (hb : ∀ x ∈ before, x.addr ≠ a) :
    (before ++ r :: after).eraseP (fun x => x.addr == a) = before ++ after := by
  induction before with
  | nil => simp [List.eraseP_cons, hr]
  | cons x l ih =>
    have hx : x.addr ≠ a := hb x (by simp)
    have hl : ∀ y ∈ l, y.addr ≠ a := fun y hy => hb y (by simp [hy])
    simp [List.eraseP_cons, hx, ih hl]

theorem find?_addr_split {before after : List Request} {r : Request} {a : Nat}
    (hr : r.addr = a) (hb : ∀ x ∈ before, x.addr ≠ a) :
    (before ++ r :: after).find? (fun x => x.addr == a) = some r := by
  induction before with
  | nil => simp [hr]
  | cons x l ih =>
    have hx : x.addr ≠ a := hb x (by simp)
    have hl : ∀ y ∈ l, y.addr ≠ a := fun y hy => hb y (by simp [hy])
    have hx1 : (x.addr == a) = false := by simpa using hx
    simp only [List.cons_append, List.find?_cons, hx1]
    exact ih hl

/-- `finishedRequest` on a request that is in flight. -/
theorem finishedRequest_found (s : HTTPRepoPrivate F) (req r : Request)
    (before after : List Request) (hreq : s.requests = before ++ r :: after)
    (hr : r.addr = req.addr) (hb : ∀ x ∈ before, x.addr ≠ req.addr) :
    finishedRequest s req = .ok ()
      { s with requests := before ++ after,
               isUpdating := if (before ++ after).isEmpty then false else s.isUpdating } := by
  unfold finishedRequest
  rw [hreq, find?_addr_split hr hb, eraseP_addr_split hr hb]

/-- `finishedRequest` on a request that is not in flight. -/
theorem finishedRequest_lost (s : HTTPRepoPrivate F) (req : Request)
    (h : ∀ r ∈ s.requests, r.addr ≠ req.addr) :
    finishedRequest s req = .error (.sg_exception "lost request somehow") s := by
  unfold finishedRequest
  rw [find?_addr_eq_none h]

/-- C3: `finishedRequest(req)` throws and leaves the state as it is when no in-flight
request is `req`; otherwise it removes exactly that request, keeps the others in their
order, and clears the updating flag if and only if no request is left. -/
theorem finishedRequest_spec (s : HTTPRepoPrivate F) (req : Request) :
    ((∀ r ∈ s.requests, r.addr ≠ req.addr) →
      finishedRequest s req = .error (.sg_exception "lost request somehow") s) ∧
    (∀ (before after : List Request) (r : Request),
      s.requests = before ++ r :: after → r.addr = req.addr →
      (∀ x ∈ before, x.addr ≠ req.addr) →
      finishedRequest s req = .ok ()
        { s with requests := before ++ after,
                 isUpdating := if (before ++ after).isEmpty then false else s.isUpdating }) :=
  ⟨finishedRequest_lost s req,
   fun before after r hreq hr hb => finishedRequest_found s req r before after hreq hr hb⟩

/-! ## `update` -/

theorem deref_rootDir (s : HTTPRepoPrivate F) : s.deref s.rootDir.addr = some s.rootDir := by
  simp [HTTPRepoPrivate.deref]

/-- C2: `update()` returns with the state as it is while the updating flag is set (so a
second `update()` changes nothing); with the flag clear it sets the status to
`REPO_NO_ERROR`, sets the flag and appends one `DirGetRequest` for the root directory with
URL `<baseUrl>/.dirindex`, leaving registry, hash cache and file system as they are. -/
theorem update_spec (s : HTTPRepoPrivate F) :
    (s.isUpdating = true → update s = .ok () s) ∧
    (s.isUpdating = false → s.rootDir.relativePath = "" →
      update s = .ok ()
        { s with status := .REPO_NO_ERROR, isUpdating := true,
                 requests := s.requests ++
                   [{ addr := s.nextAddr, url := s.baseUrl ++ "/.dirindex",
                      directory := s.rootDir.addr, kind := .DirGetRequest }],
                 nextAddr := s.nextAddr + 1 }) ∧
    ((update s).bind (fun _ s1 => update s1) = update s) := by
  refine ⟨?_, ?_, ?_⟩
  · intro h
    simp [update, h]
  · intro h hroot
    simp [update, h, updateDir, withDir, HTTPRepoPrivate.deref, Res.bind, url, hroot]
  · cases h : s.isUpdating
    · simp [update, h, updateDir, withDir, HTTPRepoPrivate.deref, Res.bind]
    · simp [update, h, Res.bind]

/-! ## Failure escalation -/

/-- C4: a `DirGetRequest` that is in flight and completes with a response code other than
200 sets the status to `REPO_ERROR_NOT_FOUND` when its directory has the empty relative
path and leaves the status as it is otherwise; a `FileGetRequest` completing with such a
code leaves the status as it is. In both cases child lists, registry, hash cache and file
system are unchanged and the completing request is removed from `requests`. -/
theorem failure_escalation (P : Platform F) (fuel depth : Nat) (s : HTTPRepoPrivate F)
    (req r : Request) (d : HTTPDirectory) (before after : List Request)
    (body : List Char) (fileName : String) (st : FileGetState) (code : Nat)
    (hd : s.deref req.directory = some d) (hcode : code ≠ 200)
    (hreq : s.requests = before ++ r :: after) (hr : r.addr = req.addr)
    (hb : ∀ x ∈ before, x.addr ≠ req.addr) :
    DirGetRequest.onDone P fuel depth s req body code = .ok ()
      { s with status := if d.relativePath = "" then .REPO_ERROR_NOT_FOUND else s.status,
               requests := before ++ after,
               isUpdating := if (before ++ after).isEmpty then false else s.isUpdating } ∧
    FileGetRequest.onDone P s req fileName st code = .ok ()
      { s with requests := before ++ after,
               isUpdating := if (before ++ after).isEmpty then false else s.isUpdating } := by
  constructor
  · by_cases hroot : d.relativePath = ""
    · simp only [DirGetRequest.onDone, hcode, if_false, failedToUpdate, withDir, hd, hroot,
        if_true, Res.bind, failedToGetRootIndex]
      exact finishedRequest_found _ req r before after hreq hr hb
    · simp only [DirGetRequest.onDone, hcode, if_false, failedToUpdate, withDir, hd, hroot,
        Res.bind]
      exact finishedRequest_found _ req r before after hreq hr hb
  · simp only [FileGetRequest.onDone, hcode, if_false, didFailToUpdateFile, withDir, hd,
      Res.bind]
    exact finishedRequest_found _ req r before after hreq hr hb

/-! ## The bookkeeping frame of the operations -/

theorem frame_refl (s : HTTPRepoPrivate F) : Frame s s := ⟨rfl, [], by simp⟩

theorem frame_trans {s s1 s2 : HTTPRepoPrivate F} (h1 : Frame s s1) (h2 : Frame s1 s2) :
    Frame s s2 := by
  obtain ⟨hu1, e1, he1⟩ := h1
  obtain ⟨hu2, e2, he2⟩ := h2
  exact ⟨hu2.trans hu1, e1 ++ e2, by rw [he2, he1, List.append_assoc]⟩

theorem frame_of_eq {s s1 : HTTPRepoPrivate F} (hu : s1.isUpdating = s.isUpdating)
    (hr : s1.requests = s.requests) : Frame s s1 := ⟨hu, [], by simp [hr]⟩

theorem frame_bind {α β : Type} {s : HTTPRepoPrivate F} {r : Res (HTTPRepoPrivate F) α}
    {f : α → HTTPRepoPrivate F → Res (HTTPRepoPrivate F) β}
    (h1 : Frame s r.state) (h2 : ∀ a s1, Frame s1 (f a s1).state) :
    Frame s (r.bind f).state := by
  cases r with
  | ok a s1 => exact frame_trans h1 (h2 a s1)
  | error e s1 => exact h1

theorem frame_withDir {β : Type} {s : HTTPRepoPrivate F} {p : Nat}
    {f : HTTPDirectory → Res (HTTPRepoPrivate F) β} (h : ∀ d, Frame s (f d).state) :
    Frame s (withDir s p f).state := by
  unfold withDir
  split
  · exact h _
  · exact frame_refl s

theorem frame_writeHashCache (P : Platform F) (s : HTTPRepoPrivate F) :
    Frame s (writeHashCache P s) := by
  unfold writeHashCache
  split <;> exact frame_of_eq rfl rfl

theorem frame_updatedFileContents (P : Platform F) (s : HTTPRepoPrivate F) (p h : String) :
    Frame s (updatedFileContents P s p h) := by
  unfold updatedFileContents
  simp only
  split
  · exact frame_of_eq rfl rfl
  · exact frame_trans (frame_of_eq rfl rfl) (frame_writeHashCache P _)

theorem frame_computeHashForPath (P : Platform F) (s : HTTPRepoPrivate F) (p : String) :
    Frame s (computeHashForPath P s p).state := by
  unfold computeHashForPath
  split
  · exact frame_refl s
  · split <;> exact frame_refl s

theorem frame_hashForPath (P : Platform F) (s : HTTPRepoPrivate F) (p : String) :
    Frame s (hashForPath P s p).state := by
  unfold hashForPath
  split
  · split
    · exact frame_refl s
    · refine frame_trans (frame_of_eq rfl rfl) (frame_bind (frame_computeHashForPath P _ p) ?_)
      intro a s1
      exact frame_updatedFileContents P s1 p a
  · refine frame_bind (frame_computeHashForPath P _ p) ?_
    intro a s1
    exact frame_updatedFileContents P s1 p a

theorem frame_setChildren (s : HTTPRepoPrivate F) (p : Nat) (cs : List ChildInfo) :
    Frame s (s.setChildren p cs) := by
  unfold HTTPRepoPrivate.setChildren
  split <;> exact frame_of_eq rfl rfl

theorem frame_dirIndexUpdated (P : Platform F) (fuel : Nat) (s : HTTPRepoPrivate F)
    (this : Nat) (hash : String) : Frame s (dirIndexUpdated P fuel s this hash).state := by
  unfold dirIndexUpdated
  refine frame_withDir ?_
  intro d
  simp only
  split
  · exact frame_trans (frame_updatedFileContents P s _ hash) (frame_setChildren _ _ _)
  · exact frame_trans (frame_updatedFileContents P s _ hash) (frame_setChildren _ _ _)

theorem frame_failedToUpdate (s : HTTPRepoPrivate F) (this : Nat) :
    Frame s (failedToUpdate s this).state := by
  unfold failedToUpdate
  refine frame_withDir ?_
  intro d
  split
  · exact frame_of_eq rfl rfl
  · exact frame_refl s

theorem frame_hashForChild (P : Platform F) (s : HTTPRepoPrivate F) (this : Nat)
    (child : ChildInfo) : Frame s (hashForChild P s this child).state := by
  unfold hashForChild
  exact frame_withDir fun d => frame_hashForPath P s _

theorem frame_didUpdateFile (P : Platform F) (s : HTTPRepoPrivate F) (this : Nat)
    (file hash : String) : Frame s (didUpdateFile P s this file hash).state := by
  unfold didUpdateFile
  exact frame_withDir fun d => frame_updatedFileContents P s _ hash

theorem frame_didFailToUpdateFile (s : HTTPRepoPrivate F) (this : Nat) (file : String) :
    Frame s (didFailToUpdateFile s this file).state := by
  unfold didFailToUpdateFile
  exact frame_withDir fun _ => frame_refl s

theorem frame_getOrCreateDirectory (P : Platform F) (fuel : Nat) (s : HTTPRepoPrivate F)
    (path : String) : Frame s (getOrCreateDirectory P fuel s path).state := by
  unfold getOrCreateDirectory
  split
  · exact frame_refl s
  · split
    · exact frame_refl s
    · exact frame_of_eq rfl rfl

theorem frame_deleteDirectory (P : Platform F) (s : HTTPRepoPrivate F) (path : String) :
    Frame s (deleteDirectory P s path).state := by
  unfold deleteDirectory
  split
  · exact frame_trans (frame_of_eq rfl rfl) (frame_updatedFileContents P _ path "")
  · exact frame_refl s

theorem frame_updateFile (s : HTTPRepoPrivate F) (dir : Nat) (name : String) :
    Frame s (updateFile s dir name).state := by
  unfold updateFile
  exact frame_withDir fun d => ⟨rfl, _, rfl⟩

theorem frame_updateDir (s : HTTPRepoPrivate F) (dir : Nat) :
    Frame s (updateDir s dir).state := by
  unfold updateDir
  exact frame_withDir fun d => ⟨rfl, _, rfl⟩

theorem frame_removeChild (P : Platform F) (s : HTTPRepoPrivate F) (this : Nat)
    (name : String) : Frame s (removeChild P s this name).state := by
  unfold removeChild
  refine frame_withDir ?_
  intro d
  simp only
  split
  · exact frame_bind (frame_deleteDirectory P s _) fun _ s1 => frame_refl s1
  · have h1 := frame_updatedFileContents P s (SGPath.append d.relativePath name) ""
    exact frame_trans h1 (frame_of_eq rfl rfl)

theorem frame_removeOrphans (P : Platform F) (this : Nat) (names : List String)
    (s : HTTPRepoPrivate F) : Frame s (removeOrphans P this names s).state := by
  induction names generalizing s with
  | nil => exact frame_refl s
  | cons n rest ih =>
    unfold removeOrphans
    exact frame_bind (frame_removeChild P s this n) fun _ s1 => ih s1

theorem frame_scheduleUpdates (P : Platform F) (fuel : Nat) (this : Nat) (names : List String)
    (s : HTTPRepoPrivate F) : Frame s (scheduleUpdates P fuel this names s).state := by
  induction names generalizing s with
  | nil => exact frame_refl s
  | cons n rest ih =>
    unfold scheduleUpdates
    refine frame_withDir ?_
    intro d
    split
    · exact ih s
    · split
      · exact frame_bind (frame_updateFile s this n) fun _ s1 => ih s1
      · refine frame_bind (frame_getOrCreateDirectory P fuel s _) ?_
        intro childDir s1
        exact frame_bind (frame_updateDir s1 childDir) fun _ s2 => ih s2

theorem frame_classifyChild (P : Platform F) (fuel : Nat)
    (recurse : Nat → HTTPRepoPrivate F → Res (HTTPRepoPrivate F) Unit)
    (hrec : ∀ p s, Frame s (recurse p s).state)
    (this : Nat) (name : String) (acc : Classified) (s : HTTPRepoPrivate F) :
    Frame s (classifyChild P fuel recurse this name acc s).state := by
  unfold classifyChild
  refine frame_withDir ?_
  intro d0
  refine frame_bind (frame_hashForChild P s this _) ?_
  intro hash s1
  refine frame_withDir ?_
  intro d
  refine frame_bind ?_ ?_
  · split
    · exact frame_refl s1
    · split
      · exact frame_refl s1
      · split
        · refine frame_bind (frame_getOrCreateDirectory P fuel s1 _) ?_
          intro childDir s2
          exact frame_bind (hrec childDir s2) fun _ s3 => frame_refl s3
        · exact frame_refl s1
  · intro acc1 s4
    split <;> exact frame_refl s4

theorem frame_classifyChildren (P : Platform F) (fuel : Nat)
    (recurse : Nat → HTTPRepoPrivate F → Res (HTTPRepoPrivate F) Unit)
    (hrec : ∀ p s, Frame s (recurse p s).state)
    (this : Nat) (names : List String) (acc : Classified) (s : HTTPRepoPrivate F) :
    Frame s (classifyChildren P fuel recurse this names acc s).state := by
  induction names generalizing acc s with
  | nil => exact frame_refl s
  | cons n rest ih =>
    unfold classifyChildren
    exact frame_bind (frame_classifyChild P fuel recurse hrec this n acc s)
      fun acc1 s1 => ih acc1 s1

theorem frame_updateChildrenBasedOnHash (P : Platform F) (fuel depth : Nat) (this : Nat)
    (s : HTTPRepoPrivate F) :
    Frame s (updateChildrenBasedOnHash P fuel depth this s).state := by
  induction depth generalizing this s with
  | zero => exact frame_refl s
  | succ depth ih =>
    unfold updateChildrenBasedOnHash
    refine frame_withDir ?_
    intro d
    refine frame_bind (frame_classifyChildren P fuel _ (fun p s1 => ih p s1) this _ _ s) ?_
    intro acc s1
    refine frame_bind (frame_removeOrphans P this _ s1) ?_
    intro _ s2
    exact frame_scheduleUpdates P fuel this _ s2

theorem frame_storeIndex (P : Platform F) (fuel : Nat) (s : HTTPRepoPrivate F)
    (req : Request) (body : List Char) :
    Frame s (DirGetRequest.storeIndex P fuel s req body).state := by
  unfold DirGetRequest.storeIndex
  refine frame_withDir ?_
  intro _
  refine frame_bind (frame_hashForPath P s _) ?_
  intro curHash s1
  split
  · refine frame_withDir ?_
    intro d
    refine frame_bind ?_ ?_
    · unfold DirGetRequest.ensureDir
      split
      · exact frame_refl s1
      · split <;> exact frame_of_eq rfl rfl
    · intro _ s2
      split
      · exact frame_refl s2
      · exact frame_trans (frame_of_eq rfl rfl) (frame_dirIndexUpdated P fuel _ _ _)
  · exact frame_refl s1

/-! ## The updating flag and the in-flight requests -/

theorem synced_finishedRequest {s s1 : HTTPRepoPrivate F} {req : Request}
    (hinv : Synced s) (hmem : req ∈ s.requests) (hf : Frame s s1) :
    Synced (finishedRequest s1 req).state := by
  obtain ⟨hu, ext, hext⟩ := hf
  have hne : s.requests ≠ [] := List.ne_nil_of_mem hmem
  have hflag : s1.isUpdating = true := by rw [hu]; exact hinv.mpr hne
  have hmem1 : req ∈ s1.requests := by rw [hext]; exact List.mem_append_left _ hmem
  unfold finishedRequest
  cases hfind : s1.requests.find? (fun r => r.addr == req.addr) with
  | none =>
    rw [List.find?_eq_none] at hfind
    exact absurd (by simp) (hfind req hmem1)
  | some r =>
    simp only [Res.state, Synced, hflag]
    cases hl : List.eraseP (fun r => r.addr == req.addr) s1.requests with
    | nil => simp
    | cons a l => simp

theorem synced_callback {s : HTTPRepoPrivate F} {handled : Res (HTTPRepoPrivate F) Unit}
    {req : Request} (hinv : Synced s) (hmem : req ∈ s.requests)
    (hf : Frame s handled.state) :
    Synced (handled.bind fun _ s1 => finishedRequest s1 req).state := by
  cases handled with
  | ok a s1 => exact synced_finishedRequest hinv hmem hf
  | error e s1 =>
    obtain ⟨hu, ext, hext⟩ := hf
    have hne : s.requests ≠ [] := List.ne_nil_of_mem hmem
    simp only [Res.bind, Res.state, Synced] at *
    rw [hu, hext]
    constructor
    · intro _
      simp [hne]
    · intro _
      exact hinv.mpr hne

theorem synced_update {s : HTTPRepoPrivate F} (hinv : Synced s) : Synced (update s).state := by
  unfold update
  split
  · exact hinv
  · simp [updateDir, withDir, HTTPRepoPrivate.deref, Res.bind, Res.state, Synced]

theorem synced_of_frame_eq {s s1 : HTTPRepoPrivate F} (hinv : Synced s)
    (hu : s1.isUpdating = s.isUpdating) (hr : s1.requests = s.requests) : Synced s1 := by
  unfold Synced at *
  rw [hu, hr]
  exact hinv

theorem synced_step {P : Platform F} {s s1 : HTTPRepoPrivate F} (hinv : Synced s)
    (h : Step P s s1) : Synced s1 := by
  cases h with
  | setBaseUrl u => exact hinv
  | update => exact synced_update hinv
  | gotBodyData req fileName st chunk hmem hk =>
    unfold FileGetRequest.gotBodyData withDir
    split
    · exact synced_of_frame_eq hinv rfl rfl
    · exact hinv
  | fileDone req fileName st code hmem hk =>
    unfold FileGetRequest.onDone
    refine synced_callback hinv hmem ?_
    split
    · split
      · exact frame_refl s
      · exact frame_didUpdateFile P s _ _ _
    · exact frame_didFailToUpdateFile s _ _
  | dirDone fuel depth req body code hmem hk =>
    unfold DirGetRequest.onDone
    refine synced_callback hinv hmem ?_
    split
    · exact frame_bind (frame_storeIndex P fuel s req body)
        fun _ s2 => frame_updateChildrenBasedOnHash P fuel depth _ s2
    · exact frame_failedToUpdate s _

theorem synced_new {P : Platform F} {fuel : Nat} {base : String} {fs : F}
    {s0 : HTTPRepoPrivate F} (h0 : HTTPRepository.new P fuel base fs = .ok s0) : Synced s0 := by
  unfold HTTPRepository.new at h0
  split at h0
  · cases h0
  · injection h0 with h0
    subst h0
    simp [Synced]

theorem isDoingSync_iff (s : HTTPRepoPrivate F) :
    isDoingSync s = true ↔ (s.status = .REPO_NO_ERROR ∧ s.isUpdating = true) := by
  unfold isDoingSync
  by_cases h : s.status = .REPO_NO_ERROR <;> simp [h]

/-- C1: in every state reachable from a freshly constructed engine by `setBaseUrl`,
`update()` and the callbacks of requests that are in flight (`gotBodyData`, and the two
`onDone`, each ending in `finishedRequest`), the updating flag is set if and only if a
request is in flight, and `isDoingSync()` is true exactly when the status is
`REPO_NO_ERROR` and a request is in flight. -/
theorem updating_iff_requests_in_flight (P : Platform F) (fuel : Nat) (base : String) (fs : F)
    (s0 s : HTTPRepoPrivate F) (h0 : HTTPRepository.new P fuel base fs = .ok s0)
    (h : Reachable P s0 s) :
    (s.isUpdating = true ↔ s.requests ≠ []) ∧
    (isDoingSync s = true ↔ (s.status = .REPO_NO_ERROR ∧ s.requests ≠ [])) := by
  have hs : Synced s := by
    induction h with
    | init => exact synced_new h0
    | step _ hstep ih => exact synced_step ih hstep
  refine ⟨hs, ?_⟩
  rw [isDoingSync_iff]
  unfold Synced at hs
  rw [hs]

/-! ## The claims on concrete inputs -/

/-- Witness of C1: the engine built on `demoFS`, after `setBaseUrl`, `update()` and the
completion of the root manifest request with a 200 response. -/
theorem updating_iff_requests_in_flight_witness :
    HTTPRepository.new memPlatform 100 "/base" demoFS = .ok demoEngine ∧
    Reachable memPlatform demoEngine
      (DirGetRequest.onDone memPlatform 100 5 demoUpdating demoRootRequest
        "f:a:#x\nd:sub:#\nf:new:#q\n".toList 200).state ∧
    ((DirGetRequest.onDone memPlatform 100 5 demoUpdating demoRootRequest
        "f:a:#x\nd:sub:#\nf:new:#q\n".toList 200).state.isUpdating = true ↔
      (DirGetRequest.onDone memPlatform 100 5 demoUpdating demoRootRequest
        "f:a:#x\nd:sub:#\nf:new:#q\n".toList 200).state.requests ≠ []) := by
  have hreach : Reachable memPlatform demoEngine
      (DirGetRequest.onDone memPlatform 100 5 demoUpdating demoRootRequest
        "f:a:#x\nd:sub:#\nf:new:#q\n".toList 200).state := by
    have h1 : Reachable memPlatform demoEngine (setBaseUrl demoEngine "http://h/r") :=
      Reachable.step Reachable.init (Step.setBaseUrl "http://h/r")
    have h2 : Reachable memPlatform demoEngine demoUpdating :=
      Reachable.step h1 Step.update
    exact Reachable.step h2
      (Step.dirDone 100 5 demoRootRequest _ 200 (by decide) rfl)
  exact ⟨by rfl, hreach,
    (updating_iff_requests_in_flight memPlatform 100 "/base" demoFS demoEngine _
      (by rfl) hreach).1⟩

/-- Witness of C2: `update()` on `demoUpdating` (flag set) and on `demoEngine` (flag
clear). -/
theorem update_spec_witness :
    update demoUpdating = .ok () demoUpdating ∧
    update demoEngine = .ok ()
      { demoEngine with
          status := .REPO_NO_ERROR, isUpdating := true,
          requests := [{ addr := 1, url := "/.dirindex", directory := 0,
                         kind := .DirGetRequest }],
          nextAddr := 2 } :=
  ⟨(update_spec demoUpdating).1 rfl, (update_spec demoEngine).2.1 rfl rfl⟩

/-- Witness of C3: completing the only request of `demoUpdating`, and a request that is
not in flight. -/
theorem finishedRequest_spec_witness :
    finishedRequest demoUpdating demoFileRequest
      = .error (.sg_exception "lost request somehow") demoUpdating ∧
    finishedRequest demoUpdating demoRootRequest
      = .ok () { demoUpdating with requests := [], isUpdating := false } :=
  ⟨(finishedRequest_spec demoUpdating demoFileRequest).1 (by decide),
   (finishedRequest_spec demoUpdating demoRootRequest).2 [] [] demoRootRequest rfl rfl
     (by simp)⟩

/-- Witness of C4: the root manifest request of `demoUpdating` completes with 404. -/
theorem failure_escalation_witness :
    DirGetRequest.onDone memPlatform 100 5 demoUpdating demoRootRequest [] 404 = .ok ()
      { demoUpdating with status := .REPO_ERROR_NOT_FOUND, requests := [],
                          isUpdating := false } ∧
    FileGetRequest.onDone memPlatform demoUpdating demoRootRequest "a" FileGetState.init 404
      = .ok () { demoUpdating with requests := [], isUpdating := false } :=
  failure_escalation memPlatform 100 5 demoUpdating demoRootRequest demoRootRequest
    demoUpdating.rootDir [] [] [] "a" FileGetState.init 404 rfl (by decide) rfl rfl (by simp)

/-! ## `getline` and the line loop -/

theorem readLine_line (l rest : List Char) (room : Nat) (hnl : '\n' ∉ l)
    (hlen : l.length ≤ room) : readLine room (l ++ '\n' :: rest) = (l, rest, .delim) := by
  induction l generalizing room with
  | nil => cases room <;> simp [readLine]
  | cons c l ih =>
    have hc : c ≠ '\n' := fun h => hnl (by simp [h])
    have hl : '\n' ∉ l := fun h => hnl (by simp [h])
    cases room with
    | zero => simp at hlen
    | succ room =>
      have hlen1 : l.length ≤ room := by simpa using hlen
      have hrec := ih room hl hlen1
      simp [readLine, hc, hrec]

theorem readLine_last (l : List Char) (room : Nat) (hnl : '\n' ∉ l)
    (hlen : l.length ≤ room) : readLine room l = (l, [], .eof) := by
  induction l generalizing room with
  | nil => simp [readLine]
  | cons c l ih =>
    have hc : c ≠ '\n' := fun h => hnl (by simp [h])
    have hl : '\n' ∉ l := fun h => hnl (by simp [h])
    cases room with
    | zero => simp at hlen
    | succ room =>
      have hlen1 : l.length ≤ room := by simpa using hlen
      have hrec := ih room hl hlen1
      simp [readLine, hc, hrec]

theorem getline_line (l rest : List Char) (h : ShortLine l) :
    IStream.getline { rest := l ++ '\n' :: rest, eofbit := false, failbit := false } 512
      = (l, { rest := rest, eofbit := false, failbit := false }) := by
  have hlen : l.length ≤ 511 := by have := h.2; omega
  simp [IStream.getline, readLine_line l rest 511 h.1 hlen]

theorem getline_last (l : List Char) (h : ShortLine l) :
    IStream.getline { rest := l, eofbit := false, failbit := false } 512
      = (l, { rest := [], eofbit := true, failbit := l.isEmpty }) := by
  have hlen : l.length ≤ 511 := by have := h.2; omega
  simp [IStream.getline, readLine_last l 511 h.1 hlen]

theorem parseDirIndexLoop_line (fuel : Nat) (l rest : List Char) (children : List ChildInfo)
    (h : ShortLine l) :
    parseDirIndexLoop (fuel + 1)
        { rest := l ++ '\n' :: rest, eofbit := false, failbit := false } children
      = match parseDirIndexLine l children with
        | .error e cs => .error e cs
        | .ok _ cs =>
          parseDirIndexLoop fuel { rest := rest, eofbit := false, failbit := false } cs := by
  simp [parseDirIndexLoop, getline_line l rest h]

theorem parseDirIndexLoop_eof (fuel : Nat) (st : IStream) (children : List ChildInfo)
    (h : st.eofbit = true) : parseDirIndexLoop (fuel + 1) st children = .ok () children := by
  simp [parseDirIndexLoop, h]

theorem parseDirIndexLoop_last (fuel : Nat) (l : List Char) (children : List ChildInfo)
    (h : ShortLine l) :
    parseDirIndexLoop (fuel + 2) { rest := l, eofbit := false, failbit := false } children
      = parseDirIndexLine l children := by
  rw [parseDirIndexLoop]
  simp only [Bool.false_eq_true, if_false, getline_last l h]
  cases hline : parseDirIndexLine l children with
  | error e cs => rfl
  | ok a cs => simp [parseDirIndexLoop_eof]

theorem parseDirIndexLine_nil (children : List ChildInfo) :
    parseDirIndexLine [] children = .ok () children := by
  simp [parseDirIndexLine, cString, strtok_r]

/-- The stream loop on newline-terminated short lines followed by `tail` runs the loop
body on the lines one after the other and goes on with `tail`. -/
theorem parseDirIndexLoop_unlines (ls : List (List Char)) (tail : List Char)
    (hls : ∀ l ∈ ls, ShortLine l) (fuel : Nat) (children : List ChildInfo) :
    parseDirIndexLoop (fuel + ls.length)
        { rest := unlines ls ++ tail, eofbit := false, failbit := false } children
      = match parseLines ls children with
        | .error e cs => .error e cs
        | .ok _ cs =>
          parseDirIndexLoop fuel { rest := tail, eofbit := false, failbit := false } cs := by
  induction ls generalizing children with
  | nil => simp [unlines, parseLines]
  | cons l ls ih =>
    have hl : ShortLine l := hls l (by simp)
    have hrest : ∀ x ∈ ls, ShortLine x := fun x hx => hls x (by simp [hx])
    have htext : unlines (l :: ls) ++ tail = l ++ '\n' :: (unlines ls ++ tail) := by
      simp [unlines]
    rw [htext, List.length_cons, ← Nat.add_assoc, parseDirIndexLoop_line _ l _ children hl]
    simp only [parseLines]
    cases hline : parseDirIndexLine l children with
    | error e cs => rfl
    | ok a cs => exact ih hrest cs

/-! ## Tokens -/

theorem takeWhile_stop {p : Char → Bool} (l rest : List Char) (x : Char)
    (hl : ∀ c ∈ l, p c = true) (hx : p x = false) :
    (l ++ x :: rest).takeWhile p = l := by
  induction l with
  | nil => simp [List.takeWhile, hx]
  | cons c l ih =>
    have hc : p c = true := hl c (by simp)
    have ih1 := ih (fun y hy => hl y (by simp [hy]))
    simp [List.takeWhile, hc, ih1]

theorem dropWhile_stop {p : Char → Bool} (l rest : List Char) (x : Char)
    (hl : ∀ c ∈ l, p c = true) (hx : p x = false) :
    (l ++ x :: rest).dropWhile p = x :: rest := by
  induction l with
  | nil => simp [List.dropWhile, hx]
  | cons c l ih =>
    have hc : p c = true := hl c (by simp)
    have ih1 := ih (fun y hy => hl y (by simp [hy]))
    simp [List.dropWhile, hc, ih1]

theorem takeWhile_all {p : Char → Bool} (l : List Char) (hl : ∀ c ∈ l, p c = true) :
    l.takeWhile p = l := by
  induction l with
  | nil => rfl
  | cons c l ih =>
    have hc : p c = true := hl c (by simp)
    simp [List.takeWhile, hc, ih (fun y hy => hl y (by simp [hy]))]

theorem dropWhile_all {p : Char → Bool} (l : List Char) (hl : ∀ c ∈ l, p c = true) :
    l.dropWhile p = [] := by
  induction l with
  | nil => rfl
  | cons c l ih =>
    have hc : p c = true := hl c (by simp)
    simp [List.dropWhile, hc, ih (fun y hy => hl y (by simp [hy]))]

theorem dropWhile_head {p : Char → Bool} (c : Char) (l : List Char) (hc : p c = false) :
    (c :: l).dropWhile p = c :: l := by
  simp [List.dropWhile, hc]

theorem cString_of_no_nul (l : List Char) (h : ∀ c ∈ l, c ≠ '\x00') : cString l = l := by
  unfold cString
  exact takeWhile_all l (fun c hc => by simpa using h c hc)

/-- `strtok_r` on a token followed by a delimiter. -/
theorem strtok_r_token (tok rest : List Char) (hne : tok ≠ []) (hcol : ∀ c ∈ tok, c ≠ ':') :
    strtok_r (tok ++ ':' :: rest) = some (tok, rest) := by
  obtain ⟨c, t, rfl⟩ := List.exists_cons_of_ne_nil hne
  have hc : (c == ':') = false := by simpa using hcol c (by simp)
  have hall : ∀ x ∈ c :: t, (x != ':') = true := fun x hx => by simpa using hcol x hx
  have hstop : ((':' : Char) != ':') = false := by simp
  unfold strtok_r
  have hd : (c :: t ++ ':' :: rest).dropWhile (fun c => c == ':') = c :: t ++ ':' :: rest :=
    dropWhile_head (p := fun c => c == ':') c _ hc
  rw [hd]
  dsimp only
  rw [takeWhile_stop (p := fun c => c != ':') (c :: t) rest ':' hall hstop,
    dropWhile_stop (p := fun c => c != ':') (c :: t) rest ':' hall hstop]
  simp

/-- `strtok_r` on a token that ends the string. -/
theorem strtok_r_last (tok : List Char) (hne : tok ≠ []) (hcol : ∀ c ∈ tok, c ≠ ':') :
    strtok_r tok = some (tok, []) := by
  obtain ⟨c, t, rfl⟩ := List.exists_cons_of_ne_nil hne
  have hc : (c == ':') = false := by simpa using hcol c (by simp)
  have hall : ∀ x ∈ c :: t, (x != ':') = true := fun x hx => by simpa using hcol x hx
  unfold strtok_r
  have hd : (c :: t).dropWhile (fun c => c == ':') = c :: t :=
    dropWhile_head (p := fun c => c == ':') c _ hc
  rw [hd]
  dsimp only
  rw [takeWhile_all (p := fun c => c != ':') (c :: t) hall,
    dropWhile_all (p := fun c => c != ':') (c :: t) hall]
  simp

theorem strtok_r_nil : strtok_r [] = none := by
  simp [strtok_r]

theorem strtokNext_token (tok rest : List Char) (hne : tok ≠ []) (hcol : ∀ c ∈ tok, c ≠ ':') :
    strtokNext (tok ++ ':' :: rest) = (some tok, rest) := by
  simp [strtokNext, strtok_r_token tok rest hne hcol]

theorem strtokNext_last (tok : List Char) (hne : tok ≠ []) (hcol : ∀ c ∈ tok, c ≠ ':') :
    strtokNext tok = (some tok, []) := by
  simp [strtokNext, strtok_r_last tok hne hcol]

theorem strtokNext_nil : strtokNext [] = (none, []) := by
  simp [strtokNext, strtok_r_nil]

/-! ## `strtol` on a decimal -/

theorem isspace_of_isDigit (c : Char) (h : c.isDigit = true) : isspace c = false := by
  cases hs : isspace c with
  | false => rfl
  | true =>
    simp only [isspace, Bool.or_eq_true, beq_iff_eq] at hs
    rcases hs with ((((h1 | h1) | h1) | h1) | h1) | h1 <;> subst h1 <;> simp at h

theorem strtol_decimal (ds : List Char) (h : IsDecimal ds) :
    strtol ds = ((min (digitsValue ds) LONG_MAX : Nat) : Int) := by
  obtain ⟨c, t, rfl⟩ := List.exists_cons_of_ne_nil h.1
  have hc : c.isDigit = true := h.2 c (by simp)
  have hsp : isspace c = false := isspace_of_isDigit c hc
  have hminus : c ≠ '-' := fun hm => by subst hm; simp at hc
  have hplus : c ≠ '+' := fun hm => by subst hm; simp at hc
  unfold strtol
  simp only [dropWhile_head c t hsp, List.head?_cons]
  have h1 : (some c == some '-') = false := by simpa using hminus
  have h2 : (some c == some '+') = false := by simpa using hplus
  simp only [h1, h2, Bool.or_self, Bool.false_eq_true, if_false]
  rw [takeWhile_all (p := Char.isDigit) (c :: t) h.2]
  by_cases hv : digitsValue (c :: t) > LONG_MAX
  · rw [if_pos hv, min_eq_right (Nat.le_of_lt hv)]
  · rw [if_neg hv, min_eq_left (Nat.le_of_not_lt hv)]

theorem toSizeT_of_le (n : Nat) (h : n ≤ LONG_MAX) : toSizeT (n : Int) = n := by
  unfold toSizeT SIZE_BITS
  have hlt : (n : Int) < 2 ^ 64 := by
    have : n < 2 ^ 64 := by unfold LONG_MAX at h; omega
    exact_mod_cast this
  rw [Int.emod_eq_of_lt (by omega) hlt]
  simp

theorem setSize_decimal (c : ChildInfo) (ds : List Char) (h : IsDecimal ds) :
    c.setSize ds = { c with sizeInBytes := min (digitsValue ds) LONG_MAX } := by
  unfold ChildInfo.setSize
  rw [strtol_decimal ds h, toSizeT_of_le _ (Nat.min_le_right _ _)]

theorem setSizeOfBack_append (children : List ChildInfo) (c : ChildInfo) (ds : List Char) :
    setSizeOfBack (children ++ [c]) ds = children ++ [c.setSize ds] := by
  simp [setSizeOfBack]

/-! ## Well-formed manifest lines -/

theorem isField_no_colon {t : List Char} (h : IsField t) : ∀ c ∈ t, c ≠ ':' :=
  fun c hc => (h.2 c hc).1

theorem isField_no_nul {t : List Char} (h : IsField t) : ∀ c ∈ t, c ≠ '\x00' :=
  fun c hc => (h.2 c hc).2.2

theorem isField_no_newline {t : List Char} (h : IsField t) : ∀ c ∈ t, c ≠ '\n' :=
  fun c hc => (h.2 c hc).2.1

theorem isDecimal_no_colon {t : List Char} (h : IsDecimal t) : ∀ c ∈ t, c ≠ ':' := by
  intro c hc hcol
  have := h.2 c hc
  subst hcol
  simp at this

theorem isDecimal_no_nul {t : List Char} (h : IsDecimal t) : ∀ c ∈ t, c ≠ '\x00' := by
  intro c hc hcol
  have := h.2 c hc
  subst hcol
  simp at this

theorem isDecimal_no_newline {t : List Char} (h : IsDecimal t) : ∀ c ∈ t, c ≠ '\n' := by
  intro c hc hcol
  have := h.2 c hc
  subst hcol
  simp at this

/-- The loop body on `<k>:<name>:<hash>` with `k` one of `f`, `d`. -/
theorem parseDirIndexLine_fields (k : Char) (name hash : List Char)
    (hk : k = 'f' ∨ k = 'd') (hn : IsField name) (hh : IsField hash)
    (children : List ChildInfo) :
    parseDirIndexLine (k :: ':' :: (name ++ ':' :: hash)) children = .ok ()
      (children ++ [{ type := if k = 'f' then .FileType else .DirectoryType,
                      name := String.mk name, hash := String.mk hash, sizeInBytes := 0 }]) := by
  have hnul : ∀ c ∈ k :: ':' :: (name ++ ':' :: hash), c ≠ '\x00' := by
    intro c hc
    simp only [List.mem_cons, List.mem_append] at hc
    rcases hc with h | h | h | h | h
    · rcases hk with hk | hk <;> subst hk <;> subst h <;> decide
    · subst h; decide
    · exact isField_no_nul hn c h
    · subst h; decide
    · exact isField_no_nul hh c h
  have htok : strtok_r (k :: ':' :: (name ++ ':' :: hash)) = some ([k], name ++ ':' :: hash) := by
    have := strtok_r_token [k] (name ++ ':' :: hash) (by simp)
      (by intro c hc; simp only [List.mem_singleton] at hc; subst hc
          rcases hk with hk | hk <;> subst hk <;> decide)
    simpa using this
  unfold parseDirIndexLine
  rw [cString_of_no_nul _ hnul, htok]
  simp only [strtokNext_token name hash hn.1 (isField_no_colon hn),
    strtokNext_last hash hh.1 (isField_no_colon hh), strtokNext_nil]
  rcases hk with hk | hk <;> subst hk <;> simp [ChildInfo.new]

/-- The loop body on `<k>:<name>:<hash>:<size>` with `k` one of `f`, `d`. -/
theorem parseDirIndexLine_sized (k : Char) (name hash size : List Char)
    (hk : k = 'f' ∨ k = 'd') (hn : IsField name) (hh : IsField hash) (hs : IsDecimal size)
    (children : List ChildInfo) :
    parseDirIndexLine (k :: ':' :: (name ++ ':' :: (hash ++ ':' :: size))) children = .ok ()
      (children ++ [{ type := if k = 'f' then .FileType else .DirectoryType,
                      name := String.mk name, hash := String.mk hash,
                      sizeInBytes := min (digitsValue size) LONG_MAX }]) := by
  have hnul : ∀ c ∈ k :: ':' :: (name ++ ':' :: (hash ++ ':' :: size)), c ≠ '\x00' := by
    intro c hc
    simp only [List.mem_cons, List.mem_append] at hc
    rcases hc with h | h | h | h | h | h | h
    · rcases hk with hk | hk <;> subst hk <;> subst h <;> decide
    · subst h; decide
    · exact isField_no_nul hn c h
    · subst h; decide
    · exact isField_no_nul hh c h
    · subst h; decide
    · exact isDecimal_no_nul hs c h
  have htok : strtok_r (k :: ':' :: (name ++ ':' :: (hash ++ ':' :: size)))
      = some ([k], name ++ ':' :: (hash ++ ':' :: size)) := by
    have := strtok_r_token [k] (name ++ ':' :: (hash ++ ':' :: size)) (by simp)
      (by intro c hc; simp only [List.mem_singleton] at hc; subst hc
          rcases hk with hk | hk <;> subst hk <;> decide)
    simpa using this
  unfold parseDirIndexLine
  rw [cString_of_no_nul _ hnul, htok]
  simp only [strtokNext_token name _ hn.1 (isField_no_colon hn),
    strtokNext_token hash size hh.1 (isField_no_colon hh), strtokNext_last size hs.1 (isDecimal_no_colon hs)]
  rcases hk with hk | hk <;> subst hk <;>
    simp [ChildInfo.new, setSizeOfBack_append, setSize_decimal _ size hs]

/-- The loop body on a header line. -/
theorem parseDirIndexLine_header (word rest : List Char)
    (hw : word = "version".toList ∨ word = "path".toList)
    (hr : ∀ c ∈ rest, c ≠ '\x00') (children : List ChildInfo) :
    parseDirIndexLine (word ++ ':' :: rest) children = .ok () children := by
  have hwne : word ≠ [] := by rcases hw with h | h <;> subst h <;> decide
  have hwcol : ∀ c ∈ word, c ≠ ':' := by rcases hw with h | h <;> subst h <;> decide
  have hwnul : ∀ c ∈ word, c ≠ '\x00' := by rcases hw with h | h <;> subst h <;> decide
  have hnul : ∀ c ∈ word ++ ':' :: rest, c ≠ '\x00' := by
    intro c hc
    simp only [List.mem_cons, List.mem_append] at hc
    rcases hc with h | h | h
    · exact hwnul c h
    · subst h; decide
    · exact hr c h
  unfold parseDirIndexLine
  rw [cString_of_no_nul _ hnul, strtok_r_token word rest hwne hwcol]
  rcases hw with h | h <;> subst h <;> simp

/-- The loop body on a well-formed line appends the entry of the line, if it has one. -/
theorem parseDirIndexLine_wellFormed (l : ManifestLine) (h : l.WellFormed)
    (children : List ChildInfo) :
    parseDirIndexLine l.text children = .ok () (children ++ l.entry.toList) := by
  cases l with
  | version rest =>
    have := parseDirIndexLine_header "version".toList rest (Or.inl rfl)
      (fun c hc => (h c hc).2) children
    simpa [ManifestLine.text, ManifestLine.entry] using this
  | path rest =>
    have := parseDirIndexLine_header "path".toList rest (Or.inr rfl)
      (fun c hc => (h c hc).2) children
    simpa [ManifestLine.text, ManifestLine.entry] using this
  | blank => simp [ManifestLine.text, ManifestLine.entry, parseDirIndexLine_nil]
  | file name hash size =>
    cases size with
    | none =>
      have := parseDirIndexLine_fields 'f' name hash (Or.inl rfl) h.1 h.2 children
      simpa [ManifestLine.text, ManifestLine.entry] using this
    | some size =>
      have := parseDirIndexLine_sized 'f' name hash size (Or.inl rfl) h.1 h.2.1 h.2.2 children
      simpa [ManifestLine.text, ManifestLine.entry] using this
  | dir name hash =>
    have := parseDirIndexLine_fields 'd' name hash (Or.inr rfl) h.1 h.2 children
    simpa [ManifestLine.text, ManifestLine.entry] using this

theorem parseLines_wellFormed (ls : List ManifestLine) (h : ∀ l ∈ ls, l.WellFormed)
    (children : List ChildInfo) :
    parseLines (ls.map ManifestLine.text) children
      = .ok () (children ++ ls.filterMap ManifestLine.entry) := by
  induction ls generalizing children with
  | nil => simp [parseLines]
  | cons l ls ih =>
    have hl := h l (by simp)
    have hrest : ∀ x ∈ ls, x.WellFormed := fun x hx => h x (by simp [hx])
    simp only [List.map_cons, parseLines, parseDirIndexLine_wellFormed l hl children]
    rw [ih hrest]
    cases he : l.entry <;> simp [List.filterMap_cons, he]

/-! ## Parsing a well-formed manifest -/

theorem manifestLine_text_no_newline (l : ManifestLine) (h : l.WellFormed) :
    '\n' ∉ l.text := by
  intro hmem
  cases l with
  | version rest =>
    simp only [ManifestLine.text, List.mem_append] at hmem
    rcases hmem with hm | hm
    · revert hm; decide
    · exact (h _ hm).1 rfl
  | path rest =>
    simp only [ManifestLine.text, List.mem_append] at hmem
    rcases hmem with hm | hm
    · revert hm; decide
    · exact (h _ hm).1 rfl
  | blank => simp [ManifestLine.text] at hmem
  | file name hash size =>
    cases size with
    | none =>
      simp only [ManifestLine.text, List.mem_cons, List.mem_append] at hmem
      rcases hmem with hm | hm | hm | hm | hm
      · revert hm; decide
      · revert hm; decide
      · exact isField_no_newline h.1 _ hm rfl
      · revert hm; decide
      · exact isField_no_newline h.2 _ hm rfl
    | some size =>
      simp only [ManifestLine.text, List.mem_cons, List.mem_append] at hmem
      rcases hmem with hm | hm | hm | hm | hm | hm | hm
      · revert hm; decide
      · revert hm; decide
      · exact isField_no_newline h.1 _ hm rfl
      · revert hm; decide
      · exact isField_no_newline h.2.1 _ hm rfl
      · revert hm; decide
      · exact isDecimal_no_newline h.2.2 _ hm rfl
  | dir name hash =>
    simp only [ManifestLine.text, List.mem_cons, List.mem_append] at hmem
    rcases hmem with hm | hm | hm | hm | hm
    · revert hm; decide
    · revert hm; decide
    · exact isField_no_newline h.1 _ hm rfl
    · revert hm; decide
    · exact isField_no_newline h.2 _ hm rfl

theorem parseDirIndexLoop_tail_nil (fuel : Nat) (children : List ChildInfo) :
    parseDirIndexLoop (fuel + 2) { rest := [], eofbit := false, failbit := false } children
      = .ok () children := by
  rw [parseDirIndexLoop_last fuel [] children ⟨by simp, by simp⟩, parseDirIndexLine_nil]

theorem unlines_append (xs ys : List (List Char)) : unlines (xs ++ ys) = unlines xs ++ unlines ys := by
  simp [unlines]

theorem unlines_singleton (l : List Char) : unlines [l] = l ++ ['\n'] := by
  simp [unlines]

/-- The stream loop on a manifest of well-formed short lines, with or without the final
newline. -/
theorem parseDirIndexText_wellFormed (ls : List ManifestLine) (fuel : Nat)
    (hwf : ∀ l ∈ ls, l.WellFormed) (hlen : ∀ l ∈ ls, l.text.length < 512)
    (hfuel : ls.length + 2 ≤ fuel) (text : List Char)
    (htext : text = manifestText ls ∨ text = (manifestText ls).dropLast) :
    parseDirIndexText fuel (some text) [] = .ok () (ls.filterMap ManifestLine.entry) := by
  have hshort : ∀ x ∈ ls.map ManifestLine.text, ShortLine x := by
    intro x hx
    obtain ⟨l, hl, rfl⟩ := List.mem_map.mp hx
    exact ⟨manifestLine_text_no_newline l (hwf l hl), hlen l hl⟩
  have hfull : parseDirIndexText fuel (some (manifestText ls)) []
      = .ok () (ls.filterMap ManifestLine.entry) := by
    obtain ⟨k, rfl⟩ : ∃ k, fuel = (k + 2) + (ls.map ManifestLine.text).length :=
      ⟨fuel - ls.length - 2, by simp; omega⟩
    have h := parseDirIndexLoop_unlines (ls.map ManifestLine.text) [] hshort (k + 2) []
    simp only [List.append_nil] at h
    simp only [parseDirIndexText, manifestText, h, parseLines_wellFormed ls hwf [],
      parseDirIndexLoop_tail_nil, List.nil_append]
  rcases htext with rfl | rfl
  · exact hfull
  · rcases List.eq_nil_or_concat ls with rfl | ⟨init, last, hcat⟩
    · simpa [manifestText, unlines] using hfull
    · rw [List.concat_eq_append] at hcat
      subst hcat
      have hinit : ∀ x ∈ init.map ManifestLine.text, ShortLine x :=
        fun x hx => hshort x (by simp only [List.map_append, List.mem_append]; exact Or.inl hx)
      have hlast : ShortLine last.text := hshort last.text (by simp)
      have hwfi : ∀ l ∈ init, l.WellFormed := fun l hl => hwf l (by simp [hl])
      have hwfl : last.WellFormed := hwf last (by simp)
      have hdrop : (manifestText (init ++ [last])).dropLast
          = unlines (init.map ManifestLine.text) ++ last.text := by
        simp only [manifestText, List.map_append, List.map_cons, List.map_nil, unlines_append,
          unlines_singleton]
        rw [← List.append_assoc, List.dropLast_concat]
      obtain ⟨k, rfl⟩ : ∃ k, fuel = (k + 2) + (init.map ManifestLine.text).length :=
        ⟨fuel - init.length - 2, by simp at hfuel ⊢; omega⟩
      have h := parseDirIndexLoop_unlines (init.map ManifestLine.text) last.text hinit (k + 2) []
      unfold parseDirIndexText
      rw [hdrop]
      dsimp only
      rw [h, parseLines_wellFormed init hwfi []]
      simp only [List.nil_append]
      rw [parseDirIndexLoop_last k last.text _ hlast, parseDirIndexLine_wellFormed last hwfl]
      cases he : last.entry <;> simp [List.filterMap_append, he]

/-- C8 (amended): on a manifest made only of well-formed lines (`version:...`,
`path:...`, blank, `f:<name>:<hash>`, `f:<name>:<hash>:<size-decimal>`, `d:<name>:<hash>`;
name and hash non-empty and free of `:`; no NUL byte; every line shorter than 512 bytes)
`parseDirIndex` returns normally, with enough fuel, exactly one entry per `f`/`d` line, in
line order, with that kind, name and hash, and with the size 0 when there is no size field
and otherwise the decimal value when it is at most `LONG_MAX` and `LONG_MAX` when it is
larger; header and blank lines add nothing, and leaving out the final newline does not
change the result. -/
theorem parseDirIndex_wellFormed (P : Platform F) (fs : F) (basePath rel : String)
    (ls : List ManifestLine) (fuel : Nat) (text : List Char)
    (hwf : ∀ l ∈ ls, l.WellFormed) (hlen : ∀ l ∈ ls, l.text.length < 512)
    (hfuel : ls.length + 2 ≤ fuel)
    (hfile : P.readFile fs (SGPath.append (SGPath.append basePath rel) ".dirindex") = some text)
    (htext : text = manifestText ls ∨ text = (manifestText ls).dropLast) :
    parseDirIndex P fuel basePath fs rel [] = .ok () (ls.filterMap ManifestLine.entry) := by
  unfold parseDirIndex
  simp only [hfile]
  exact parseDirIndexText_wellFormed ls fuel hwf hlen hfuel text htext

/-- Witness of C8: the root manifest of `demoFS`. -/
theorem parseDirIndex_wellFormed_witness :
    parseDirIndex memPlatform 100 "/base" demoFS "" [] = .ok ()
      [{ type := .FileType, name := "a", hash := "#x", sizeInBytes := 1 },
       { type := .DirectoryType, name := "sub", hash := "#", sizeInBytes := 0 }] :=
  parseDirIndex_wellFormed memPlatform demoFS "/base" ""
    [.version ['1'], .path [], .blank, .file ['a'] ['#', 'x'] (some ['1']),
     .dir ['s', 'u', 'b'] ['#']]
    100 "version:1\npath:\n\nf:a:#x:1\nd:sub:#\n".toList
    (by decide) (by decide) (by decide) (by rfl) (Or.inl (by rfl))

/-- Counterexample to C8 as stated: a size field above `LONG_MAX` is not delivered as its
decimal value, and a name with a NUL byte is cut at the NUL (and the hash is lost). -/
theorem parseDirIndex_size_counterexample :
    (parseDirIndexText 10
        (some (manifestText [.file ['a'] ['b'] (some "9223372036854775808".toList)])) []
      = .ok () [{ type := .FileType, name := "a", hash := "b",
                  sizeInBytes := 9223372036854775807 }] ∧
     digitsValue "9223372036854775808".toList = 9223372036854775808) ∧
    parseDirIndexText 10 (some (manifestText [.file ['a', '\x00', 'c'] ['b'] none])) []
      = .ok () [{ type := .FileType, name := "a", hash := "", sizeInBytes := 0 }] := by
  refine ⟨⟨?_, ?_⟩, ?_⟩
  · rfl
  · rfl
  · rfl

/-! ## Lines of unknown kind -/

theorem parseDirIndexLine_accepted (l : List Char) (h : AcceptedLine l)
    (children : List ChildInfo) : ∃ cs, parseDirIndexLine l children = .ok () cs := by
  unfold AcceptedLine leadingToken nameToken at h
  unfold parseDirIndexLine
  cases htok : strtok_r (cString l) with
  | none => exact ⟨children, rfl⟩
  | some t =>
    obtain ⟨typeData, last0⟩ := t
    rw [htok] at h
    simp only [Option.map_some'] at h
    dsimp only
    rcases h with h | h | ⟨hkind, hname⟩
    · exact ⟨children, by rw [if_pos h]⟩
    · by_cases hv : typeData = "version".toList
      · exact ⟨children, by rw [if_pos hv]⟩
      · exact ⟨children, by rw [if_neg hv, if_pos h]⟩
    · by_cases hv : typeData = "version".toList
      · exact ⟨children, by rw [if_pos hv]⟩
      by_cases hp : typeData = "path".toList
      · exact ⟨children, by rw [if_neg hv, if_pos hp]⟩
      rw [if_neg hv, if_neg hp]
      cases hn : (strtokNext last0).1 with
      | none => exact absurd hn hname
      | some nameData =>
        rcases hkind with hk | hk
        · simp only [hk, if_true, ChildInfo.new, hn]
          cases (strtokNext (strtokNext (strtokNext last0).2).2).1 <;> simp
        · have hf : typeData.head? ≠ some 'f' := by rw [hk]; decide
          simp only [hf, hk, if_true, if_false, ChildInfo.new, hn]
          cases (strtokNext (strtokNext (strtokNext last0).2).2).1 <;> simp

theorem parseDirIndexLine_rejected (l tok : List Char) (htok : leadingToken l = some tok)
    (hv : tok ≠ "version".toList) (hp : tok ≠ "path".toList)
    (hf : tok.head? ≠ some 'f') (hd : tok.head? ≠ some 'd') (children : List ChildInfo) :
    parseDirIndexLine l children
      = .error (.sg_io_exception "Malformed line code in dir index file") children := by
  unfold leadingToken at htok
  unfold parseDirIndexLine
  cases hs : strtok_r (cString l) with
  | none => rw [hs] at htok; cases htok
  | some t =>
    obtain ⟨typeData, last0⟩ := t
    rw [hs] at htok
    simp only [Option.map_some', Option.some.injEq] at htok
    subst htok
    dsimp only
    rw [if_neg hv, if_neg hp]
    simp only [hf, hd, if_false]

theorem parseLines_accepted (pre : List (List Char)) (h : ∀ l ∈ pre, AcceptedLine l)
    (children : List ChildInfo) : ∃ cs, parseLines pre children = .ok () cs := by
  induction pre generalizing children with
  | nil => exact ⟨children, rfl⟩
  | cons l ls ih =>
    obtain ⟨cs, hcs⟩ := parseDirIndexLine_accepted l (h l (by simp)) children
    obtain ⟨cs1, hcs1⟩ := ih (fun x hx => h x (by simp [hx])) cs
    exact ⟨cs1, by simp [parseLines, hcs, hcs1]⟩

/-- C9 (amended): when every line of the local manifest up to and including some line is
shorter than 512 bytes, the lines before it are accepted (no token, `version`, `path`, or
a leading token that begins with `f` or `d` followed by a name token), and the leading
token of that line is neither `version` nor `path` and does not begin with `f` or `d`,
then `parseDirIndex`, with enough fuel, throws the `sg_io_exception` for a malformed line
code, with the entries of the lines before it in the list. -/
theorem parseDirIndex_unknown_kind (P : Platform F) (fs : F) (basePath rel : String)
    (pre : List (List Char)) (bad rest tok : List Char) (fuel : Nat)
    (hpre : ∀ l ∈ pre, ShortLine l ∧ AcceptedLine l) (hbad : ShortLine bad)
    (htok : leadingToken bad = some tok)
    (hv : tok ≠ "version".toList) (hp : tok ≠ "path".toList)
    (hf : tok.head? ≠ some 'f') (hd : tok.head? ≠ some 'd')
    (hrest : rest = [] ∨ ∃ r, rest = '\n' :: r) (hfuel : pre.length + 2 ≤ fuel)
    (hfile : P.readFile fs (SGPath.append (SGPath.append basePath rel) ".dirindex")
      = some (unlines pre ++ bad ++ rest)) :
    ∃ entries, parseLines pre [] = .ok () entries ∧
      parseDirIndex P fuel basePath fs rel []
        = .error (.sg_io_exception "Malformed line code in dir index file") entries := by
  obtain ⟨entries, hentries⟩ := parseLines_accepted pre (fun l hl => (hpre l hl).2) []
  refine ⟨entries, hentries, ?_⟩
  have hshort : ∀ l ∈ pre, ShortLine l := fun l hl => (hpre l hl).1
  obtain ⟨k, rfl⟩ : ∃ k, fuel = (k + 2) + pre.length := ⟨fuel - pre.length - 2, by omega⟩
  unfold parseDirIndex parseDirIndexText
  dsimp only
  rw [hfile]
  dsimp only
  rcases hrest with rfl | ⟨r, rfl⟩
  · rw [List.append_nil, parseDirIndexLoop_unlines pre bad hshort (k + 2) [], hentries]
    dsimp only
    rw [parseDirIndexLoop_last k bad entries hbad,
      parseDirIndexLine_rejected bad tok htok hv hp hf hd]
  · have hline := parseDirIndexLoop_line (k + 1) bad r entries hbad
    rw [List.append_assoc, parseDirIndexLoop_unlines pre (bad ++ '\n' :: r) hshort (k + 2) [],
      hentries]
    dsimp only
    rw [hline, parseDirIndexLine_rejected bad tok htok hv hp hf hd]

/-- Witness of C9: the manifest of `brokenFS`, whose second line has the leading token
`x`. -/
theorem parseDirIndex_unknown_kind_witness :
    ∃ entries, parseLines ["f:a:#x".toList] [] = .ok () entries ∧
      parseDirIndex memPlatform 100 "/base" brokenFS "" []
        = .error (.sg_io_exception "Malformed line code in dir index file") entries :=
  parseDirIndex_unknown_kind memPlatform brokenFS "/base" "" ["f:a:#x".toList]
    "x:b:c".toList "\nf:z:#z\n".toList ['x'] 100
    (by decide) (by decide) (by rfl) (by decide) (by decide) (by decide) (by decide)
    (Or.inr ⟨"f:z:#z\n".toList, rfl⟩) (by decide) (by rfl)

/-- Counterexample to C9 as stated: lines with the leading tokens `foo` and `dir` are not
rejected; they are parsed as a file and a directory entry. -/
theorem parseDirIndex_unknown_kind_counterexample :
    parseDirIndexText 10 (some "foo:a:b\ndir:x:y\n".toList) [] = .ok ()
      [{ type := .FileType, name := "a", hash := "b", sizeInBytes := 0 },
       { type := .DirectoryType, name := "x", hash := "y", sizeInBytes := 0 }] := by
  rfl

/-! ## Scheduling of updates -/

theorem HTTPDirectory_new_fields {P : Platform F} {fuel : Nat} {basePath : String} {fs : F}
    {addr : Nat} {path : String} {node : HTTPDirectory}
    (h : HTTPDirectory.new P fuel basePath fs addr path = .ok node) :
    node.addr = addr ∧ node.relativePath = path := by
  unfold HTTPDirectory.new at h
  split at h
  · split at h
    · injection h with h; subst h; exact ⟨rfl, rfl⟩
    · split at h
      · injection h with h; subst h; exact ⟨rfl, rfl⟩
      · cases h
  · injection h with h; subst h; exact ⟨rfl, rfl⟩

theorem find?_addr_of_nodup (l : List HTTPDirectory) (node : HTTPDirectory)
    (hnd : (l.map (fun x => x.addr)).Nodup) (hmem : node ∈ l) :
    l.find? (fun x => x.addr == node.addr) = some node := by
  induction l with
  | nil => cases hmem
  | cons a l ih =>
    simp only [List.map_cons, List.nodup_cons] at hnd
    rcases List.mem_cons.mp hmem with rfl | hm
    · simp
    · have hne : a.addr ≠ node.addr := by
        intro he
        exact hnd.1 (by rw [he]; exact List.mem_map.mpr ⟨node, hm, rfl⟩)
      have hb : (a.addr == node.addr) = false := by simpa using hne
      simp only [List.find?_cons, hb]
      exact ih hnd.2 hm

theorem deref_of_mem {s : HTTPRepoPrivate F} (h : HeapOk s) {node : HTTPDirectory}
    (hmem : node ∈ s.directories) : s.deref node.addr = some node := by
  unfold HTTPRepoPrivate.deref
  have hne : ¬ s.rootDir.addr = node.addr := fun he => (h.2.1 node hmem).2 he.symm
  rw [if_neg hne]
  exact find?_addr_of_nodup _ node h.2.2 hmem

theorem heapOk_alloc {s : HTTPRepoPrivate F} (h : HeapOk s) (requests : List Request) :
    HeapOk { s with requests := requests, nextAddr := s.nextAddr + 1 } := by
  refine ⟨Nat.lt_succ_of_lt h.1, ?_, h.2.2⟩
  intro x hx
  exact ⟨Nat.lt_succ_of_lt (h.2.1 x hx).1, (h.2.1 x hx).2⟩

theorem heapOk_newDir {s : HTTPRepoPrivate F} (h : HeapOk s) (node : HTTPDirectory)
    (haddr : node.addr = s.nextAddr) :
    HeapOk { s with directories := s.directories ++ [node], nextAddr := s.nextAddr + 1 } := by
  refine ⟨Nat.lt_succ_of_lt h.1, ?_, ?_⟩
  · intro x hx
    rcases List.mem_append.mp hx with hx | hx
    · exact ⟨Nat.lt_succ_of_lt (h.2.1 x hx).1, (h.2.1 x hx).2⟩
    · simp only [List.mem_singleton] at hx
      subst hx
      refine ⟨by simp only [haddr]; exact Nat.lt_succ_self _, ?_⟩
      simp only [haddr]
      exact Nat.ne_of_gt h.1
  · simp only [List.map_append, List.map_cons, List.map_nil]
    refine List.Nodup.append h.2.2 (List.nodup_singleton _) ?_
    intro a ha hb
    simp only [List.mem_singleton] at hb
    obtain ⟨x, hx, rfl⟩ := List.mem_map.mp ha
    have := (h.2.1 x hx).1
    omega

/-- `getOrCreateDirectory` when the constructor of a missing node returns: the pointer it
returns is the registered node for the path, the heap stays in order, and only the
registry (by at most one appended node) and the allocator change. -/
theorem getOrCreateDirectory_spec (P : Platform F) (fuel : Nat) (s : HTTPRepoPrivate F)
    (path : String) (hheap : HeapOk s)
    (hctor : ∀ addr, ∃ node, HTTPDirectory.new P fuel s.basePath s.fs addr path = .ok node) :
    ∃ node extra next,
      getOrCreateDirectory P fuel s path = .ok node.addr
        { s with directories := s.directories ++ extra, nextAddr := next } ∧
      (s.directories ++ extra).find? (DirectoryWithPath path) = some node ∧
      node.relativePath = path ∧
      HeapOk { s with directories := s.directories ++ extra, nextAddr := next } := by
  unfold getOrCreateDirectory
  cases hfind : s.directories.find? (DirectoryWithPath path) with
  | some d0 =>
    refine ⟨d0, [], s.nextAddr, by simp, by simpa using hfind, ?_, by simpa using hheap⟩
    have := List.find?_some hfind
    simpa [DirectoryWithPath] using this
  | none =>
    obtain ⟨node, hnode⟩ := hctor s.nextAddr
    obtain ⟨haddr, hpath⟩ := HTTPDirectory_new_fields hnode
    refine ⟨node, [node], s.nextAddr + 1, by simp [hnode], ?_, hpath, heapOk_newDir hheap node haddr⟩
    rw [List.find?_append, hfind]
    simp [DirectoryWithPath, hpath]

theorem deref_of_registry_append {s : HTTPRepoPrivate F} {this : Nat} {d : HTTPDirectory}
    (hd : s.deref this = some d) (extra : List HTTPDirectory) (s1 : HTTPRepoPrivate F)
    (hroot : s1.rootDir = s.rootDir)
    (hdirs : s1.directories = s.directories ++ extra) : s1.deref this = some d := by
  unfold HTTPRepoPrivate.deref at hd ⊢
  rw [hroot, hdirs]
  by_cases hr : s.rootDir.addr = this
  · simpa [hr] using hd
  · simp only [hr, if_false] at hd ⊢
    rw [List.find?_append, hd]
    rfl

theorem updateFile_eq (s : HTTPRepoPrivate F) (dir : Nat) (d : HTTPDirectory) (name : String)
    (hd : s.deref dir = some d) :
    updateFile s dir name = .ok
      { addr := s.nextAddr, url := url s d ++ "/" ++ name, directory := dir,
        kind := .FileGetRequest name }
      { s with requests := s.requests ++
                 [{ addr := s.nextAddr, url := url s d ++ "/" ++ name, directory := dir,
                    kind := .FileGetRequest name }],
               nextAddr := s.nextAddr + 1 } := by
  simp [updateFile, withDir, hd]

theorem updateDir_eq (s : HTTPRepoPrivate F) (dir : Nat) (d : HTTPDirectory)
    (hd : s.deref dir = some d) :
    updateDir s dir = .ok
      { addr := s.nextAddr, url := url s d ++ "/.dirindex", directory := dir,
        kind := .DirGetRequest }
      { s with requests := s.requests ++
                 [{ addr := s.nextAddr, url := url s d ++ "/.dirindex", directory := dir,
                    kind := .DirGetRequest }],
               nextAddr := s.nextAddr + 1 } := by
  simp [updateDir, withDir, hd]

theorem scheduledFor_mono {baseUrl : String} {dirs extra : List HTTPDirectory}
    {d : HTTPDirectory} {this : Nat} {name : String} {r : Request}
    (h : ScheduledFor baseUrl dirs d this name r) :
    ScheduledFor baseUrl (dirs ++ extra) d this name r := by
  unfold ScheduledFor at h ⊢
  cases hc : findIndexChild d name with
  | none => rw [hc] at h; exact h
  | some c =>
    rw [hc] at h
    dsimp only at h ⊢
    by_cases hty : c.type = .FileType
    · rw [if_pos hty] at h ⊢; exact h
    · rw [if_neg hty] at h ⊢
      obtain ⟨hk, node, hfind, hrest⟩ := h
      exact ⟨hk, node, by rw [List.find?_append, hfind]; rfl, hrest⟩

theorem forall₂_scheduledFor_mono {baseUrl : String} {dirs extra : List HTTPDirectory}
    {d : HTTPDirectory} {this : Nat} {ext : List Request} {names : List String}
    (h : List.Forall₂ (fun r n => ScheduledFor baseUrl dirs d this n r) ext names) :
    List.Forall₂ (fun r n => ScheduledFor baseUrl (dirs ++ extra) d this n r) ext names := by
  induction h with
  | nil => exact List.Forall₂.nil
  | cons h _ ih => exact List.Forall₂.cons (scheduledFor_mono h) ih

/-- `scheduleUpdates` returns and appends, in list order, one request for every listed name
that is in the index of the directory; the registry only grows. -/
theorem scheduleUpdates_appends (P : Platform F) (fuel : Nat) (this : Nat) (d : HTTPDirectory)
    (names : List String) :
    ∀ s : HTTPRepoPrivate F, HeapOk s → s.deref this = some d →
      (∀ name ∈ names, ∀ c, findIndexChild d name = some c → c.type ≠ .FileType →
        ∀ addr, ∃ node, HTTPDirectory.new P fuel s.basePath s.fs addr
          (SGPath.append d.relativePath name) = .ok node) →
      ∃ s1 ext extra, scheduleUpdates P fuel this names s = .ok () s1 ∧
        HeapOk s1 ∧
        s1.requests = s.requests ++ ext ∧ s1.directories = s.directories ++ extra ∧
        s1.baseUrl = s.baseUrl ∧ s1.basePath = s.basePath ∧ s1.fs = s.fs ∧
        s1.rootDir = s.rootDir ∧
        List.Forall₂ (fun r n => ScheduledFor s.baseUrl s1.directories d this n r) ext
          (names.filter (fun n => (findIndexChild d n).isSome)) := by
  induction names with
  | nil =>
    intro s hheap _ _
    exact ⟨s, [], [], rfl, hheap, by simp, by simp, rfl, rfl, rfl, rfl, by simp⟩
  | cons name rest ih =>
    intro s hheap hd hctor
    have hctorRest : ∀ n ∈ rest, ∀ c, findIndexChild d n = some c → c.type ≠ .FileType →
        ∀ addr, ∃ node, HTTPDirectory.new P fuel s.basePath s.fs addr
          (SGPath.append d.relativePath n) = .ok node :=
      fun n hn => hctor n (List.mem_cons_of_mem _ hn)
    unfold scheduleUpdates withDir
    rw [hd]
    dsimp only
    cases hc : findIndexChild d name with
    | none =>
      obtain ⟨s1, ext, extra, hrun, hh, hreq, hdirs, hbu, hbp, hfs, hroot, hall⟩ :=
        ih s hheap hd hctorRest
      refine ⟨s1, ext, extra, hrun, hh, hreq, hdirs, hbu, hbp, hfs, hroot, ?_⟩
      simpa [List.filter_cons, hc] using hall
    | some c =>
      dsimp only
      by_cases hty : c.type = .FileType
      · rw [if_pos hty, updateFile_eq s this d name hd]
        simp only [Res.bind]
        have hh1 := heapOk_alloc hheap (s.requests ++
          [{ addr := s.nextAddr, url := url s d ++ "/" ++ name, directory := this,
             kind := .FileGetRequest name }])
        have hd1 := deref_of_registry_append hd [] { s with
          requests := s.requests ++
            [{ addr := s.nextAddr, url := url s d ++ "/" ++ name, directory := this,
               kind := .FileGetRequest name }],
          nextAddr := s.nextAddr + 1 } rfl (by simp)
        obtain ⟨s1, ext, extra, hrun, hh, hreq, hdirs, hbu, hbp, hfs, hroot, hall⟩ :=
          ih _ hh1 hd1 hctorRest
        refine ⟨s1, { addr := s.nextAddr, url := url s d ++ "/" ++ name, directory := this,
                      kind := .FileGetRequest name } :: ext,
          extra, hrun, hh, ?_, hdirs, hbu, hbp, hfs, hroot, ?_⟩
        · rw [hreq]; simp
        · simp only [List.filter_cons, hc, Option.isSome_some, if_true]
          refine List.Forall₂.cons ?_ hall
          unfold ScheduledFor
          rw [hc]
          dsimp only
          rw [if_pos hty]
          exact ⟨rfl, rfl, by simp [url]⟩
      · rw [if_neg hty]
        obtain ⟨node, extra0, next, hget, hfind, hpath, hh0⟩ :=
          getOrCreateDirectory_spec P fuel s (SGPath.append d.relativePath name) hheap
            (hctor name (List.mem_cons_self _ _) c hc hty)
        have hmem : node ∈ s.directories ++ extra0 := List.mem_of_find?_eq_some hfind
        have hdnode := deref_of_mem hh0  hmem
        rw [hget]
        simp only [Res.bind]
        rw [updateDir_eq _ node.addr node hdnode]
        dsimp only
        have hh1 := heapOk_alloc hh0 (s.requests ++
          [{ addr := next, url := url { s with directories := s.directories ++ extra0,
                                                nextAddr := next } node ++ "/.dirindex",
             directory := node.addr, kind := .DirGetRequest }])
        have hd1 := deref_of_registry_append hd extra0 { s with
          directories := s.directories ++ extra0,
          requests := s.requests ++
            [{ addr := next, url := url { s with directories := s.directories ++ extra0,
                                                  nextAddr := next } node ++ "/.dirindex",
               directory := node.addr, kind := .DirGetRequest }],
          nextAddr := next + 1 } rfl rfl
        obtain ⟨s1, ext, extra, hrun, hh, hreq, hdirs, hbu, hbp, hfs, hroot, hall⟩ :=
          ih _ hh1 hd1 hctorRest
        refine ⟨s1, { addr := next,
                      url := url { s with directories := s.directories ++ extra0,
                                          nextAddr := next } node ++ "/.dirindex",
                      directory := node.addr, kind := .DirGetRequest } :: ext,
          extra0 ++ extra, hrun, hh, ?_, ?_, hbu, hbp, hfs, hroot, ?_⟩
        · rw [hreq]; simp
        · rw [hdirs]; simp
        · simp only [List.filter_cons, hc, Option.isSome_some, if_true]
          refine List.Forall₂.cons ?_ hall
          rw [hdirs]
          refine scheduledFor_mono ?_
          unfold ScheduledFor
          rw [hc]
          dsimp only
          rw [if_neg hty]
          exact ⟨rfl, node, hfind, hpath, rfl, by simp [url]⟩

/-- Scheduling when the constructors return: for a live directory `d` on a heap in order,
when the constructor of every child node that has to be created returns,
`scheduleUpdates` returns and appends to `requests`,
in list order, exactly one request per listed name that is in the index of `d` and none
for a name that is not: for a file entry a `FileGetRequest` with URL `url(d)/name`, for a
directory entry a `DirGetRequest` with URL `url(node)/.dirindex` on the registered node
for the relative path `d/name`, where `url` is `baseUrl` for the empty relative path and
`baseUrl/relativePath` otherwise. -/
theorem scheduleUpdates_spec (P : Platform F) (fuel : Nat) (this : Nat) (d : HTTPDirectory)
    (names : List String) (s : HTTPRepoPrivate F) (hheap : HeapOk s)
    (hd : s.deref this = some d)
    (hctor : ∀ name ∈ names, ∀ c, findIndexChild d name = some c → c.type ≠ .FileType →
      ∀ addr, ∃ node, HTTPDirectory.new P fuel s.basePath s.fs addr
        (SGPath.append d.relativePath name) = .ok node) :
    ∃ s1 ext, scheduleUpdates P fuel this names s = .ok () s1 ∧
      s1.requests = s.requests ++ ext ∧
      List.Forall₂ (fun r n => ScheduledFor s.baseUrl s1.directories d this n r) ext
        (names.filter (fun n => (findIndexChild d n).isSome)) := by
  obtain ⟨s1, ext, _, hrun, _, hreq, _, _, _, _, _, hall⟩ :=
    scheduleUpdates_appends P fuel this d names s hheap hd hctor
  exact ⟨s1, ext, hrun, hreq, hall⟩

/-- The root directory of `demoEngine` with base URL `http://h/r` and the update list `a`
(a file), `sub` (a directory), `ghost` (not in the index). -/
theorem scheduleUpdates_spec_witness :
    ∃ s1 ext, scheduleUpdates memPlatform 100 0 ["a", "sub", "ghost"]
        (setBaseUrl demoEngine "http://h/r") = .ok () s1 ∧
      s1.requests = (setBaseUrl demoEngine "http://h/r").requests ++ ext ∧
      List.Forall₂
        (fun r n => ScheduledFor "http://h/r" s1.directories demoEngine.rootDir 0 n r) ext
        (["a", "sub", "ghost"].filter (fun n => (findIndexChild demoEngine.rootDir n).isSome)) := by
  refine scheduleUpdates_spec memPlatform 100 0 demoEngine.rootDir ["a", "sub", "ghost"]
    (setBaseUrl demoEngine "http://h/r") ⟨by decide, by simp [setBaseUrl, demoEngine], by
      simp [setBaseUrl, demoEngine]⟩ rfl ?_
  intro name hn c hc hty addr
  simp only [List.mem_cons, List.mem_singleton, List.not_mem_nil, or_false] at hn
  rcases hn with rfl | rfl | rfl
  · have hfind : findIndexChild demoEngine.rootDir "a"
        = some { type := .FileType, name := "a", hash := "#x", sizeInBytes := 1 } := by rfl
    rw [hfind] at hc
    injection hc with hc
    subst hc
    exact absurd rfl hty
  · exact ⟨{ addr := addr, relativePath := "sub", children := [] }, by rfl⟩
  · have hfind : findIndexChild demoEngine.rootDir "ghost" = none := by rfl
    rw [hfind] at hc
    cases hc

/-! ## Reconciliation on a tree with orphans -/

/-- C5 at a failing input: on the tree `orphanFS`, whose directory `old` and file `stale` are
not in the manifest, `updateChildrenBasedOnHash` of the root does not get to its lists: at
the first orphan it reads `c->name` through `children.end()`. -/
theorem updateChildrenBasedOnHash_orphan_undefined :
    HTTPRepository.new memPlatform 100 "/base" orphanFS = .ok orphanEngine ∧
    ∃ s1, updateChildrenBasedOnHash memPlatform 100 5 0 orphanEngine
      = .error (.undefinedBehaviour "c->name read through children.end()") s1 := by
  refine ⟨by rfl, _, by rfl⟩

/-- C6 at a failing input: `removeOrphans` for the orphans `old` (a directory without a node
in the registry) and `stale` (a file whose hash `hashForChild` has just cached) on
`orphanFS` returns with the directory `old` and its content still on disk and with the
hash-cache entry of `stale` still in the cache; only the file `stale` is unlinked. -/
theorem removeOrphans_leaves_directory_and_cache_entry :
    ∃ s1, (hashForChild memPlatform orphanEngine 0
              { type := .FileType, name := "stale", hash := "", sizeInBytes := 0 }).bind
            (fun _ s => removeOrphans memPlatform 0 ["old", "stale"] s) = .ok () s1 ∧
      memPlatform.pathExists s1.fs "/base/old" = true ∧
      memPlatform.pathExists s1.fs "/base/old/junk" = true ∧
      memPlatform.pathExists s1.fs "/base/stale" = false ∧
      s1.hashes = [{ filePath := "/base/stale", modTime := 3, lengthBytes := 1,
                     hashHex := "#s" }] := by
  refine ⟨_, by rfl, by rfl, by rfl, by rfl, by rfl⟩

/-! ## A parse failure and the child list -/

/-- The constructor of a directory node leaves no children when the parser throws an
`sg_exception`. -/
theorem HTTPDirectory_new_of_parse_failure (P : Platform F) (fuel : Nat) (basePath : String)
    (fs : F) (addr : Nat) (path : String) (e : Err) (cs : List ChildInfo)
    (hparse : parseDirIndex P fuel basePath fs path [] = .error e cs)
    (he : e.isSgException = true) :
    HTTPDirectory.new P fuel basePath fs addr path
      = .ok { addr := addr, relativePath := path, children := [] } := by
  unfold HTTPDirectory.new
  split
  · rw [hparse]
    simp [he]
  · rfl

/-- C10 at a failing input: the root manifest request of `demoUpdating` completes with 200
and a body whose second line has an unknown kind. `dirIndexUpdated` lets the exception of
the parser escape `onDone`; the child list of the root then holds the entry of the first
line, and the request is still in flight. -/
theorem dirIndexUpdated_failure_keeps_entries :
    ∃ s1, DirGetRequest.onDone memPlatform 100 5 demoUpdating demoRootRequest
        "f:a:#x\nx:b:c\n".toList 200
        = .error (.sg_io_exception "Malformed line code in dir index file") s1 ∧
      s1.rootDir.children
        = [{ type := .FileType, name := "a", hash := "#x", sizeInBytes := 0 }] ∧
      s1.requests = [demoRootRequest] := by
  refine ⟨_, by rfl, by rfl, by rfl⟩

/-! ## What the defects do in every state -/

theorem updatedFileContents_registry (P : Platform F) (s : HTTPRepoPrivate F) (p h : String) :
    (updatedFileContents P s p h).rootDir = s.rootDir ∧
    (updatedFileContents P s p h).directories = s.directories := by
  unfold updatedFileContents writeHashCache
  dsimp only
  split
  · exact ⟨rfl, rfl⟩
  · split <;> exact ⟨rfl, rfl⟩

theorem hashForPath_registry (P : Platform F) (s : HTTPRepoPrivate F) (p : String) :
    (hashForPath P s p).state.rootDir = s.rootDir ∧
    (hashForPath P s p).state.directories = s.directories := by
  have hcompute : ∀ s0 : HTTPRepoPrivate F,
      ((computeHashForPath P s0 p).bind
        fun hash s2 => Res.ok hash (updatedFileContents P s2 p hash)).state.rootDir = s0.rootDir ∧
      ((computeHashForPath P s0 p).bind
        fun hash s2 => Res.ok hash (updatedFileContents P s2 p hash)).state.directories
          = s0.directories := by
    intro s0
    unfold computeHashForPath
    split
    · exact updatedFileContents_registry P s0 p ""
    · split
      · exact ⟨rfl, rfl⟩
      · exact updatedFileContents_registry P s0 p _
  unfold hashForPath
  split
  · split
    · exact ⟨rfl, rfl⟩
    · exact hcompute _
  · exact hcompute s

theorem deref_of_registry_eq {s s1 : HTTPRepoPrivate F} (hroot : s1.rootDir = s.rootDir)
    (hdirs : s1.directories = s.directories) (p : Nat) : s1.deref p = s.deref p := by
  unfold HTTPRepoPrivate.deref
  rw [hroot, hdirs]

/-- In every state, the loop body of `updateChildrenBasedOnHash` does not return normally
for a local child whose name is not in the index of the directory. -/
theorem classifyChild_orphan_not_ok (P : Platform F) (fuel : Nat)
    (recurse : Nat → HTTPRepoPrivate F → Res (HTTPRepoPrivate F) Unit)
    (this : Nat) (name : String) (acc : Classified) (s : HTTPRepoPrivate F)
    (d : HTTPDirectory) (hd : s.deref this = some d) (hnone : findIndexChild d name = none) :
    (classifyChild P fuel recurse this name acc s).isOk = false := by
  unfold classifyChild withDir
  rw [hd]
  dsimp only
  unfold hashForChild withDir
  rw [hd]
  dsimp only
  have hreg := hashForPath_registry P s
    (if (if P.isDir s.fs (SGPath.append (absolutePath s d) name) = true
          then ChildType.DirectoryType else ChildType.FileType) = ChildType.DirectoryType
     then SGPath.append (SGPath.append (absolutePath s d) name) ".dirindex"
     else SGPath.append (absolutePath s d) name)
  cases hh : hashForPath P s
    (if (if P.isDir s.fs (SGPath.append (absolutePath s d) name) = true
          then ChildType.DirectoryType else ChildType.FileType) = ChildType.DirectoryType
     then SGPath.append (SGPath.append (absolutePath s d) name) ".dirindex"
     else SGPath.append (absolutePath s d) name) with
  | error e s1 => rfl
  | ok hash s1 =>
    rw [hh] at hreg
    have hd1 : s1.deref this = some d :=
      (deref_of_registry_eq hreg.1 hreg.2 this).trans hd
    simp only [Res.bind, hd1, hnone, Res.isOk]

/-- In every state, `deleteDirectory` on a path without a node in the registry returns
`false` and changes nothing, whatever is on disk at that path. -/
theorem deleteDirectory_unregistered (P : Platform F) (s : HTTPRepoPrivate F) (path : String)
    (h : s.directories.find? (DirectoryWithPath path) = none) :
    deleteDirectory P s path = .ok false s := by
  unfold deleteDirectory
  rw [h]

/-! ## Hash cache operations -/

theorem entriesOtherThan_eraseP (p : String) (hashes : List HashCacheEntry) :
    entriesOtherThan p (hashes.eraseP (HashEntryWithPath p)) = entriesOtherThan p hashes := by
  induction hashes with
  | nil => rfl
  | cons e l ih =>
    by_cases he : e.filePath = p
    · have h1 : HashEntryWithPath p e = true := by simp [HashEntryWithPath, he]
      simp [List.eraseP_cons, h1, entriesOtherThan, he]
    · have h1 : HashEntryWithPath p e = false := by simp [HashEntryWithPath, he]
      have ih1 : List.filter (fun e => e.filePath != p) (List.eraseP (HashEntryWithPath p) l)
          = List.filter (fun e => e.filePath != p) l := ih
      simp [List.eraseP_cons, h1, entriesOtherThan, he, ih1]

theorem entriesOtherThan_of_absent (p : String) (hashes : List HashCacheEntry)
    (h : ∀ e ∈ hashes, e.filePath ≠ p) : entriesOtherThan p hashes = hashes := by
  unfold entriesOtherThan
  rw [List.filter_eq_self]
  intro e he
  simpa using h e he

theorem eraseP_eq_entriesOtherThan (p : String) (hashes : List HashCacheEntry)
    (hok : CacheOk hashes) :
    hashes.eraseP (HashEntryWithPath p) = entriesOtherThan p hashes := by
  induction hashes with
  | nil => rfl
  | cons e l ih =>
    unfold CacheOk at hok
    simp only [List.map_cons, List.nodup_cons] at hok
    by_cases he : e.filePath = p
    · have h1 : HashEntryWithPath p e = true := by simp [HashEntryWithPath, he]
      have habsent : ∀ x ∈ l, x.filePath ≠ p := by
        intro x hx hxp
        exact hok.1 (List.mem_map.mpr ⟨x, hx, by rw [hxp, he]⟩)
      have hrest := entriesOtherThan_of_absent p l habsent
      simp only [List.eraseP_cons, h1, cond_true]
      unfold entriesOtherThan at hrest ⊢
      simp [he, hrest]
    · have h1 : HashEntryWithPath p e = false := by simp [HashEntryWithPath, he]
      have ih1 := ih hok.2
      unfold entriesOtherThan at ih1 ⊢
      simp [List.eraseP_cons, h1, he, ih1]

theorem writeHashCache_hashes (P : Platform F) (s : HTTPRepoPrivate F) :
    (writeHashCache P s).hashes = s.hashes := by
  unfold writeHashCache
  split <;> rfl

/-- C14: `updatedFileContents(p, h)` keeps every entry for another path, unchanged and in
its order; it erases the entry the lookup finds for `p`; for a non-empty `h` it then
appends the entry `(p, mtime of p, size of p, h)`, and for the empty `h` it inserts nothing,
so that a cache with at most one entry per path has no entry for `p` afterwards. -/
theorem updatedFileContents_spec (P : Platform F) (s : HTTPRepoPrivate F) (p h : String) :
    entriesOtherThan p (updatedFileContents P s p h).hashes = entriesOtherThan p s.hashes ∧
    (h ≠ "" → (updatedFileContents P s p h).hashes
      = s.hashes.eraseP (HashEntryWithPath p) ++
          [{ filePath := p, modTime := P.modTime s.fs p, lengthBytes := P.sizeInBytes s.fs p,
             hashHex := h }]) ∧
    (h = "" → (updatedFileContents P s p h).hashes = s.hashes.eraseP (HashEntryWithPath p)) ∧
    (h = "" → CacheOk s.hashes → ∀ e ∈ (updatedFileContents P s p h).hashes, e.filePath ≠ p) := by
  have hempty : h = "" →
      (updatedFileContents P s p h).hashes = s.hashes.eraseP (HashEntryWithPath p) := by
    intro hh
    simp [updatedFileContents, hh]
  have hfull : h ≠ "" → (updatedFileContents P s p h).hashes
      = s.hashes.eraseP (HashEntryWithPath p) ++
          [{ filePath := p, modTime := P.modTime s.fs p, lengthBytes := P.sizeInBytes s.fs p,
             hashHex := h }] := by
    intro hh
    simp [updatedFileContents, hh, writeHashCache_hashes]
  refine ⟨?_, hfull, hempty, ?_⟩
  · by_cases hh : h = ""
    · rw [hempty hh, entriesOtherThan_eraseP]
    · rw [hfull hh]
      have := entriesOtherThan_eraseP p s.hashes
      unfold entriesOtherThan at this ⊢
      simp [List.filter_append, this]
  · intro hh hok e he
    rw [hempty hh, eraseP_eq_entriesOtherThan p s.hashes hok] at he
    unfold entriesOtherThan at he
    simpa using (List.mem_filter.mp he).2

/-- Witness of C14: on `cachedEngine`, a new hash for `/base/a` and the empty hash for
`/base/gone`. -/
theorem updatedFileContents_spec_witness :
    (updatedFileContents memPlatform cachedEngine "/base/a" "#y").hashes
      = [{ filePath := "/base/sub/.dirindex", modTime := 3, lengthBytes := 7, hashHex := "#old" },
         { filePath := "/base/gone", modTime := 2, lengthBytes := 4, hashHex := "#gone" },
         { filePath := "/base/a", modTime := 3, lengthBytes := 1, hashHex := "#y" }] ∧
    (updatedFileContents memPlatform cachedEngine "/base/gone" "").hashes
      = [{ filePath := "/base/a", modTime := 3, lengthBytes := 1, hashHex := "#x" },
         { filePath := "/base/sub/.dirindex", modTime := 3, lengthBytes := 7,
           hashHex := "#old" }] ∧
    ∀ e ∈ (updatedFileContents memPlatform cachedEngine "/base/gone" "").hashes,
      e.filePath ≠ "/base/gone" :=
  ⟨(updatedFileContents_spec memPlatform cachedEngine "/base/a" "#y").2.1 (by decide),
   (updatedFileContents_spec memPlatform cachedEngine "/base/gone" "").2.2.1 rfl,
   (updatedFileContents_spec memPlatform cachedEngine "/base/gone" "").2.2.2 rfl (by decide)⟩

/-- C15 at a failing input: on `cachedEngine`, after `updatedFileContents("/base/a", "#y")`
the file `/base/.hashes` holds the serialization of the cache; after the following
`updatedFileContents("/base/gone", "")` the entry is gone from the cache in memory but the
file is as before, so it no longer is the serialization of the cache. -/
theorem updatedFileContents_empty_hash_not_persisted :
    memPlatform.readFile (updatedFileContents memPlatform cachedEngine "/base/a" "#y").fs
        "/base/.hashes"
      = some (hashCacheText
          (updatedFileContents memPlatform cachedEngine "/base/a" "#y").hashes) ∧
    memPlatform.readFile
        (updatedFileContents memPlatform
          (updatedFileContents memPlatform cachedEngine "/base/a" "#y") "/base/gone" "").fs
        "/base/.hashes"
      = some (hashCacheText
          (updatedFileContents memPlatform cachedEngine "/base/a" "#y").hashes) ∧
    hashCacheText
        (updatedFileContents memPlatform
          (updatedFileContents memPlatform cachedEngine "/base/a" "#y") "/base/gone" "").hashes
      ≠ hashCacheText (updatedFileContents memPlatform cachedEngine "/base/a" "#y").hashes := by
  refine ⟨by rfl, by rfl, by decide⟩

/-- In every state, `updatedFileContents` with the empty hash leaves the file system as it
is: `writeHashCache` is not reached. -/
theorem updatedFileContents_empty_fs (P : Platform F) (s : HTTPRepoPrivate F) (p : String) :
    (updatedFileContents P s p "").fs = s.fs := by
  simp [updatedFileContents]

/-- C16 at a failing input: the request for the file `a` of the root of an engine with base
path `/base` receives the body `y` and completes with 200. The download is recorded under
the key `a` (with the size and time of the path `a`, not of the file written at
`/base/a`), while `hashForChild` looks the child up under the key `/base/a`, for which the
cache has no entry. -/
theorem didUpdateFile_key_differs_from_lookup_key :
    ∃ st s1 s2,
      FileGetRequest.gotBodyData memPlatform fileUpdating demoFileRequest "a"
        FileGetState.init "y".toList = .ok st s1 ∧
      FileGetRequest.onDone memPlatform s1 demoFileRequest "a" st 200 = .ok () s2 ∧
      memPlatform.readFile s2.fs "/base/a" = some "y".toList ∧
      s2.hashes = [{ filePath := "a", modTime := 0, lengthBytes := 0, hashHex := "#y" }] ∧
      SGPath.append (absolutePath s2 s2.rootDir) "a" = "/base/a" ∧
      s2.hashes.find? (HashEntryWithPath "/base/a") = none := by
  refine ⟨_, _, _, by rfl, by rfl, by rfl, by rfl, by rfl, by rfl⟩

/-- C17 at a failing input: the request for the file `a` completes with 200 without any
body chunk. `gotBodyData` has not run, so the destination file has not been opened or
truncated (it keeps its old content `x`) and `onDone` takes the digest of a context that
`sha1_init` never initialised. -/
theorem fileGet_empty_body_undefined :
    ∃ s1, FileGetRequest.onDone memPlatform fileUpdating demoFileRequest "a"
        FileGetState.init 200
        = .error (.undefinedBehaviour "sha1_result on a context without sha1_init") s1 ∧
      s1.fs = fileUpdating.fs ∧
      memPlatform.readFile s1.fs "/base/a" = some "x".toList := by
  refine ⟨_, by rfl, by rfl, by rfl⟩

/-- C20 at a failing input: the loop body of `updateChildrenBasedOnHash` for the local file
`stale` of `orphanFS`, which is not in the index: `findIndexChild` returns `children.end()`
and the statement that removes the name from `indexNames` reads `c->name` through it. -/
theorem classifyChild_reads_end_iterator :
    findIndexChild orphanEngine.rootDir "stale" = none ∧
    ∃ s1, classifyChild memPlatform 100 (fun _ s => .ok () s) 0 "stale"
        { indexNames := ["a"], toBeUpdated := [], orphans := [] } orphanEngine
      = .error (.undefinedBehaviour "c->name read through children.end()") s1 := by
  refine ⟨by rfl, _, by rfl⟩

/-! ## The child list is sorted -/

theorem sortChildren_sorted (cs : List ChildInfo) :
    (sortChildren cs).Pairwise (fun a b => ¬ ChildInfo.lt b a) := by
  haveI : IsTotal ChildInfo (fun a b => ¬ ChildInfo.lt b a) :=
    ⟨fun a b => by
      unfold ChildInfo.lt
      rcases le_total a.name.toList b.name.toList with h | h
      · exact Or.inl (not_lt.mpr h)
      · exact Or.inr (not_lt.mpr h)⟩
  haveI : IsTrans ChildInfo (fun a b => ¬ ChildInfo.lt b a) :=
    ⟨fun a b c hab hbc => by
      unfold ChildInfo.lt at hab hbc ⊢
      exact not_lt.mpr (le_trans (not_lt.mp hab) (not_lt.mp hbc))⟩
  exact List.sorted_insertionSort (fun a b => ¬ ChildInfo.lt b a) cs

theorem sortChildren_perm (cs : List ChildInfo) : (sortChildren cs).Perm cs :=
  List.perm_insertionSort _ cs

theorem find?_replaceFirst_addr (l : List HTTPDirectory) (p : Nat) (d : HTTPDirectory)
    (cs : List ChildInfo) (h : l.find? (fun x => x.addr == p) = some d) :
    (replaceFirst (fun x => x.addr == p) (fun x => { x with children := cs }) l).find?
        (fun x => x.addr == p) = some { d with children := cs } := by
  induction l with
  | nil => cases h
  | cons a l ih =>
    by_cases ha : (a.addr == p) = true
    · simp only [List.find?_cons, ha] at h
      injection h with h
      subst h
      simp [replaceFirst, ha]
    · have ha1 : (a.addr == p) = false := by simpa using ha
      simp only [List.find?_cons, ha1] at h
      simp only [replaceFirst, ha1, Bool.false_eq_true, if_false, List.find?_cons]
      exact ih h

theorem deref_setChildren (s : HTTPRepoPrivate F) (p : Nat) (d : HTTPDirectory)
    (cs : List ChildInfo) (h : s.deref p = some d) :
    (s.setChildren p cs).deref p = some { d with children := cs } := by
  unfold HTTPRepoPrivate.deref at h
  unfold HTTPRepoPrivate.setChildren HTTPRepoPrivate.deref
  by_cases hroot : s.rootDir.addr = p
  · rw [if_pos hroot] at h
    injection h with h
    subst h
    rw [if_pos hroot]
    dsimp only
    rw [if_pos hroot]
  · simp only [hroot, if_false] at h ⊢
    exact find?_replaceFirst_addr _ p d cs h

/-- C18: the constructor of a directory node over an existing directory whose manifest
parses, and every `dirIndexUpdated` whose parse succeeds, leave in the node the entries
the parser produced, permuted into non-decreasing order of name (no entry is followed by
one with a smaller name under `operator<`). -/
theorem children_sorted_after_parse (P : Platform F) (fuel : Nat) :
    (∀ (basePath : String) (fs : F) (addr : Nat) (path : String) (cs : List ChildInfo),
      P.pathExists fs (SGPath.append basePath path) = true →
      parseDirIndex P fuel basePath fs path [] = .ok () cs →
      ∃ node, HTTPDirectory.new P fuel basePath fs addr path = .ok node ∧
        node.children.Pairwise (fun a b => ¬ ChildInfo.lt b a) ∧ node.children.Perm cs) ∧
    (∀ (s : HTTPRepoPrivate F) (this : Nat) (hash : String) (d : HTTPDirectory)
      (cs : List ChildInfo), s.deref this = some d →
      parseDirIndex P fuel s.basePath
        (updatedFileContents P s (SGPath.append d.relativePath ".dirindex") hash).fs
        d.relativePath [] = .ok () cs →
      ∃ s1 node, dirIndexUpdated P fuel s this hash = .ok () s1 ∧
        s1.deref this = some node ∧
        node.children.Pairwise (fun a b => ¬ ChildInfo.lt b a) ∧ node.children.Perm cs) := by
  constructor
  · intro basePath fs addr path cs hex hparse
    refine ⟨{ addr := addr, relativePath := path, children := sortChildren cs }, ?_,
      sortChildren_sorted cs, sortChildren_perm cs⟩
    unfold HTTPDirectory.new
    rw [if_pos hex, hparse]
  · intro s this hash d cs hd hparse
    have hbase : (updatedFileContents P s (SGPath.append d.relativePath ".dirindex") hash).basePath
        = s.basePath := by
      unfold updatedFileContents writeHashCache
      dsimp only
      split
      · rfl
      · split <;> rfl
    have hreg := updatedFileContents_registry P s (SGPath.append d.relativePath ".dirindex") hash
    have hd1 : (updatedFileContents P s (SGPath.append d.relativePath ".dirindex") hash).deref this
        = some d := (deref_of_registry_eq hreg.1 hreg.2 this).trans hd
    refine ⟨_, { d with children := sortChildren cs }, ?_,
      deref_setChildren _ this d (sortChildren cs) hd1,
      sortChildren_sorted cs, sortChildren_perm cs⟩
    unfold dirIndexUpdated withDir
    rw [hd]
    dsimp only
    rw [hbase, hparse]

/-- Witness of C18: the constructor over `unsortedFS`, and `dirIndexUpdated` on the root of
`demoEngine`. -/
theorem children_sorted_after_parse_witness :
    (∃ node, HTTPDirectory.new memPlatform 100 "/base" unsortedFS 0 "" = .ok node ∧
      node.children.Pairwise (fun a b => ¬ ChildInfo.lt b a) ∧
      node.children.Perm
        [{ type := .FileType, name := "b", hash := "#1", sizeInBytes := 0 },
         { type := .DirectoryType, name := "c", hash := "#3", sizeInBytes := 0 },
         { type := .FileType, name := "a", hash := "#2", sizeInBytes := 0 }]) ∧
    (∃ s1 node, dirIndexUpdated memPlatform 100 demoEngine 0 "#h" = .ok () s1 ∧
      s1.deref 0 = some node ∧
      node.children.Pairwise (fun a b => ¬ ChildInfo.lt b a) ∧
      node.children.Perm
        [{ type := .FileType, name := "a", hash := "#x", sizeInBytes := 1 },
         { type := .DirectoryType, name := "sub", hash := "#", sizeInBytes := 0 }]) :=
  ⟨(children_sorted_after_parse memPlatform 100).1 "/base" unsortedFS 0 "" _ (by rfl) (by rfl),
   (children_sorted_after_parse memPlatform 100).2 demoEngine 0 "#h" demoEngine.rootDir _
     (by rfl) (by rfl)⟩

/-! ## The registry -/

theorem registry_nodup_getOrCreateDirectory (P : Platform F) (fuel : Nat)
    (s : HTTPRepoPrivate F) (path : String)
    (h : (s.directories.map (fun d => d.relativePath)).Nodup) :
    ((getOrCreateDirectory P fuel s path).state.directories.map
      (fun d => d.relativePath)).Nodup := by
  unfold getOrCreateDirectory
  cases hfind : s.directories.find? (DirectoryWithPath path) with
  | some d => exact h
  | none =>
    cases hnew : HTTPDirectory.new P fuel s.basePath s.fs s.nextAddr path with
    | error e => exact h
    | ok node =>
      have hpath := (HTTPDirectory_new_fields hnew).2
      simp only [Res.state, List.map_append, List.map_cons, List.map_nil]
      refine List.Nodup.append h (List.nodup_singleton _) ?_
      intro a ha hb
      simp only [List.mem_singleton] at hb
      obtain ⟨x, hx, rfl⟩ := List.mem_map.mp ha
      have := List.find?_eq_none.mp hfind x hx
      simp [DirectoryWithPath, hb, hpath] at this

theorem updatedFileContents_directories (P : Platform F) (s : HTTPRepoPrivate F)
    (p h : String) : (updatedFileContents P s p h).directories = s.directories :=
  (updatedFileContents_registry P s p h).2

theorem registry_nodup_deleteDirectory (P : Platform F) (s : HTTPRepoPrivate F)
    (path : String) (h : (s.directories.map (fun d => d.relativePath)).Nodup) :
    ((deleteDirectory P s path).state.directories.map (fun d => d.relativePath)).Nodup := by
  unfold deleteDirectory
  cases hfind : s.directories.find? (DirectoryWithPath path) with
  | none => exact h
  | some d =>
    simp only [Res.state, updatedFileContents_directories]
    exact List.Nodup.sublist (List.Sublist.map _ (List.eraseP_sublist _)) h

/-- The registry when the constructor returns: `getOrCreateDirectory(path)` returns the
registered node for the path and leaves the state as it is when there is one, and
otherwise, when the constructor returns, appends
exactly the new node, whose relative path is `path`; a second call with the same path
returns the same node and changes nothing; and in every state reached from an empty
registry by calls of `getOrCreateDirectory` and `deleteDirectory` no two registered nodes
have the same relative path. -/
theorem registry_one_node_per_path (P : Platform F) :
    (∀ (fuel : Nat) (s : HTTPRepoPrivate F) (path : String) (d : HTTPDirectory),
      s.directories.find? (DirectoryWithPath path) = some d →
      getOrCreateDirectory P fuel s path = .ok d.addr s ∧ d.relativePath = path) ∧
    (∀ (fuel : Nat) (s : HTTPRepoPrivate F) (path : String) (node : HTTPDirectory),
      s.directories.find? (DirectoryWithPath path) = none →
      HTTPDirectory.new P fuel s.basePath s.fs s.nextAddr path = .ok node →
      getOrCreateDirectory P fuel s path = .ok node.addr
        { s with directories := s.directories ++ [node], nextAddr := s.nextAddr + 1 } ∧
      node.relativePath = path) ∧
    (∀ (fuel : Nat) (s s1 : HTTPRepoPrivate F) (path : String) (a : Nat),
      getOrCreateDirectory P fuel s path = .ok a s1 →
      getOrCreateDirectory P fuel s1 path = .ok a s1) ∧
    (∀ s0 s : HTTPRepoPrivate F, s0.directories = [] → RegistryReachable P s0 s →
      (s.directories.map (fun d => d.relativePath)).Nodup) := by
  have hfound : ∀ (fuel : Nat) (s : HTTPRepoPrivate F) (path : String) (d : HTTPDirectory),
      s.directories.find? (DirectoryWithPath path) = some d →
      getOrCreateDirectory P fuel s path = .ok d.addr s ∧ d.relativePath = path := by
    intro fuel s path d hfind
    refine ⟨by simp [getOrCreateDirectory, hfind], ?_⟩
    have := List.find?_some hfind
    simpa [DirectoryWithPath] using this
  refine ⟨hfound, ?_, ?_, ?_⟩
  · intro fuel s path node hfind hnew
    exact ⟨by simp [getOrCreateDirectory, hfind, hnew], (HTTPDirectory_new_fields hnew).2⟩
  · intro fuel s s1 path a hfirst
    unfold getOrCreateDirectory at hfirst
    cases hfind : s.directories.find? (DirectoryWithPath path) with
    | some d =>
      rw [hfind] at hfirst
      injection hfirst with ha hs
      subst ha
      subst hs
      exact (hfound fuel s path d hfind).1
    | none =>
      rw [hfind] at hfirst
      dsimp only at hfirst
      cases hnew : HTTPDirectory.new P fuel s.basePath s.fs s.nextAddr path with
      | error e => rw [hnew] at hfirst; cases hfirst
      | ok node =>
        rw [hnew] at hfirst
        injection hfirst with ha hs
        subst ha
        subst hs
        have hpath := (HTTPDirectory_new_fields hnew).2
        refine (hfound fuel _ path node ?_).1
        show (s.directories ++ [node]).find? (DirectoryWithPath path) = some node
        rw [List.find?_append, hfind]
        simp [DirectoryWithPath, hpath]
  · intro s0 s h0 hreach
    induction hreach with
    | init => simp [h0]
    | step _ hstep ih =>
      cases hstep with
      | getOrCreate fuel path => exact registry_nodup_getOrCreateDirectory P fuel _ path ih
      | delete path => exact registry_nodup_deleteDirectory P _ path ih

/-- The calls `getOrCreateDirectory("sub")` on `demoEngine`, whose registry is empty,
twice, then `deleteDirectory("sub")`. -/
theorem registry_one_node_per_path_witness :
    getOrCreateDirectory memPlatform 100 demoEngine "sub" = .ok 1
      { demoEngine with
          directories := [{ addr := 1, relativePath := "sub", children := [] }],
          nextAddr := 2 } ∧
    getOrCreateDirectory memPlatform 100
      { demoEngine with
          directories := [{ addr := 1, relativePath := "sub", children := [] }],
          nextAddr := 2 } "sub" = .ok 1
      { demoEngine with
          directories := [{ addr := 1, relativePath := "sub", children := [] }],
          nextAddr := 2 } ∧
    ((deleteDirectory memPlatform
        (getOrCreateDirectory memPlatform 100 demoEngine "sub").state "sub").state.directories.map
      (fun d => d.relativePath)).Nodup :=
  ⟨((registry_one_node_per_path memPlatform).2.1 100 demoEngine "sub"
      { addr := 1, relativePath := "sub", children := [] } rfl (by rfl)).1,
   (registry_one_node_per_path memPlatform).2.2.1 100 demoEngine _ "sub" 1 (by rfl),
   (registry_one_node_per_path memPlatform).2.2.2 demoEngine _ rfl
     (RegistryReachable.step
       (RegistryReachable.step RegistryReachable.init (RegistryStep.getOrCreate 100 "sub"))
       (RegistryStep.delete "sub"))⟩

/-! ## CRLF line ends -/

theorem strtol_decimal_then (ds rest : List Char) (x : Char) (h : IsDecimal ds)
    (hx : x.isDigit = false) :
    strtol (ds ++ x :: rest) = ((min (digitsValue ds) LONG_MAX : Nat) : Int) := by
  obtain ⟨c, t, rfl⟩ := List.exists_cons_of_ne_nil h.1
  have hc : c.isDigit = true := h.2 c (by simp)
  have hsp : isspace c = false := isspace_of_isDigit c hc
  have hminus : c ≠ '-' := fun hm => by subst hm; simp at hc
  have hplus : c ≠ '+' := fun hm => by subst hm; simp at hc
  unfold strtol
  simp only [List.cons_append, dropWhile_head c _ hsp, List.head?_cons]
  have h1 : (some c == some '-') = false := by simpa using hminus
  have h2 : (some c == some '+') = false := by simpa using hplus
  simp only [h1, h2, Bool.or_self, Bool.false_eq_true, if_false]
  rw [← List.cons_append, takeWhile_stop (p := Char.isDigit) (c :: t) rest x h.2 hx]
  by_cases hv : digitsValue (c :: t) > LONG_MAX
  · rw [if_pos hv, min_eq_right (Nat.le_of_lt hv)]
  · rw [if_neg hv, min_eq_left (Nat.le_of_not_lt hv)]

/-- The loop body on `f:<name>:<hash>:<size>` followed by a carriage return. -/
theorem parseDirIndexLine_sized_cr (name hash size : List Char)
    (hn : IsField name) (hh : IsField hash) (hs : IsDecimal size)
    (children : List ChildInfo) :
    parseDirIndexLine ('f' :: ':' :: (name ++ ':' :: (hash ++ ':' :: (size ++ ['\r'])))) children
      = .ok () (children ++ [{ type := .FileType, name := String.mk name,
                               hash := String.mk hash,
                               sizeInBytes := min (digitsValue size) LONG_MAX }]) := by
  have hnul : ∀ c ∈ 'f' :: ':' :: (name ++ ':' :: (hash ++ ':' :: (size ++ ['\r']))),
      c ≠ '\x00' := by
    intro c hc
    simp only [List.mem_cons, List.mem_append, List.mem_singleton, List.not_mem_nil,
      or_false] at hc
    rcases hc with h | h | h | h | h | h | h | h
    · subst h; decide
    · subst h; decide
    · exact isField_no_nul hn c h
    · subst h; decide
    · exact isField_no_nul hh c h
    · subst h; decide
    · exact isDecimal_no_nul hs c h
    · subst h; decide
  have htok : strtok_r ('f' :: ':' :: (name ++ ':' :: (hash ++ ':' :: (size ++ ['\r']))))
      = some (['f'], name ++ ':' :: (hash ++ ':' :: (size ++ ['\r']))) := by
    have := strtok_r_token ['f'] (name ++ ':' :: (hash ++ ':' :: (size ++ ['\r']))) (by simp)
      (by decide)
    simpa using this
  have hsizeNe : size ++ ['\r'] ≠ [] := by simp
  have hsizeCol : ∀ c ∈ size ++ ['\r'], c ≠ ':' := by
    intro c hc
    simp only [List.mem_append, List.mem_singleton] at hc
    rcases hc with h | h
    · exact isDecimal_no_colon hs c h
    · subst h; decide
  have hval : toSizeT (strtol (size ++ ['\r'])) = min (digitsValue size) LONG_MAX := by
    rw [strtol_decimal_then size [] '\r' hs (by decide), toSizeT_of_le _ (Nat.min_le_right _ _)]
  unfold parseDirIndexLine
  rw [cString_of_no_nul _ hnul, htok]
  simp only [strtokNext_token name _ hn.1 (isField_no_colon hn),
    strtokNext_token hash _ hh.1 (isField_no_colon hh),
    strtokNext_last (size ++ ['\r']) hsizeNe hsizeCol]
  simp [ChildInfo.new, setSizeOfBack_append, ChildInfo.setSize, hval]

theorem isField_append_cr {t : List Char} (h : IsField t) : IsField (t ++ ['\r']) := by
  refine ⟨by simp, ?_⟩
  intro c hc
  simp only [List.mem_append, List.mem_singleton] at hc
  rcases hc with hc | hc
  · exact h.2 c hc
  · subst hc; decide

/-- The loop body on a well-formed line that is not blank, followed by a carriage
return. -/
theorem parseDirIndexLine_cr (l : ManifestLine) (h : l.WellFormed) (hb : l ≠ .blank)
    (children : List ChildInfo) :
    parseDirIndexLine (l.text ++ ['\r']) children = .ok () (children ++ l.crlfEntry.toList) := by
  cases l with
  | version rest =>
    have hwf : (ManifestLine.version (rest ++ ['\r'])).WellFormed := by
      intro c hc
      simp only [List.mem_append, List.mem_singleton] at hc
      rcases hc with hc | hc
      · exact h c hc
      · subst hc; decide
    have := parseDirIndexLine_wellFormed _ hwf children
    simpa [ManifestLine.text, ManifestLine.entry, ManifestLine.crlfEntry] using this
  | path rest =>
    have hwf : (ManifestLine.path (rest ++ ['\r'])).WellFormed := by
      intro c hc
      simp only [List.mem_append, List.mem_singleton] at hc
      rcases hc with hc | hc
      · exact h c hc
      · subst hc; decide
    have := parseDirIndexLine_wellFormed _ hwf children
    simpa [ManifestLine.text, ManifestLine.entry, ManifestLine.crlfEntry] using this
  | blank => exact absurd rfl hb
  | file name hash size =>
    cases size with
    | none =>
      have hwf : (ManifestLine.file name (hash ++ ['\r']) none).WellFormed :=
        ⟨h.1, isField_append_cr h.2⟩
      have := parseDirIndexLine_wellFormed _ hwf children
      simpa [ManifestLine.text, ManifestLine.entry, ManifestLine.crlfEntry,
        ManifestLine.hashIsLast] using this
    | some size =>
      have := parseDirIndexLine_sized_cr name hash size h.1 h.2.1 h.2.2 children
      simpa [ManifestLine.text, ManifestLine.entry, ManifestLine.crlfEntry,
        ManifestLine.hashIsLast] using this
  | dir name hash =>
    have hwf : (ManifestLine.dir name (hash ++ ['\r'])).WellFormed :=
      ⟨h.1, isField_append_cr h.2⟩
    have := parseDirIndexLine_wellFormed _ hwf children
    simpa [ManifestLine.text, ManifestLine.entry, ManifestLine.crlfEntry,
      ManifestLine.hashIsLast] using this

theorem parseLines_cr (ls : List ManifestLine) (h : ∀ l ∈ ls, l.WellFormed ∧ l ≠ .blank)
    (children : List ChildInfo) :
    parseLines (ls.map (fun l => l.text ++ ['\r'])) children
      = .ok () (children ++ ls.filterMap ManifestLine.crlfEntry) := by
  induction ls generalizing children with
  | nil => simp [parseLines]
  | cons l ls ih =>
    have hl := h l (by simp)
    have hrest : ∀ x ∈ ls, x.WellFormed ∧ x ≠ .blank := fun x hx => h x (by simp [hx])
    simp only [List.map_cons, parseLines, parseDirIndexLine_cr l hl.1 hl.2 children]
    rw [ih hrest]
    cases he : l.crlfEntry <;> simp [List.filterMap_cons, he]

theorem crlfEntry_of_hash_not_last (l : ManifestLine) (h : l.hashIsLast = false) :
    l.crlfEntry = l.entry := by
  unfold ManifestLine.crlfEntry
  simp [h]

theorem crlfEntry_same_but_hash (l : ManifestLine) :
    l.crlfEntry.map (fun c => (c.type, c.name, c.sizeInBytes))
      = l.entry.map (fun c => (c.type, c.name, c.sizeInBytes)) := by
  unfold ManifestLine.crlfEntry
  cases l.entry with
  | none => rfl
  | some c => cases l.hashIsLast <;> simp

theorem filterMap_crlfEntry_same_but_hash (ls : List ManifestLine) :
    (ls.filterMap ManifestLine.crlfEntry).map (fun c => (c.type, c.name, c.sizeInBytes))
      = (ls.filterMap ManifestLine.entry).map (fun c => (c.type, c.name, c.sizeInBytes)) := by
  induction ls with
  | nil => rfl
  | cons l ls ih =>
    have hl := crlfEntry_same_but_hash l
    cases h1 : l.crlfEntry with
    | none =>
      cases h2 : l.entry with
      | none => simpa [List.filterMap_cons, h1, h2] using ih
      | some c => rw [h1, h2] at hl; cases hl
    | some c1 =>
      cases h2 : l.entry with
      | none => rw [h1, h2] at hl; cases hl
      | some c =>
        rw [h1, h2] at hl
        simp only [Option.map_some', Option.some.injEq] at hl
        simp only [List.filterMap_cons, h1, h2, List.map_cons, hl, ih]

theorem filterMap_crlfEntry_of_hash_not_last (ls : List ManifestLine)
    (hall : ∀ l ∈ ls, l.hashIsLast = false) :
    ls.filterMap ManifestLine.crlfEntry = ls.filterMap ManifestLine.entry := by
  induction ls with
  | nil => rfl
  | cons l ls ih =>
    have hl := crlfEntry_of_hash_not_last l (hall l (by simp))
    have hrest := ih (fun x hx => hall x (by simp [hx]))
    simp only [List.filterMap_cons, hl, hrest]

/-- C11 (amended): on a manifest of well-formed lines without blank lines, each line
shorter than 511 bytes and terminated by CRLF, `parseDirIndex` returns normally, with
enough fuel, one entry per `f`/`d` line with the kind, name and size it yields with LF
line ends; the hash is the same where a size field follows it, and carries a trailing
carriage return where it is the last field of the line (`d` lines, `f` lines without
size). -/
theorem parseDirIndex_crlf (P : Platform F) (fs : F) (basePath rel : String)
    (ls : List ManifestLine) (fuel : Nat)
    (hwf : ∀ l ∈ ls, l.WellFormed ∧ l ≠ .blank) (hlen : ∀ l ∈ ls, l.text.length < 511)
    (hfuel : ls.length + 2 ≤ fuel)
    (hfile : P.readFile fs (SGPath.append (SGPath.append basePath rel) ".dirindex")
      = some (manifestTextCRLF ls)) :
    parseDirIndex P fuel basePath fs rel [] = .ok () (ls.filterMap ManifestLine.crlfEntry) ∧
    (ls.filterMap ManifestLine.crlfEntry).map (fun c => (c.type, c.name, c.sizeInBytes))
      = (ls.filterMap ManifestLine.entry).map (fun c => (c.type, c.name, c.sizeInBytes)) ∧
    ((∀ l ∈ ls, l.hashIsLast = false) →
      ls.filterMap ManifestLine.crlfEntry = ls.filterMap ManifestLine.entry) := by
  refine ⟨?_, filterMap_crlfEntry_same_but_hash ls, ?_⟩
  · have hshort : ∀ x ∈ ls.map (fun l => l.text ++ ['\r']), ShortLine x := by
      intro x hx
      obtain ⟨l, hl, rfl⟩ := List.mem_map.mp hx
      refine ⟨?_, by have := hlen l hl; simp; omega⟩
      intro hmem
      simp only [List.mem_append, List.mem_singleton] at hmem
      rcases hmem with hm | hm
      · exact manifestLine_text_no_newline l (hwf l hl).1 hm
      · revert hm; decide
    obtain ⟨k, rfl⟩ : ∃ k, fuel = (k + 2) + (ls.map (fun l => l.text ++ ['\r'])).length :=
      ⟨fuel - ls.length - 2, by simp; omega⟩
    have h := parseDirIndexLoop_unlines (ls.map (fun l => l.text ++ ['\r'])) [] hshort (k + 2) []
    simp only [List.append_nil] at h
    unfold parseDirIndex parseDirIndexText
    dsimp only
    rw [hfile]
    dsimp only
    unfold manifestTextCRLF
    rw [h, parseLines_cr ls hwf []]
    simp only [List.nil_append]
    exact parseDirIndexLoop_tail_nil k _
  · exact filterMap_crlfEntry_of_hash_not_last ls

/-- Witness of C11: the root manifest of `crlfFS`. -/
theorem parseDirIndex_crlf_witness :
    parseDirIndex memPlatform 100 "/base" crlfFS "" [] = .ok ()
      [{ type := .FileType, name := "a", hash := "#x", sizeInBytes := 12 },
       { type := .DirectoryType, name := "sub", hash := "#h\r", sizeInBytes := 0 }] :=
  (parseDirIndex_crlf memPlatform crlfFS "/base" ""
    [.version ['1'], .file ['a'] ['#', 'x'] (some ['1', '2']), .dir ['s', 'u', 'b'] ['#', 'h']]
    100 (by decide) (by decide) (by decide) (by rfl)).1

/-- Counterexample to C11 as stated: with CRLF line ends the hash of a `d` line and of an
`f` line without size is not the hash parsed with LF line ends (a carriage return is
appended), and a blank line makes the parser throw. -/
theorem parseDirIndex_crlf_counterexample :
    parseDirIndexText 10 (some (manifestTextCRLF [.dir ['s'] ['h'], .file ['a'] ['x'] none])) []
      = .ok () [{ type := .DirectoryType, name := "s", hash := "h\r", sizeInBytes := 0 },
                { type := .FileType, name := "a", hash := "x\r", sizeInBytes := 0 }] ∧
    parseDirIndexText 10 (some (manifestText [.dir ['s'] ['h'], .file ['a'] ['x'] none])) []
      = .ok () [{ type := .DirectoryType, name := "s", hash := "h", sizeInBytes := 0 },
                { type := .FileType, name := "a", hash := "x", sizeInBytes := 0 }] ∧
    parseDirIndexText 10 (some (manifestTextCRLF [.dir ['s'] ['h'], .blank])) []
      = .error (.sg_io_exception "Malformed line code in dir index file")
          [{ type := .DirectoryType, name := "s", hash := "h\r", sizeInBytes := 0 }] := by
  refine ⟨by rfl, by rfl, by rfl⟩

/-! ## The `.hashes` round trip -/

theorem digitsValue_append_single (l : List Char) (c : Char) :
    digitsValue (l ++ [c]) = digitsValue l * 10 + (c.toNat - 48) := by
  simp [digitsValue, List.foldl_append]

theorem digitChar_decimal (k : Nat) (hk : k < 10) :
    (Nat.digitChar k).isDigit = true ∧ (Nat.digitChar k).toNat - 48 = k := by
  interval_cases k <;> exact ⟨by decide, by decide⟩

theorem toDigitsCore_decimal (fuel : Nat) :
    ∀ (n : Nat) (ds : List Char), n < fuel →
      ∃ l, Nat.toDigitsCore 10 fuel n ds = l ++ ds ∧ l ≠ [] ∧
        (∀ c ∈ l, c.isDigit = true) ∧ digitsValue l = n := by
  induction fuel with
  | zero => intro n ds h; omega
  | succ fuel ih =>
    intro n ds hn
    have hd := digitChar_decimal (n % 10) (Nat.mod_lt _ (by decide))
    unfold Nat.toDigitsCore
    dsimp only
    by_cases hz : n / 10 = 0
    · rw [if_pos hz]
      refine ⟨[Nat.digitChar (n % 10)], by simp, by simp, ?_, ?_⟩
      · intro c hc
        simp only [List.mem_singleton] at hc
        subst hc
        exact hd.1
      · have hlt : n < 10 := by omega
        have h2 := hd.2
        have hm : n % 10 = n := Nat.mod_eq_of_lt hlt
        show digitsValue [Nat.digitChar (n % 10)] = n
        simp only [digitsValue, List.foldl_cons, List.foldl_nil, Nat.zero_mul, Nat.zero_add]
        omega
    · rw [if_neg hz]
      have hlt : n / 10 < fuel := by omega
      obtain ⟨l, hl, hne, hdig, hval⟩ := ih (n / 10) (Nat.digitChar (n % 10) :: ds) hlt
      refine ⟨l ++ [Nat.digitChar (n % 10)], by simp [hl], by simp, ?_, ?_⟩
      · intro c hc
        simp only [List.mem_append, List.mem_singleton] at hc
        rcases hc with hc | hc
        · exact hdig c hc
        · subst hc; exact hd.1
      · rw [digitsValue_append_single, hval, hd.2]
        omega

/-- The decimal a stream prints for an unsigned number is a run of digits with that value. -/
theorem toDigits_decimal (n : Nat) :
    IsDecimal (Nat.toDigits 10 n) ∧ digitsValue (Nat.toDigits 10 n) = n := by
  obtain ⟨l, hl, hne, hdig, hval⟩ := toDigitsCore_decimal (n + 1) n [] (Nat.lt_succ_self n)
  unfold Nat.toDigits
  rw [hl, List.append_nil]
  exact ⟨⟨hne, hdig⟩, hval⟩

theorem isField_of_isDecimal {t : List Char} (h : IsDecimal t) : IsField t :=
  ⟨h.1, fun c hc => ⟨isDecimal_no_colon h c hc, isDecimal_no_newline h c hc,
    isDecimal_no_nul h c hc⟩⟩

theorem isField_minus {t : List Char} (h : IsField t) : IsField ('-' :: t) := by
  refine ⟨by simp, fun c hc => ?_⟩
  simp only [List.mem_cons] at hc
  rcases hc with hc | hc
  · subst hc; decide
  · exact h.2 c hc

/-- `strtol` on a minus sign followed by a run of digits. -/
theorem strtol_minus_decimal (ds : List Char) (h : IsDecimal ds) :
    strtol ('-' :: ds) = -((min (digitsValue ds) (LONG_MAX + 1) : Nat) : Int) := by
  unfold strtol
  have hsp : isspace '-' = false := by decide
  simp only [dropWhile_head '-' ds hsp, List.head?_cons, beq_self_eq_true, Bool.true_or,
    if_true, List.drop_one, List.tail_cons]
  rw [takeWhile_all (p := Char.isDigit) ds h.2]
  by_cases hv : digitsValue ds > LONG_MAX + 1
  · rw [if_pos hv, min_eq_right (Nat.le_of_lt hv)]
    push_cast
    rfl
  · rw [if_neg hv, min_eq_left (Nat.le_of_not_lt hv)]

/-- The printed form of a `size_t` reads back through `strtol` when it is at most
`LONG_MAX`. -/
theorem strtol_toString_nat (n : Nat) (h : n ≤ LONG_MAX) :
    strtol (toString n).toList = (n : Int) := by
  have hd := toDigits_decimal n
  show strtol (Nat.toDigits 10 n) = (n : Int)
  rw [strtol_decimal _ hd.1, hd.2, min_eq_left h]

theorem isField_toString_nat (n : Nat) : IsField (toString n).toList :=
  isField_of_isDecimal (toDigits_decimal n).1

/-- The printed form of a `long` reads back through `strtol`. -/
theorem strtol_toString_int (z : Int) (hlo : -((LONG_MAX : Int) + 1) ≤ z)
    (hhi : z ≤ (LONG_MAX : Int)) : strtol (toString z).toList = z := by
  cases z with
  | ofNat m =>
    have hm : m ≤ LONG_MAX := Int.ofNat_le.mp hhi
    exact strtol_toString_nat m hm
  | negSucc m =>
    have hd := toDigits_decimal (m + 1)
    show strtol ('-' :: Nat.toDigits 10 (m + 1)) = Int.negSucc m
    have hm : m + 1 ≤ LONG_MAX + 1 := by
      have h1 : -((LONG_MAX : Int) + 1) ≤ -((m : Int) + 1) := by
        rw [Int.negSucc_eq] at hlo
        exact hlo
      omega
    rw [strtol_minus_decimal _ hd.1, hd.2, min_eq_left hm, Int.negSucc_eq]
    push_cast
    rfl

theorem isField_toString_int (z : Int) : IsField (toString z).toList := by
  cases z with
  | ofNat m => exact isField_toString_nat m
  | negSucc m =>
    show IsField ('-' :: Nat.toDigits 10 (m + 1))
    exact isField_minus (isField_of_isDecimal (toDigits_decimal (m + 1)).1)

theorem getline_line_of_le (l rest : List Char) (n : Nat) (hnl : '\n' ∉ l)
    (hlen : l.length + 1 ≤ n) :
    IStream.getline { rest := l ++ '\n' :: rest, eofbit := false, failbit := false } n
      = (l, { rest := rest, eofbit := false, failbit := false }) := by
  have hroom : l.length ≤ n - 1 := by omega
  simp [IStream.getline, readLine_line l rest (n - 1) hnl hroom]

/-- The per-line body of `parseHashCache` on four fields joined by colons. -/
theorem parseHashCacheLine_fields (p mt sz h : List Char) (hp : IsField p) (hmt : IsField mt)
    (hsz : IsField sz) (hh : IsField h) (hashes : List HashCacheEntry) :
    parseHashCacheLine (p ++ ':' :: (mt ++ ':' :: (sz ++ ':' :: h))) hashes
      = hashes ++ [{ filePath := String.mk p, hashHex := String.mk h,
                     modTime := strtol mt, lengthBytes := toSizeT (strtol sz) }] := by
  have hnul : ∀ c ∈ p ++ ':' :: (mt ++ ':' :: (sz ++ ':' :: h)), c ≠ '\x00' := by
    intro c hc
    simp only [List.mem_append, List.mem_cons] at hc
    rcases hc with hc | hc | hc | hc | hc | hc | hc
    · exact isField_no_nul hp c hc
    · subst hc; decide
    · exact isField_no_nul hmt c hc
    · subst hc; decide
    · exact isField_no_nul hsz c hc
    · subst hc; decide
    · exact isField_no_nul hh c hc
  unfold parseHashCacheLine
  rw [cString_of_no_nul _ hnul, strtok_r_token p _ hp.1 (isField_no_colon hp)]
  dsimp only
  rw [strtokNext_token mt _ hmt.1 (isField_no_colon hmt)]
  dsimp only
  rw [strtokNext_token sz _ hsz.1 (isField_no_colon hsz)]
  dsimp only
  rw [strtokNext_last h hh.1 (isField_no_colon hh)]

theorem hashCacheLine_eq (e : HashCacheEntry) :
    hashCacheLine e
      = (e.filePath.toList ++ ':' :: ((toString e.modTime).toList ++ ':' ::
          ((toString e.lengthBytes).toList ++ ':' :: e.hashHex.toList))) ++ '\n' :: [] := by
  simp [hashCacheLine]

/-- The line `writeHashCache` prints for a storable entry parses back to that entry. -/
theorem parseHashCacheLine_storable (e : HashCacheEntry) (h : e.Storable)
    (hashes : List HashCacheEntry) :
    parseHashCacheLine (e.filePath.toList ++ ':' :: ((toString e.modTime).toList ++ ':' ::
        ((toString e.lengthBytes).toList ++ ':' :: e.hashHex.toList))) hashes
      = hashes ++ [e] := by
  obtain ⟨hp, hh, hlo, hhi, hsz, _⟩ := h
  rw [parseHashCacheLine_fields _ _ _ _ hp (isField_toString_int _) (isField_toString_nat _) hh,
    strtol_toString_int _ hlo hhi, strtol_toString_nat _ hsz, toSizeT_of_le _ hsz]
  rfl

theorem parseHashCacheLoop_nil (fuel : Nat) (hashes : List HashCacheEntry) :
    parseHashCacheLoop (fuel + 2) { rest := [], eofbit := false, failbit := false } hashes
      = some hashes := by
  simp [parseHashCacheLoop, IStream.getline, readLine, parseHashCacheLine, cString, strtok_r,
    strtokNext]

/-- The loop of `parseHashCache` on the text `writeHashCache` prints for storable entries
appends these entries in their order. -/
theorem parseHashCacheLoop_hashCacheText (C : List HashCacheEntry)
    (hC : ∀ e ∈ C, e.Storable) (fuel : Nat) (hashes : List HashCacheEntry) :
    parseHashCacheLoop (fuel + 2 + C.length)
        { rest := hashCacheText C, eofbit := false, failbit := false } hashes
      = some (hashes ++ C) := by
  induction C generalizing hashes with
  | nil => simpa [hashCacheText] using parseHashCacheLoop_nil fuel hashes
  | cons e C ih =>
    have he : e.Storable := hC e (by simp)
    have hrest : ∀ x ∈ C, x.Storable := fun x hx => hC x (by simp [hx])
    have hlen := he.2.2.2.2.2
    rw [hashCacheLine_eq] at hlen
    have htext : hashCacheText (e :: C)
        = (e.filePath.toList ++ ':' :: ((toString e.modTime).toList ++ ':' ::
            ((toString e.lengthBytes).toList ++ ':' :: e.hashHex.toList)))
          ++ '\n' :: hashCacheText C := by
      simp [hashCacheText, hashCacheLine_eq]
    have hnl : '\n' ∉ (e.filePath.toList ++ ':' :: ((toString e.modTime).toList ++ ':' ::
        ((toString e.lengthBytes).toList ++ ':' :: e.hashHex.toList))) := by
      intro hc
      simp only [List.mem_append, List.mem_cons] at hc
      rcases hc with hc | hc | hc | hc | hc | hc | hc
      · exact isField_no_newline he.1 _ hc rfl
      · exact absurd hc (by decide)
      · exact isField_no_newline (isField_toString_int _) _ hc rfl
      · exact absurd hc (by decide)
      · exact isField_no_newline (isField_toString_nat _) _ hc rfl
      · exact absurd hc (by decide)
      · exact isField_no_newline he.2.1 _ hc rfl
    have hroom : (e.filePath.toList ++ ':' :: ((toString e.modTime).toList ++ ':' ::
        ((toString e.lengthBytes).toList ++ ':' :: e.hashHex.toList))).length + 1 ≤ 2048 := by
      simp only [List.length_append, List.length_cons, List.length_nil] at hlen ⊢
      omega
    rw [htext, List.length_cons, ← Nat.add_assoc, parseHashCacheLoop]
    simp only [Bool.false_eq_true, if_false]
    rw [getline_line_of_le _ _ 2048 hnl hroom]
    dsimp only
    rw [parseHashCacheLine_storable e he, ih hrest, List.append_assoc]
    rfl

theorem writeHashCache_basePath (P : Platform F) (s : HTTPRepoPrivate F) :
    (writeHashCache P s).basePath = s.basePath := by
  unfold writeHashCache
  split <;> rfl

/-- C12 (amended): let the entries of the hash cache `C` of `s` be storable (path and hash
not empty and free of colon, newline and NUL, time within `long`, size at most `LONG_MAX`,
printed line within the 2048-byte buffer). On every engine `t` with the same base path that
runs on the file system `writeHashCache` left, whatever cache `t` holds in memory,
`parseHashCache` returns normally once the fuel covers the lines, when the file read back
holds the text written, and the cache of `t` then is `C`, entry for entry in the same
order; nothing else of `t` changes. -/
theorem parseHashCache_writeHashCache (P : Platform F) (s t : HTTPRepoPrivate F) (fuel : Nat)
    (hC : ∀ e ∈ s.hashes, e.Storable) (hbase : t.basePath = s.basePath)
    (hfs : t.fs = (writeHashCache P s).fs)
    (hexists : P.pathExists (writeHashCache P s).fs (SGPath.append s.basePath ".hashes") = true)
    (hread : P.readFile (writeHashCache P s).fs (SGPath.append s.basePath ".hashes")
      = some (hashCacheText s.hashes))
    (hfuel : s.hashes.length + 2 ≤ fuel) :
    parseHashCache P fuel t = .ok () { t with hashes := s.hashes } := by
  obtain ⟨k, rfl⟩ : ∃ k, fuel = k + 2 + s.hashes.length := ⟨fuel - (s.hashes.length + 2), by omega⟩
  rw [← hfs, ← hbase] at hexists hread
  unfold parseHashCache
  simp only [hexists, hread, Bool.not_true, Bool.false_eq_true, if_false]
  rw [parseHashCacheLoop_hashCacheText _ hC k [], List.nil_append]

/-- Witness of C12: the cache of `cachedEngine` is written, and an engine started afresh
on the resulting file system, with an empty cache in memory, loads it. -/
theorem parseHashCache_writeHashCache_witness :
    demoEngine.hashes = [] ∧
    parseHashCache memPlatform 10
        { demoEngine with fs := (writeHashCache memPlatform cachedEngine).fs }
      = .ok () { demoEngine with fs := (writeHashCache memPlatform cachedEngine).fs,
                                 hashes := cachedEngine.hashes } :=
  ⟨rfl, parseHashCache_writeHashCache memPlatform cachedEngine
    { demoEngine with fs := (writeHashCache memPlatform cachedEngine).fs } 10
    (by decide) rfl rfl (by rfl) (by rfl) (by decide)⟩

/-- Counterexample to C12 as stated: the cache with the one entry for the path `C:/x`
is written as the line `C:/x:1:2:#h`, which `parseHashCache` reads as an entry for the
path `C` with time 0, size 1 and hash `2`; the loaded cache is not the written one in
any order. -/
theorem parseHashCache_colon_counterexample :
    colonEngine.hashes
        = [{ filePath := "C:/x", modTime := 1, lengthBytes := 2, hashHex := "#h" }] ∧
      memPlatform.readFile (writeHashCache memPlatform colonEngine).fs "/base/.hashes"
        = some "C:/x:1:2:#h\n".toList ∧
      parseHashCache memPlatform 10 (writeHashCache memPlatform colonEngine)
        = .ok () { writeHashCache memPlatform colonEngine with
            hashes := [{ filePath := "C", modTime := 0, lengthBytes := 1, hashHex := "2" }] } ∧
      ¬ List.Perm [({ filePath := "C", modTime := 0, lengthBytes := 1, hashHex := "2" } :
          HashCacheEntry)] colonEngine.hashes := by
  refine ⟨by rfl, by rfl, by rfl, by decide⟩

/-! ## One cache entry per path -/

theorem cacheOk_eraseP (p : String) (hashes : List HashCacheEntry) (hok : CacheOk hashes) :
    CacheOk (hashes.eraseP (HashEntryWithPath p)) := by
  unfold CacheOk at hok ⊢
  exact hok.sublist ((List.eraseP_sublist hashes).map _)

theorem eraseP_absent_of_cacheOk (p : String) (hashes : List HashCacheEntry)
    (hok : CacheOk hashes) : ∀ e ∈ hashes.eraseP (HashEntryWithPath p), e.filePath ≠ p := by
  intro e he
  rw [eraseP_eq_entriesOtherThan p hashes hok] at he
  unfold entriesOtherThan at he
  simpa using (List.mem_filter.mp he).2

theorem cacheOk_append_absent (hashes : List HashCacheEntry) (e : HashCacheEntry)
    (hok : CacheOk hashes) (habs : ∀ x ∈ hashes, x.filePath ≠ e.filePath) :
    CacheOk (hashes ++ [e]) := by
  unfold CacheOk at hok ⊢
  rw [List.map_append, List.nodup_append]
  refine ⟨hok, by simp, ?_⟩
  intro a ha hb
  simp only [List.map_cons, List.map_nil, List.mem_singleton] at hb
  obtain ⟨x, hx, hxa⟩ := List.mem_map.mp ha
  exact habs x hx (by rw [hxa, hb])

theorem cacheOk_updatedFileContents (P : Platform F) (s : HTTPRepoPrivate F) (p h : String)
    (hok : CacheOk s.hashes) : CacheOk (updatedFileContents P s p h).hashes := by
  unfold updatedFileContents
  dsimp only
  by_cases hh : h = ""
  · rw [if_pos hh]
    exact cacheOk_eraseP p s.hashes hok
  · rw [if_neg hh, writeHashCache_hashes]
    exact cacheOk_append_absent _ _ (cacheOk_eraseP p s.hashes hok)
      (eraseP_absent_of_cacheOk p s.hashes hok)

theorem computeHashForPath_state (P : Platform F) (s : HTTPRepoPrivate F) (p : String) :
    (computeHashForPath P s p).state = s := by
  unfold computeHashForPath
  split
  · rfl
  · split <;> rfl

theorem cacheOk_hashForPath (P : Platform F) (s : HTTPRepoPrivate F) (p : String)
    (hok : CacheOk s.hashes) : CacheOk (hashForPath P s p).state.hashes := by
  have hstep : ∀ t : HTTPRepoPrivate F, CacheOk t.hashes →
      CacheOk ((computeHashForPath P t p).bind
        fun hash s2 => .ok hash (updatedFileContents P s2 p hash)).state.hashes := by
    intro t ht
    have hst := computeHashForPath_state P t p
    cases hc : computeHashForPath P t p with
    | ok hash s2 =>
      rw [hc] at hst
      simp only [Res.state] at hst
      subst hst
      simp only [Res.bind, Res.state]
      exact cacheOk_updatedFileContents P s2 p hash ht
    | error e s2 =>
      rw [hc] at hst
      simp only [Res.state] at hst
      subst hst
      simp only [Res.bind, Res.state]
      exact ht
  unfold hashForPath
  split
  · split
    · exact hok
    · exact hstep _ (cacheOk_eraseP p s.hashes hok)
  · exact hstep s hok

/-- C23: when the hash cache has at most one entry for each path, it still has at most one
entry for each path after `updatedFileContents(p, h)` and after `hashForPath(p)`, for every
path, hash and state of the file system, also when `hashForPath` ends with the exception
of a file that cannot be opened. -/
theorem cache_one_entry_per_path (P : Platform F) (s : HTTPRepoPrivate F) (p h : String)
    (hok : CacheOk s.hashes) :
    CacheOk (updatedFileContents P s p h).hashes ∧ CacheOk (hashForPath P s p).state.hashes :=
  ⟨cacheOk_updatedFileContents P s p h hok, cacheOk_hashForPath P s p hok⟩

theorem cache_one_entry_per_path_witness :
    CacheOk cachedEngine.hashes ∧
      CacheOk (updatedFileContents memPlatform cachedEngine "/base/a" "#y").hashes ∧
      CacheOk (hashForPath memPlatform cachedEngine "/base/a").state.hashes :=
  ⟨by decide, cache_one_entry_per_path memPlatform cachedEngine "/base/a" "#y" (by decide)⟩

/-! ## Lines that do not fit the line buffer -/

theorem readLine_full (l : List Char) (c : Char) (r : List Char) (hnl : '\n' ∉ l)
    (hc : c ≠ '\n') : readLine l.length (l ++ c :: r) = (l, c :: r, .full) := by
  induction l with
  | nil => simp [readLine, hc]
  | cons x l ih =>
    have hx : x ≠ '\n' := fun h => hnl (by simp [h])
    have hl : '\n' ∉ l := fun h => hnl (by simp [h])
    simp [readLine, hx, ih hl]

/-- `getline(buf, n)` on a line of `n` or more characters stores `n - 1` of them and sets
`failbit`; the rest of the line stays in the stream. -/
theorem getline_full (l : List Char) (c : Char) (r : List Char) (n : Nat) (hnl : '\n' ∉ l)
    (hc : c ≠ '\n') (hlen : l.length + 1 = n) :
    IStream.getline { rest := l ++ c :: r, eofbit := false, failbit := false } n
      = (l, { rest := c :: r, eofbit := false, failbit := true }) := by
  have hroom : n - 1 = l.length := by omega
  simp [IStream.getline, hroom, readLine_full l c r hnl hc]

/-- Once `failbit` is set without `eofbit`, the loop of `parseDirIndex` does not end: every
further `getline` extracts nothing, the empty buffer is skipped and `eof()` stays false. -/
theorem parseDirIndexLoop_failbit (fuel : Nat) (rest : List Char) (children : List ChildInfo) :
    parseDirIndexLoop fuel { rest := rest, eofbit := false, failbit := true } children
      = .error .outOfFuel children := by
  induction fuel with
  | zero => rfl
  | succ fuel ih =>
    rw [parseDirIndexLoop]
    simp only [Bool.false_eq_true, if_false, IStream.getline, Bool.or_true, if_true,
      parseDirIndexLine_nil]
    exact ih

/-- The loop of `parseDirIndex` on accepted short lines followed by a line of 512 or more
characters, whose first 511 characters are accepted, is out of fuel whatever the fuel. -/
theorem parseDirIndexLoop_long_line (ls : List (List Char)) (l : List Char) (c : Char)
    (r : List Char) (hls : ∀ x ∈ ls, ShortLine x ∧ AcceptedLine x) (hnl : '\n' ∉ l)
    (hlen : l.length = 511) (hc : c ≠ '\n') (hacc : AcceptedLine l) (fuel : Nat)
    (children : List ChildInfo) :
    ∃ cs, parseDirIndexLoop fuel
        { rest := unlines ls ++ (l ++ c :: r), eofbit := false, failbit := false } children
      = .error .outOfFuel cs := by
  induction ls generalizing fuel children with
  | nil =>
    cases fuel with
    | zero => exact ⟨children, rfl⟩
    | succ fuel =>
      obtain ⟨cs, hcs⟩ := parseDirIndexLine_accepted l hacc children
      refine ⟨cs, ?_⟩
      rw [parseDirIndexLoop]
      simp only [unlines, List.map_nil, List.flatten_nil, List.nil_append, Bool.false_eq_true,
        if_false]
      rw [getline_full l c r 512 hnl hc (by omega)]
      dsimp only
      rw [hcs]
      exact parseDirIndexLoop_failbit fuel (c :: r) cs
  | cons x ls ih =>
    cases fuel with
    | zero => exact ⟨children, rfl⟩
    | succ fuel =>
      have hx := hls x (by simp)
      obtain ⟨cs, hcs⟩ := parseDirIndexLine_accepted x hx.2 children
      obtain ⟨cs1, hcs1⟩ := ih (fun y hy => hls y (by simp [hy])) fuel cs
      refine ⟨cs1, ?_⟩
      have htext : unlines (x :: ls) ++ (l ++ c :: r)
          = x ++ '\n' :: (unlines ls ++ (l ++ c :: r)) := by
        simp [unlines]
      rw [htext, parseDirIndexLoop_line fuel x _ children hx.1, hcs]
      exact hcs1

theorem acceptedLine_file_name (name : List Char) (hne : name ≠ [])
    (h : ∀ c ∈ name, c ≠ ':' ∧ c ≠ '\x00') : AcceptedLine ('f' :: ':' :: name) := by
  have hnul : ∀ c ∈ 'f' :: ':' :: name, c ≠ '\x00' := by
    intro c hc
    simp only [List.mem_cons] at hc
    rcases hc with hc | hc | hc
    · subst hc; decide
    · subst hc; decide
    · exact (h c hc).2
  have htok : strtok_r ('f' :: ':' :: name) = some (['f'], name) :=
    strtok_r_token ['f'] name (by simp) (by decide)
  have hname : strtokNext name = (some name, []) :=
    strtokNext_last name hne (fun c hc => (h c hc).1)
  unfold AcceptedLine leadingToken nameToken
  rw [cString_of_no_nul _ hnul, htok]
  simp [hname]

/-- A line `f:` followed by `n + 1` letters, split after its first `n + 2` characters. -/
theorem fileLine_split (n : Nat) :
    'f' :: ':' :: (List.replicate (n + 1) 'a' ++ ['\n'])
      = unlines [] ++ (('f' :: ':' :: List.replicate n 'a') ++ 'a' :: ['\n']) := by
  simp [unlines, List.replicate_succ']

theorem fileLine_length (n : Nat) :
    ('f' :: ':' :: (List.replicate (n + 1) 'a' ++ ['\n'])).length = n + 4 ∧
      ('f' :: ':' :: List.replicate n 'a').length = n + 2 := by
  simp

theorem fileLine_accepted (n : Nat) :
    '\n' ∉ 'f' :: ':' :: List.replicate (n + 1) 'a' ∧
      AcceptedLine ('f' :: ':' :: List.replicate (n + 1) 'a') := by
  constructor
  · intro hc
    simp only [List.mem_cons] at hc
    rcases hc with hc | hc | hc
    · exact absurd hc (by decide)
    · exact absurd hc (by decide)
    · exact absurd (List.eq_of_mem_replicate hc) (by decide)
  · refine acceptedLine_file_name _ (by simp [List.replicate_succ]) (fun c hc => ?_)
    rw [List.eq_of_mem_replicate hc]
    decide

/-- C22 at a failing input: the manifest of `longLineFS` is one line of 512 characters,
`f:` followed by 510 letters. The first `getline` stores 511 characters and sets `failbit`
without `eofbit`; the entry with the truncated name is pushed, and from then on no
iteration extracts anything: for every amount of fuel the loop of `parseDirIndex` has not
stopped, and so has the constructor of the directory node. -/
theorem parseDirIndex_long_line_never_stops :
    longLineText.length = 513 ∧
    (∀ fuel, ∃ cs, parseDirIndex memPlatform fuel "/base" longLineFS "" []
      = .error .outOfFuel cs) ∧
    (∀ fuel, HTTPDirectory.new memPlatform fuel "/base" longLineFS 0 "" = .error .outOfFuel) := by
  have htext : longLineText
      = unlines [] ++ (('f' :: ':' :: List.replicate 509 'a') ++ 'a' :: ['\n']) :=
    fileLine_split 509
  have hfile : memPlatform.readFile longLineFS
      (SGPath.append (SGPath.append "/base" "") ".dirindex") = some longLineText := by rfl
  have hloop : ∀ fuel, ∃ cs, parseDirIndex memPlatform fuel "/base" longLineFS "" []
      = .error .outOfFuel cs := by
    intro fuel
    unfold parseDirIndex parseDirIndexText
    dsimp only
    rw [hfile]
    dsimp only
    rw [htext]
    exact parseDirIndexLoop_long_line [] ('f' :: ':' :: List.replicate 509 'a') 'a'
      ['\n'] (fun x hx => absurd hx (List.not_mem_nil x)) (fileLine_accepted 508).1
      (fileLine_length 509).2 (by decide) (fileLine_accepted 508).2 fuel []
  refine ⟨(fileLine_length 509).1, hloop, ?_⟩
  intro fuel
  obtain ⟨cs, hcs⟩ := hloop fuel
  have hex : memPlatform.pathExists longLineFS (SGPath.append "/base" "") = true := by rfl
  unfold HTTPDirectory.new
  rw [if_pos hex, hcs]
  rfl

/-! ## Lines without a name field -/

/-- The loop body of `parseDirIndex` on a line whose leading token begins with `f` or `d`
and is followed by no further token: the NULL `nameData` is handed to the constructor of
`ChildInfo`, which builds a `std::string` from it. -/
theorem parseDirIndexLine_nameless (l tok : List Char) (htok : leadingToken l = some tok)
    (hv : tok ≠ "version".toList) (hp : tok ≠ "path".toList)
    (hkind : tok.head? = some 'f' ∨ tok.head? = some 'd') (hname : nameToken l = none)
    (children : List ChildInfo) :
    parseDirIndexLine l children
      = .error (.undefinedBehaviour "std::string from NULL name") children := by
  unfold leadingToken at htok
  unfold nameToken at hname
  unfold parseDirIndexLine
  cases hs : strtok_r (cString l) with
  | none => rw [hs] at htok; cases htok
  | some t =>
    obtain ⟨typeData, last0⟩ := t
    rw [hs] at htok hname
    simp only [Option.map_some', Option.some.injEq] at htok
    subst htok
    dsimp only at hname ⊢
    rw [if_neg hv, if_neg hp, hname]
    rcases hkind with hk | hk
    · simp [hk, ChildInfo.new]
    · by_cases hf : typeData.head? = some 'f'
      · simp [hf, ChildInfo.new]
      · simp [hf, hk, ChildInfo.new]

/-- A manifest with a nameless `f`/`d` line after accepted short lines: with enough fuel
`parseDirIndex` reaches that line and builds a name from the NULL pointer. -/
theorem parseDirIndexText_nameless (pre : List (List Char)) (bad rest tok : List Char)
    (fuel : Nat) (hpre : ∀ l ∈ pre, ShortLine l ∧ AcceptedLine l) (hbad : ShortLine bad)
    (htok : leadingToken bad = some tok)
    (hv : tok ≠ "version".toList) (hp : tok ≠ "path".toList)
    (hkind : tok.head? = some 'f' ∨ tok.head? = some 'd') (hname : nameToken bad = none)
    (hrest : rest = [] ∨ ∃ r, rest = '\n' :: r) (hfuel : pre.length + 2 ≤ fuel) :
    ∃ entries, parseLines pre [] = .ok () entries ∧
      parseDirIndexText fuel (some (unlines pre ++ bad ++ rest)) []
        = .error (.undefinedBehaviour "std::string from NULL name") entries := by
  obtain ⟨entries, hentries⟩ := parseLines_accepted pre (fun l hl => (hpre l hl).2) []
  refine ⟨entries, hentries, ?_⟩
  have hshort : ∀ l ∈ pre, ShortLine l := fun l hl => (hpre l hl).1
  obtain ⟨k, rfl⟩ : ∃ k, fuel = (k + 2) + pre.length := ⟨fuel - pre.length - 2, by omega⟩
  unfold parseDirIndexText
  dsimp only
  rcases hrest with rfl | ⟨r, rfl⟩
  · rw [List.append_nil, parseDirIndexLoop_unlines pre bad hshort (k + 2) [], hentries]
    dsimp only
    rw [parseDirIndexLoop_last k bad entries hbad,
      parseDirIndexLine_nameless bad tok htok hv hp hkind hname]
  · have hline := parseDirIndexLoop_line (k + 1) bad r entries hbad
    rw [List.append_assoc, parseDirIndexLoop_unlines pre (bad ++ '\n' :: r) hshort (k + 2) [],
      hentries]
    dsimp only
    rw [hline, parseDirIndexLine_nameless bad tok htok hv hp hkind hname]

theorem dropWhile_head_false {p : Char → Bool} (l : List Char) (c : Char) (t : List Char)
    (h : l.dropWhile p = c :: t) : p c = false := by
  induction l with
  | nil => cases h
  | cons x l ih =>
    by_cases hx : p x = true
    · rw [List.dropWhile_cons_of_pos hx] at h
      exact ih h
    · have hx1 : p x = false := by simpa using hx
      rw [dropWhile_head x l hx1] at h
      injection h with h1 h2
      rw [← h1]
      exact hx1

/-- A token `strtok_r` returns is not empty. -/
theorem strtok_r_token_ne_nil (s tok rest : List Char) (h : strtok_r s = some (tok, rest)) :
    tok ≠ [] := by
  unfold strtok_r at h
  dsimp only at h
  cases hs : s.dropWhile (fun c => c == ':') with
  | nil => rw [hs] at h; simp at h
  | cons c t =>
    have hc : (c == ':') = false := dropWhile_head_false (p := fun c => c == ':') s c t hs
    rw [hs] at h
    simp only [List.isEmpty_cons, Bool.false_eq_true, if_false, Option.some.injEq,
      Prod.mk.injEq] at h
    have hc1 : (c != ':') = true := by simpa using hc
    rw [← h.1]
    simp [List.takeWhile_cons, hc1]

theorem strtokNext_token_ne_nil (save tok : List Char) (h : (strtokNext save).1 = some tok) :
    tok ≠ [] := by
  unfold strtokNext at h
  cases hs : strtok_r save with
  | none => rw [hs] at h; cases h
  | some t =>
    obtain ⟨tok1, rest⟩ := t
    rw [hs] at h
    simp only [Option.some.injEq] at h
    subst h
    exact strtok_r_token_ne_nil save tok1 rest hs

theorem string_mk_ne_empty (n : List Char) (h : n ≠ []) : String.mk n ≠ "" := by
  intro he
  exact h (congrArg String.data he)

theorem childInfo_new_name (ty : ChildType) (nameData hashData : Option (List Char))
    (c : ChildInfo) (h : ChildInfo.new ty nameData hashData = some c) :
    ∃ n, nameData = some n ∧ c.name = String.mk n := by
  cases nameData with
  | none => cases h
  | some n =>
    simp only [ChildInfo.new, Option.some.injEq] at h
    exact ⟨n, rfl, by rw [← h]⟩

/-- When the loop body of `parseDirIndex` returns, it has left the list as it was or
appended one entry, built from a name token that is present and not empty. -/
theorem parseDirIndexLine_ok_name (l : List Char) (children cs : List ChildInfo)
    (h : parseDirIndexLine l children = .ok () cs) :
    cs = children ∨ ∃ c, c.name ≠ "" ∧ cs = children ++ [c] := by
  unfold parseDirIndexLine at h
  cases hs : strtok_r (cString l) with
  | none =>
    rw [hs] at h
    injection h with _ h
    exact Or.inl h.symm
  | some t =>
    obtain ⟨typeData, last0⟩ := t
    rw [hs] at h
    dsimp only at h
    by_cases hv : typeData = "version".toList
    · rw [if_pos hv] at h
      injection h with _ h
      exact Or.inl h.symm
    · rw [if_neg hv] at h
      by_cases hp : typeData = "path".toList
      · rw [if_pos hp] at h
        injection h with _ h
        exact Or.inl h.symm
      · rw [if_neg hp] at h
        have hpush : ∀ (ty : ChildType),
            ((match ((match ChildInfo.new ty (strtokNext last0).1
                (strtokNext (strtokNext last0).2).1 with
              | some c => Res.ok () (children ++ [c])
              | none => Res.error (.undefinedBehaviour "std::string from NULL name") children) :
                Res (List ChildInfo) Unit) with
            | Res.error e cs => Res.error e cs
            | Res.ok _ cs =>
              match (strtokNext (strtokNext (strtokNext last0).2).2).1 with
              | some sizeData => Res.ok () (setSizeOfBack cs sizeData)
              | none => Res.ok () cs) : Res (List ChildInfo) Unit) = Res.ok () cs →
            ∃ c, c.name ≠ "" ∧ cs = children ++ [c] := by
          intro ty hres
          cases hnew : ChildInfo.new ty (strtokNext last0).1
              (strtokNext (strtokNext last0).2).1 with
          | none => rw [hnew] at hres; cases hres
          | some c =>
            obtain ⟨n, hn, hcn⟩ := childInfo_new_name ty _ _ c hnew
            have hne : c.name ≠ "" := by
              rw [hcn]
              exact string_mk_ne_empty n (strtokNext_token_ne_nil last0 n hn)
            rw [hnew] at hres
            dsimp only at hres
            cases hsz : (strtokNext (strtokNext (strtokNext last0).2).2).1 with
            | none =>
              rw [hsz] at hres
              injection hres with _ hres
              exact ⟨c, hne, hres.symm⟩
            | some sizeData =>
              rw [hsz] at hres
              injection hres with _ hres
              rw [setSizeOfBack_append] at hres
              exact ⟨c.setSize sizeData, hne, hres.symm⟩
        by_cases hf : typeData.head? = some 'f'
        · rw [if_pos hf] at h
          exact Or.inr (hpush _ h)
        · rw [if_neg hf] at h
          by_cases hd : typeData.head? = some 'd'
          · rw [if_pos hd] at h
            exact Or.inr (hpush _ h)
          · rw [if_neg hd] at h
            cases h

/-- When `parseDirIndex` returns, every entry it has appended was built from a name token
that is present and not empty. -/
theorem parseDirIndexLoop_ok_names (fuel : Nat) :
    ∀ (st : IStream) (children cs : List ChildInfo),
      parseDirIndexLoop fuel st children = .ok () cs →
      ∃ added, cs = children ++ added ∧ ∀ c ∈ added, c.name ≠ "" := by
  induction fuel with
  | zero => intro st children cs h; cases h
  | succ fuel ih =>
    intro st children cs h
    rw [parseDirIndexLoop] at h
    by_cases he : st.eofbit = true
    · rw [if_pos he] at h
      injection h with _ h
      exact ⟨[], by simp [h], by simp⟩
    · rw [if_neg he] at h
      dsimp only at h
      cases hline : parseDirIndexLine (st.getline 512).1 children with
      | error e cs1 => rw [hline] at h; cases h
      | ok a cs1 =>
        rw [hline] at h
        dsimp only at h
        obtain ⟨added, hadded, hnames⟩ := ih _ _ _ h
        rcases parseDirIndexLine_ok_name _ _ _ hline with h1 | ⟨c, hc, h1⟩
        · exact ⟨added, by rw [hadded, h1], hnames⟩
        · refine ⟨c :: added, by rw [hadded, h1]; simp, ?_⟩
          intro x hx
          rcases List.mem_cons.mp hx with rfl | hx
          · exact hc
          · exact hnames x hx

/-- C21 at failing inputs: the one-line manifests `f` and `d:` and the manifest of
`namelessFS`, whose second line is `d:`. The line has a type token and no name token, so
`nameData` is NULL and `ChildInfo(type, nameData, hashData)` builds `name` from the NULL
pointer; the parser neither throws nor skips the line, and the constructor of the
directory node does not catch this end of the parser. -/
theorem parseDirIndex_nameless_line_undefined :
    nameToken "f".toList = none ∧ nameToken "d:".toList = none ∧
    parseDirIndexText 10 (some "f\n".toList) []
      = .error (.undefinedBehaviour "std::string from NULL name") [] ∧
    parseDirIndexText 10 (some "d:\n".toList) []
      = .error (.undefinedBehaviour "std::string from NULL name") [] ∧
    parseDirIndex memPlatform 10 "/base" namelessFS "" []
      = .error (.undefinedBehaviour "std::string from NULL name")
          [{ type := .FileType, name := "a", hash := "#x", sizeInBytes := 0 }] ∧
    HTTPDirectory.new memPlatform 10 "/base" namelessFS 0 ""
      = .error (.undefinedBehaviour "std::string from NULL name") := by
  refine ⟨by rfl, by rfl, by rfl, by rfl, by rfl, by rfl⟩

/-! ## Child nodes over a local manifest the parser does not survive -/

/-- The constructor of a directory node over an existing directory whose manifest is one
line of 512 characters does not return, whatever the fuel. -/
theorem HTTPDirectory_new_long_line (P : Platform F) (fs : F) (basePath path : String)
    (addr : Nat) (hex : P.pathExists fs (SGPath.append basePath path) = true)
    (hfile : P.readFile fs (SGPath.append (SGPath.append basePath path) ".dirindex")
      = some longLineText) (fuel : Nat) :
    HTTPDirectory.new P fuel basePath fs addr path = .error .outOfFuel := by
  have htext : longLineText
      = unlines [] ++ (('f' :: ':' :: List.replicate 509 'a') ++ 'a' :: ['\n']) :=
    fileLine_split 509
  obtain ⟨cs, hcs⟩ := parseDirIndexLoop_long_line [] ('f' :: ':' :: List.replicate 509 'a') 'a'
    ['\n'] (fun x hx => absurd hx (List.not_mem_nil x)) (fileLine_accepted 508).1
    (fileLine_length 509).2 (by decide) (fileLine_accepted 508).2 fuel []
  have hparse : parseDirIndex P fuel basePath fs path [] = .error .outOfFuel cs := by
    unfold parseDirIndex parseDirIndexText
    dsimp only
    rw [hfile]
    dsimp only
    rw [htext]
    exact hcs
  unfold HTTPDirectory.new
  rw [if_pos hex, hparse]
  rfl

/-- When no node is registered for the path and the constructor of the new node does not
return, `getOrCreateDirectory` does not return either and registers nothing. -/
theorem getOrCreateDirectory_ctor_error (P : Platform F) (fuel : Nat) (s : HTTPRepoPrivate F)
    (path : String) (e : Err) (hmiss : s.directories.find? (DirectoryWithPath path) = none)
    (hctor : HTTPDirectory.new P fuel s.basePath s.fs s.nextAddr path = .error e) :
    getOrCreateDirectory P fuel s path = .error e s := by
  unfold getOrCreateDirectory
  rw [hmiss]
  dsimp only
  rw [hctor]

/-- When the first listed name is a directory entry of the index without a registered
node and the constructor of that node does not return, `scheduleUpdates` ends there:
no request is appended, for this name or for a later one. -/
theorem scheduleUpdates_ctor_error (P : Platform F) (fuel : Nat) (this : Nat)
    (d : HTTPDirectory) (name : String) (rest : List String) (s : HTTPRepoPrivate F)
    (c : ChildInfo) (e : Err) (hd : s.deref this = some d)
    (hfind : findIndexChild d name = some c) (hty : c.type ≠ .FileType)
    (hmiss : s.directories.find? (DirectoryWithPath (SGPath.append d.relativePath name)) = none)
    (hctor : HTTPDirectory.new P fuel s.basePath s.fs s.nextAddr
      (SGPath.append d.relativePath name) = .error e) :
    scheduleUpdates P fuel this (name :: rest) s = .error e s := by
  unfold scheduleUpdates withDir
  rw [hd]
  dsimp only
  rw [hfind]
  dsimp only
  rw [if_neg hty, getOrCreateDirectory_ctor_error P fuel s _ e hmiss hctor]
  rfl

/-- C19 at failing inputs: on the engine constructed on `badChildFS`, whose registry is
empty, `getOrCreateDirectory("sub")` finds no node and constructs one; the constructor
parses the local manifest `d:` and builds a name from the NULL pointer, so the call does not
return a node and the registry stays empty. `getOrCreateDirectory("big")`, over a local
manifest with a line of 512 characters, has not returned for any amount of fuel. In
neither case is a node appended. -/
theorem getOrCreateDirectory_miss_appends_nothing :
    HTTPRepository.new memPlatform 10 "/base" badChildFS = .ok badChildEngine ∧
    badChildEngine.directories = [] ∧
    getOrCreateDirectory memPlatform 10 badChildEngine "sub"
      = .error (.undefinedBehaviour "std::string from NULL name") badChildEngine ∧
    (∀ fuel, getOrCreateDirectory memPlatform fuel badChildEngine "big"
      = .error .outOfFuel badChildEngine) := by
  refine ⟨by rfl, by rfl, by rfl, ?_⟩
  intro fuel
  exact getOrCreateDirectory_ctor_error memPlatform fuel badChildEngine "big" .outOfFuel rfl
    (HTTPDirectory_new_long_line memPlatform badChildFS "/base" "big" 1 (by rfl) (by rfl) fuel)

/-- C7 at failing inputs: on the engine constructed on `badChildFS`, with base URL
`http://h/r`, the names `sub` and `big` are directory entries of the root manifest.
`scheduleUpdates` for `sub` (also with the further name `big` after it) creates the child
node, whose constructor parses the local manifest `d:` and builds a name from the NULL
pointer; `scheduleUpdates` for `big` creates a node whose constructor never finishes
reading the line of 512 characters. In both cases the call does not return and no request
has been appended. -/
theorem scheduleUpdates_bad_child_manifest :
    HTTPRepository.new memPlatform 10 "/base" badChildFS = .ok badChildEngine ∧
    findIndexChild badChildEngine.rootDir "sub"
      = some { type := .DirectoryType, name := "sub", hash := "#s", sizeInBytes := 0 } ∧
    findIndexChild badChildEngine.rootDir "big"
      = some { type := .DirectoryType, name := "big", hash := "#b", sizeInBytes := 0 } ∧
    (setBaseUrl badChildEngine "http://h/r").requests = [] ∧
    scheduleUpdates memPlatform 10 0 ["sub"] (setBaseUrl badChildEngine "http://h/r")
      = .error (.undefinedBehaviour "std::string from NULL name")
          (setBaseUrl badChildEngine "http://h/r") ∧
    scheduleUpdates memPlatform 10 0 ["sub", "big"] (setBaseUrl badChildEngine "http://h/r")
      = .error (.undefinedBehaviour "std::string from NULL name")
          (setBaseUrl badChildEngine "http://h/r") ∧
    (∀ fuel, scheduleUpdates memPlatform fuel 0 ["big"] (setBaseUrl badChildEngine "http://h/r")
      = .error .outOfFuel (setBaseUrl badChildEngine "http://h/r")) := by
  refine ⟨by rfl, by rfl, by rfl, by rfl, by rfl, by rfl, ?_⟩
  intro fuel
  exact scheduleUpdates_ctor_error memPlatform fuel 0 badChildEngine.rootDir "big" []
    (setBaseUrl badChildEngine "http://h/r")
    { type := .DirectoryType, name := "big", hash := "#b", sizeInBytes := 0 } .outOfFuel
    rfl (by rfl) (by decide) rfl
    (HTTPDirectory_new_long_line memPlatform badChildFS "/base" "big" 1 (by rfl) (by rfl) fuel)

end simgear
